import Mathlib

/-!
# native_simulator: HW scheduler and HW interrupt controller

A shallow embedding of `common/src/nsi_hw_scheduler.c` and
`native/src/irq_ctrl.c`, and theorems about it.

Conventions of the embedding

* C statics become fields of a record; every function takes the record and
  returns the new one.
* `uint64_t`/`uint8_t`/`unsigned int` values are `Nat`, `int` values are `Int`.
  Truncating stores are written with an explicit `%`.
* C arrays are total functions from the index; the array bound is the bound of
  the loops that walk them.
* A call that ends the process (`nsi_exit`, `nsi_print_error_and_exit`) is a
  `Result.stop` that carries the state at the moment the process ends.
* Calls into collaborators that are not part of these files (the CPU
  notifications `nsif_cpu0_irq_raised*`, `nsi_print_warning`) are recorded in
  ghost fields (`cpu_calls`, `warnings`); so is the index of every event
  callback the scheduler invokes (`dispatched`).
-/

namespace Nsi

/-! ## Process termination -/

/-- Why the process ended: `fatal` is `nsi_print_error_and_exit`, `exit c` is `nsi_exit(c)`. -/
inductive Stop where
  | fatal
  | exit (code : Int)
deriving DecidableEq

/-- Outcome of a C function on state `σ`: it returns (`ok`) or the process ends inside it
(`stop`), in both cases with the state reached. -/
inductive Result (σ : Type) where
  | ok (s : σ)
  | stop (why : Stop) (s : σ)
deriving DecidableEq

/-- The state an outcome carries. -/
def Result.state {σ : Type} : Result σ → σ
  | .ok s => s
  | .stop _ s => s

/-- Sequencing: what follows runs only when the first call returned. -/
def Result.bind {σ : Type} (r : Result σ) (f : σ → Result σ) : Result σ :=
  match r with
  | .ok s => f s
  | .stop why s => .stop why s

/-- Whether the call returned. -/
def Result.isOk {σ : Type} : Result σ → Bool
  | .ok _ => true
  | .stop _ _ => false

/-- A C loop `for (i = lo; i < hi; i++) body`. -/
def forLoop {σ : Type} (lo hi : Nat) (body : Nat → σ → σ) (s : σ) : σ :=
  (List.range (hi - lo)).foldl (fun acc j => body (lo + j) acc) s

/-! ## HW scheduler (`nsi_hw_scheduler.c`) -/

/-- Modelled from the spec: the macro `NSI_NEVER` is declared in `nsi_hw_scheduler.h`, which is
not among the sources; the spec calls it "the maximum representable time value" of the 64-bit
virtual time. -/
def NSI_NEVER : Nat := 2 ^ 64 - 1

/-- The statics of `nsi_hw_scheduler.c`. -/
structure Hws where
  simu_time : Nat
  end_of_time : Nat
  number_of_timers : Nat
  number_of_callbacks : Nat
  next_timer_index : Nat
  next_timer_time : Nat
  signaled_end : Bool
deriving DecidableEq

/-- The whole program state as the scheduler sees it: its own statics, the memory `mem` of the
hardware models (which holds the registered timers), and the ghost logs. -/
structure World (M : Type) where
  hws : Hws
  mem : M
  dispatched : List Nat
  warnings : Nat
deriving DecidableEq

/-- An event callback `void (*)(void)`. It may do anything to the models' memory and may call
the scheduler's public functions, or end the process; the scheduler's `static` variables
`simu_time`, `number_of_timers`, `number_of_callbacks` have no setter outside `nsi_hws_init`,
and the ghost log of dispatched callbacks is written by the scheduler only. -/
structure Callback (M : Type) where
  run : World M → Result (World M)
  frame : ∀ w : World M,
    (run w).state.hws.simu_time = w.hws.simu_time ∧
    (run w).state.hws.number_of_timers = w.hws.number_of_timers ∧
    (run w).state.hws.number_of_callbacks = w.hws.number_of_callbacks ∧
    (run w).state.dispatched = w.dispatched

/-- The link-time arrays `__nsi_hw_events_timers_start[]` (pointers to the timers, read through
the models' memory) and `__nsi_hw_events_callbacks_start[]`, filled by `NSI_HW_EVENT`. -/
structure Registry (M : Type) where
  timers : List (M → Nat)
  callbacks : List (Callback M)

/-- The value `*__nsi_hw_events_timers_start[i]`, a `uint64_t`. Reading past the end of the
array is undefined in C; the model reads 0 there. -/
def Registry.timer {M : Type} (reg : Registry M) (m : M) (i : Nat) : Nat :=
  match reg.timers[i]? with
  | some p => p m % 2 ^ 64
  | none => 0

/-- Body of the loop of `nsi_hws_find_next_event` on the pair
`(next_timer_index, next_timer_time)`. -/
def find_next_event_body (rd : Nat → Nat) (i : Nat) (acc : Nat × Nat) : Nat × Nat :=
  if acc.2 > rd i then (i, rd i) else acc

/-- `nsi_hws_find_next_event`. -/
def nsi_hws_find_next_event {M : Type} (reg : Registry M) (w : World M) : World M :=
  let r := forLoop 1 w.hws.number_of_timers (find_next_event_body (reg.timer w.mem))
    (0, reg.timer w.mem 0)
  { w with hws := { w.hws with next_timer_index := r.1, next_timer_time := r.2 } }

/-- `nsi_hws_sleep_until_next_event`. -/
def nsi_hws_sleep_until_next_event {M : Type} (w : World M) : Result (World M) :=
  let w1 : World M :=
    if w.hws.next_timer_time ≥ w.hws.simu_time then
      { w with hws := { w.hws with simu_time := w.hws.next_timer_time } }
    else
      { w with warnings := w.warnings + 1 }
  if w1.hws.signaled_end = true ∨ w1.hws.simu_time > w1.hws.end_of_time then
    .stop (.exit 0) w1
  else
    .ok w1

/-- `nsi_hws_one_event`. Calling through a pointer past the end of the callbacks array is
undefined in C; the model ends the process there. -/
def nsi_hws_one_event {M : Type} (reg : Registry M) (w : World M) : Result (World M) :=
  (nsi_hws_sleep_until_next_event w).bind fun w1 =>
    if w1.hws.next_timer_index < w1.hws.number_of_timers then
      match reg.callbacks[w1.hws.next_timer_index]? with
      | some cb =>
        (cb.run { w1 with dispatched := w1.dispatched ++ [w1.hws.next_timer_index] }).bind
          fun w2 => .ok (nsi_hws_find_next_event reg w2)
      | none => .stop .fatal w1
    else
      .stop .fatal w1

/-- `nsi_hws_set_end_of_time`. -/
def nsi_hws_set_end_of_time {M : Type} (new_end_of_time : Nat) (w : World M) : World M :=
  { w with hws := { w.hws with end_of_time := new_end_of_time } }

/-- `nsi_hws_get_time`. -/
def nsi_hws_get_time {M : Type} (w : World M) : Nat :=
  w.hws.simu_time

/-- `nsi_hws_init`. Installing the signal handler changes nothing the model tracks. -/
def nsi_hws_init {M : Type} (reg : Registry M) (w : World M) : Result (World M) :=
  let w1 : World M :=
    { w with hws := { w.hws with number_of_timers := reg.timers.length,
                                 number_of_callbacks := reg.callbacks.length } }
  if w1.hws.number_of_timers ≠ w1.hws.number_of_callbacks ∨ w1.hws.number_of_timers = 0 then
    .stop .fatal w1
  else
    .ok (nsi_hws_find_next_event reg w1)

/-- A run of the scheduler: `nsi_hws_init`, then `n` dispatch steps `nsi_hws_one_event`. -/
def hws_run {M : Type} (reg : Registry M) : Nat → World M → Result (World M)
  | 0, w => nsi_hws_init reg w
  | n + 1, w => (hws_run reg n w).bind (nsi_hws_one_event reg)

/-! ## HW interrupt controller (`irq_ctrl.c`) -/

/-- `#define BITS_U64 64`. -/
def BITS_U64 : Nat := 64

/-- `#define NUM_U64_IRQS (N_IRQS + BITS_U64 - 1) / BITS_U64`; `N_IRQS` comes from
`nsi_cpu0_interrupts.h`, which is not among the sources, and is a parameter here. -/
def NUM_U64_IRQS (N_IRQS : Nat) : Nat := (N_IRQS + BITS_U64 - 1) / BITS_U64

/-- The two CPU notifications the controller calls: `nsif_cpu0_irq_raised()` and
`nsif_cpu0_irq_raised_from_sw()`. -/
inductive CpuNotify where
  | irq_raised
  | irq_raised_from_sw
deriving DecidableEq

/-- The statics of `irq_ctrl.c`, and the ghost log `cpu_calls` of the CPU notifications made
so far (oldest first). -/
structure IrqCtrl where
  irq_ctrl_timer : Nat
  irq_status : Nat → Nat
  irq_premask : Nat → Nat
  irq_mask : Nat → Nat
  irqs_locked : Bool
  lock_ignore : Bool
  irq_prio : Nat → Nat
  currently_running_prio : Int
  cpu_calls : List CpuNotify

/-- The state of the statics when the program is loaded: `irq_ctrl_timer = NSI_NEVER`,
`currently_running_prio = 256`, everything else zero. -/
def IrqCtrl.initial : IrqCtrl where
  irq_ctrl_timer := NSI_NEVER
  irq_status := fun _ => 0
  irq_premask := fun _ => 0
  irq_mask := fun _ => 0
  irqs_locked := false
  lock_ignore := false
  irq_prio := fun _ => 0
  currently_running_prio := 256
  cpu_calls := []

/-- The C operator `~` on a `uint64_t`. -/
def not64 (x : Nat) : Nat := x ^^^ (2 ^ 64 - 1)

/-- `global_irq_to_bitmask`: the returned bit mask, and the word index it stores through
`u64_idx`. -/
def global_irq_to_bitmask (irq : Nat) : Nat × Nat :=
  (1 <<< (irq % BITS_U64), irq / BITS_U64)

/-- Search of `nsi_find_lsb_set64` from bit `i` upwards, over at most `fuel` bits. -/
def find_lsb_from (x : Nat) : Nat → Nat → Nat
  | 0, _ => 0
  | fuel + 1, i => if x.testBit i then i + 1 else find_lsb_from x fuel (i + 1)

/-- Modelled from the spec: `nsi_find_lsb_set64` is declared in `nsi_utils.h`, which is not
among the sources. The spec has the arbitration scan the status-visible interrupts "in
ascending index order", so it is the find-first-set of a 64-bit word: one plus the index of
the least significant set bit, and 0 for the word 0. -/
def nsi_find_lsb_set64 (x : Nat) : Nat := find_lsb_from x 64 0

/-- `hw_irq_ctrl_init`. -/
def hw_irq_ctrl_init (N_IRQS : Nat) (c : IrqCtrl) : IrqCtrl :=
  let c1 := forLoop 0 (NUM_U64_IRQS N_IRQS)
    (fun i (c : IrqCtrl) =>
      { c with irq_mask := Function.update c.irq_mask i 0,
               irq_premask := Function.update c.irq_premask i 0 }) c
  let c2 := { c1 with irqs_locked := false, lock_ignore := false }
  forLoop 0 N_IRQS (fun i (c : IrqCtrl) => { c with irq_prio := Function.update c.irq_prio i 255 }) c2

/-- `hw_irq_ctrl_set_cur_prio`. -/
def hw_irq_ctrl_set_cur_prio (new : Int) (c : IrqCtrl) : IrqCtrl :=
  { c with currently_running_prio := new }

/-- `hw_irq_ctrl_get_cur_prio`. -/
def hw_irq_ctrl_get_cur_prio (c : IrqCtrl) : Int :=
  c.currently_running_prio

/-- `hw_irq_ctrl_prio_set`; the store into the `uint8_t` array truncates. -/
def hw_irq_ctrl_prio_set (N_IRQS irq prio : Nat) (c : IrqCtrl) : Result IrqCtrl :=
  if irq ≥ N_IRQS then .stop .fatal c
  else .ok { c with irq_prio := Function.update c.irq_prio irq (prio % 256) }

/-- `hw_irq_ctrl_get_prio`. -/
def hw_irq_ctrl_get_prio (N_IRQS irq : Nat) (c : IrqCtrl) : Except Stop Nat :=
  if irq ≥ N_IRQS then .error .fatal
  else .ok (c.irq_prio irq)

/-- One pass of the `while (status != 0)` loop of `hw_irq_ctrl_get_highest_prio_irq` over the
word `i`, on the pair `(winner, winner_prio)`. Each pass clears one bit of a 64-bit word, so
64 passes (the fuel given by the caller) empty it. -/
def scan_status (irq_prio : Nat → Nat) (cur : Int) (i : Nat) : Nat → Nat → Int × Int → Int × Int
  | 0, _, acc => acc
  | fuel + 1, status, acc =>
    if status ≠ 0 then
      let bit_idx := nsi_find_lsb_set64 status - 1
      let irq_nbr := bit_idx + i * BITS_U64
      let acc1 : Int × Int :=
        if acc.2 > (irq_prio irq_nbr : Int) ∧ cur > (irq_prio irq_nbr : Int) then
          ((irq_nbr : Int), (irq_prio irq_nbr : Int))
        else acc
      scan_status irq_prio cur i fuel (status &&& not64 (1 <<< bit_idx)) acc1
    else acc

/-- `hw_irq_ctrl_get_highest_prio_irq`. -/
def hw_irq_ctrl_get_highest_prio_irq (N_IRQS : Nat) (c : IrqCtrl) : Int :=
  if c.irqs_locked then -1
  else
    (forLoop 0 (NUM_U64_IRQS N_IRQS)
      (fun i acc => scan_status c.irq_prio c.currently_running_prio i BITS_U64 (c.irq_status i) acc)
      ((-1 : Int), (256 : Int))).1

/-- `hw_irq_ctrl_get_current_lock`. -/
def hw_irq_ctrl_get_current_lock (c : IrqCtrl) : Nat :=
  if c.irqs_locked then 1 else 0

/-- `hw_irq_ctrl_change_lock`: the returned previous lock, and the new state. The loop state
is the controller and whether `break` was taken. -/
def hw_irq_ctrl_change_lock (N_IRQS new_lock : Nat) (c : IrqCtrl) : Nat × IrqCtrl :=
  let previous_lock : Nat := if c.irqs_locked then 1 else 0
  let c1 := { c with irqs_locked := decide (new_lock ≠ 0) }
  let c2 :=
    if previous_lock = 1 ∧ new_lock = 0 then
      (forLoop 0 (NUM_U64_IRQS N_IRQS)
        (fun i (st : IrqCtrl × Bool) =>
          if st.2 then st
          else if st.1.irq_status i ≠ 0 then
            ({ st.1 with cpu_calls := st.1.cpu_calls ++ [CpuNotify.irq_raised_from_sw] }, true)
          else st)
        (c1, false)).1
    else c1
  (previous_lock, c2)

/-- `hw_irq_ctrl_get_irq_status` (present when `N_IRQS <= 64`). -/
def hw_irq_ctrl_get_irq_status (c : IrqCtrl) : Nat :=
  c.irq_status 0

/-- `hw_irq_ctrl_clear_all_enabled_irqs`. -/
def hw_irq_ctrl_clear_all_enabled_irqs (N_IRQS : Nat) (c : IrqCtrl) : IrqCtrl :=
  forLoop 0 (NUM_U64_IRQS N_IRQS)
    (fun i (c : IrqCtrl) =>
      { c with irq_status := Function.update c.irq_status i 0,
               irq_premask := Function.update c.irq_premask i
                 (c.irq_premask i &&& not64 (c.irq_mask i)) }) c

/-- `hw_irq_ctrl_clear_all_irqs`. -/
def hw_irq_ctrl_clear_all_irqs (N_IRQS : Nat) (c : IrqCtrl) : IrqCtrl :=
  forLoop 0 (NUM_U64_IRQS N_IRQS)
    (fun i (c : IrqCtrl) =>
      { c with irq_status := Function.update c.irq_status i 0,
               irq_premask := Function.update c.irq_premask i 0 }) c

/-- `hw_irq_ctrl_disable_irq`. -/
def hw_irq_ctrl_disable_irq (N_IRQS irq : Nat) (c : IrqCtrl) : Result IrqCtrl :=
  if irq ≥ N_IRQS then .stop .fatal c
  else
    let bit_mask := (global_irq_to_bitmask irq).1
    let u64_idx := (global_irq_to_bitmask irq).2
    .ok { c with irq_mask := Function.update c.irq_mask u64_idx
                   (c.irq_mask u64_idx &&& not64 bit_mask) }

/-- `hw_irq_ctrl_is_irq_enabled`; the `uint64_t` value of the `&` is converted to the `int`
that is returned, which keeps its low 32 bits (two's complement). -/
def hw_irq_ctrl_is_irq_enabled (N_IRQS irq : Nat) (c : IrqCtrl) : Except Stop Int :=
  if irq ≥ N_IRQS then .error .fatal
  else
    let bit_mask := (global_irq_to_bitmask irq).1
    let u64_idx := (global_irq_to_bitmask irq).2
    let v : Nat := (c.irq_mask u64_idx &&& bit_mask) % 2 ^ 32
    .ok (if v < 2 ^ 31 then (v : Int) else (v : Int) - 2 ^ 32)

/-- `hw_irq_ctrl_clear_irq`. -/
def hw_irq_ctrl_clear_irq (N_IRQS irq : Nat) (c : IrqCtrl) : Result IrqCtrl :=
  if irq ≥ N_IRQS then .stop .fatal c
  else
    let bit_mask := (global_irq_to_bitmask irq).1
    let u64_idx := (global_irq_to_bitmask irq).2
    .ok { c with irq_status := Function.update c.irq_status u64_idx
                   (c.irq_status u64_idx &&& not64 bit_mask),
                 irq_premask := Function.update c.irq_premask u64_idx
                   (c.irq_premask u64_idx &&& not64 bit_mask) }

/-- The function `hw_irq_ctrl_irq_raise_prefix`; `PHONY_HARD_IRQ` comes from `nsi_cpu0_interrupts.h`, which
is not among the sources, and is a parameter here. -/
def hw_irq_ctrl_irq_raise_prefix (N_IRQS PHONY_HARD_IRQ irq : Nat) (c : IrqCtrl) :
    Result IrqCtrl :=
  let checked : Result IrqCtrl :=
    if irq = PHONY_HARD_IRQ then .ok { c with lock_ignore := true }
    else if irq ≥ N_IRQS then .stop .fatal c
    else .ok c
  checked.bind fun c1 =>
    let bit_mask := (global_irq_to_bitmask irq).1
    let u64_idx := (global_irq_to_bitmask irq).2
    let c2 := { c1 with irq_premask := Function.update c1.irq_premask u64_idx
                          (c1.irq_premask u64_idx ||| bit_mask) }
    if c2.irq_mask u64_idx &&& bit_mask ≠ 0 then
      .ok { c2 with irq_status := Function.update c2.irq_status u64_idx
                      (c2.irq_status u64_idx ||| bit_mask) }
    else .ok c2

/-- `hw_irq_ctrl_raise_im_from_sw`. -/
def hw_irq_ctrl_raise_im_from_sw (N_IRQS PHONY_HARD_IRQ irq : Nat) (c : IrqCtrl) :
    Result IrqCtrl :=
  if irq ≥ N_IRQS then .stop .fatal c
  else
    Result.bind ( hw_irq_ctrl_irq_raise_prefix N_IRQS PHONY_HARD_IRQ irq c) fun c1 =>
      if c1.irqs_locked = false then
        .ok { c1 with cpu_calls := c1.cpu_calls ++ [CpuNotify.irq_raised_from_sw] }
      else .ok c1

/-- `hw_irq_ctrl_enable_irq`. -/
def hw_irq_ctrl_enable_irq (N_IRQS PHONY_HARD_IRQ irq : Nat) (c : IrqCtrl) : Result IrqCtrl :=
  if irq ≥ N_IRQS then .stop .fatal c
  else
    let bit_mask := (global_irq_to_bitmask irq).1
    let u64_idx := (global_irq_to_bitmask irq).2
    let c1 := { c with irq_mask := Function.update c.irq_mask u64_idx
                         (c.irq_mask u64_idx ||| bit_mask) }
    if c1.irq_premask u64_idx &&& bit_mask ≠ 0 then
      hw_irq_ctrl_raise_im_from_sw N_IRQS PHONY_HARD_IRQ irq c1
    else .ok c1

/-- `irq_raising_from_hw_now`. -/
def irq_raising_from_hw_now (c : IrqCtrl) : IrqCtrl :=
  if c.irqs_locked = false ∨ c.lock_ignore = true then
    { c with lock_ignore := false, cpu_calls := c.cpu_calls ++ [CpuNotify.irq_raised] }
  else c

/-- `hw_irq_ctrl_raise_im`. -/
def hw_irq_ctrl_raise_im (N_IRQS PHONY_HARD_IRQ irq : Nat) (c : IrqCtrl) : Result IrqCtrl :=
  if irq ≥ N_IRQS then .stop .fatal c
  else
    Result.bind ( hw_irq_ctrl_irq_raise_prefix N_IRQS PHONY_HARD_IRQ irq c) fun c1 =>
      .ok (irq_raising_from_hw_now c1)

/-- The controller inside a whole program: the models' memory is the controller's statics and
the memory `X` of the other models. -/
abbrev IrqWorld (X : Type) := World (IrqCtrl × X)

/-- Replace the controller's statics in the program state. -/
def World.setCtrl {X : Type} (w : IrqWorld X) (c : IrqCtrl) : IrqWorld X :=
  { w with mem := (c, w.mem.2) }

/-- `hw_irq_ctrl_set_irq`. -/
def hw_irq_ctrl_set_irq {X : Type} (reg : Registry (IrqCtrl × X))
    (N_IRQS PHONY_HARD_IRQ irq : Nat) (w : IrqWorld X) : Result (IrqWorld X) :=
  if irq ≥ N_IRQS then .stop .fatal w
  else
    match hw_irq_ctrl_irq_raise_prefix N_IRQS PHONY_HARD_IRQ irq w.mem.1 with
    | .stop why c1 => .stop why (w.setCtrl c1)
    | .ok c1 =>
      if c1.irqs_locked = false ∨ c1.lock_ignore = true then
        let c2 := { c1 with irq_ctrl_timer := nsi_hws_get_time w }
        .ok (nsi_hws_find_next_event reg (w.setCtrl c2))
      else .ok (w.setCtrl c1)

/-- `hw_irq_ctrl_timer_triggered`, the callback registered with
`NSI_HW_EVENT(irq_ctrl_timer, hw_irq_ctrl_timer_triggered, 900)`. -/
def hw_irq_ctrl_timer_triggered {X : Type} (reg : Registry (IrqCtrl × X)) (w : IrqWorld X) :
    IrqWorld X :=
  let c1 := { w.mem.1 with irq_ctrl_timer := NSI_NEVER }
  let c2 := irq_raising_from_hw_now c1
  nsi_hws_find_next_event reg (w.setCtrl c2)

/-! ## Vocabulary of the statements -/

/-- Bit `irq` of a segmented bitset (`irq_status`, `irq_premask` or `irq_mask`). -/
def irq_bit (words : Nat → Nat) (irq : Nat) : Bool :=
  (words (irq / BITS_U64)).testBit (irq % BITS_U64)

/-- Interrupt `irq` is status-visible: its bit lies in one of the `NUM_U64_IRQS` status words
and is set. -/
def StatusVisible (N_IRQS : Nat) (c : IrqCtrl) (irq : Nat) : Prop :=
  irq / BITS_U64 < NUM_U64_IRQS N_IRQS ∧ irq_bit c.irq_status irq = true

/-- The state is a valid C state: the bitset words are `uint64_t`, the priorities `uint8_t`. -/
structure IrqCtrl.WellTyped (c : IrqCtrl) : Prop where
  status_lt : ∀ i, c.irq_status i < 2 ^ 64
  premask_lt : ∀ i, c.irq_premask i < 2 ^ 64
  mask_lt : ∀ i, c.irq_mask i < 2 ^ 64
  prio_lt : ∀ i, c.irq_prio i < 256

/-- An example controller state (for `N_IRQS = 128`): interrupts 5 and 9 are requested, enabled
and status-visible, with priorities 10 and 20; all other priorities are 255. -/
def exampleCtrl : IrqCtrl where
  irq_ctrl_timer := NSI_NEVER
  irq_status := fun i => if i = 0 then 544 else 0
  irq_premask := fun i => if i = 0 then 544 else 0
  irq_mask := fun i => if i = 0 then 544 else 0
  irqs_locked := false
  lock_ignore := false
  irq_prio := fun i => if i = 5 then 10 else if i = 9 then 20 else 255
  currently_running_prio := 256
  cpu_calls := []

/-- The example of the spec for `clear_all_visible` (with `N_IRQS = 128`): premask = {5, 9},
mask = {5}, hence status = {5}. -/
def exampleMasked : IrqCtrl where
  irq_ctrl_timer := NSI_NEVER
  irq_status := fun i => if i = 0 then 32 else 0
  irq_premask := fun i => if i = 0 then 544 else 0
  irq_mask := fun i => if i = 0 then 32 else 0
  irqs_locked := false
  lock_ignore := false
  irq_prio := fun _ => 255
  currently_running_prio := 256
  cpu_calls := []

/-- An example program state around `exampleMasked`: a locked controller at virtual time 100,
no other model. -/
def exampleIrqWorld : IrqWorld Unit where
  hws := { simu_time := 100, end_of_time := NSI_NEVER, number_of_timers := 1,
           number_of_callbacks := 1, next_timer_index := 0, next_timer_time := NSI_NEVER,
           signaled_end := false }
  mem := ({ exampleMasked with irqs_locked := true }, ())
  dispatched := []
  warnings := 0

/-- Index `idx` is the first one, among the `n` timers read by `rd`, that holds the minimum. -/
def IsFirstMin (rd : Nat → Nat) (n idx : Nat) : Prop :=
  idx < n ∧ (∀ j, j < n → rd idx ≤ rd j) ∧ (∀ j, j < idx → rd idx < rd j)

/-- The pair `(winner, winner_prio)` is what the arbitration scan should hold once the
interrupts below `k` have been looked at: nothing (`-1`, `256`) when none of the visible ones
beats `cur`, else the first visible interrupt of least priority value. -/
def Best (vis : Nat → Prop) (prio : Nat → Nat) (cur : Int) (k : Nat) (acc : Int × Int) : Prop :=
  (acc = ((-1 : Int), (256 : Int)) ∧ ∀ j, j < k → vis j → ¬ ((prio j : Int) < cur)) ∨
  (∃ i, i < k ∧ acc = ((i : Int), (prio i : Int)) ∧ vis i ∧ (prio i : Int) < cur ∧
    (∀ j, j < k → vis j → prio i ≤ prio j) ∧ (∀ j, j < i → vis j → prio i < prio j))

/-- What every pass of the arbitration scan keeps: the winner is `-1` or an interrupt whose
priority is strictly below `cur`. -/
def WinnerOk (prio : Nat → Nat) (cur : Int) (acc : Int × Int) : Prop :=
  acc.1 = -1 ∨ ∃ n : Nat, acc.1 = (n : Int) ∧ (prio n : Int) < cur

/-- What holds of the scheduler between the dispatch steps of a run: the counts are those of
the registry, which is not empty and has one callback per timer, and the cached
`next_timer_index`/`next_timer_time` are the first minimum of the timers as they are now. -/
def Coherent {M : Type} (reg : Registry M) (w : World M) : Prop :=
  w.hws.number_of_timers = reg.timers.length ∧
  w.hws.number_of_callbacks = reg.callbacks.length ∧
  reg.timers.length = reg.callbacks.length ∧
  IsFirstMin (reg.timer w.mem) reg.timers.length w.hws.next_timer_index ∧
  w.hws.next_timer_time = reg.timer w.mem w.hws.next_timer_index

/-- The state `nsi_hws_sleep_until_next_event` leaves: time advanced to the cached next time,
or a warning when that lies in the past. -/
def advanced {M : Type} (w : World M) : World M :=
  if w.hws.next_timer_time ≥ w.hws.simu_time then
    { w with hws := { w.hws with simu_time := w.hws.next_timer_time } }
  else
    { w with warnings := w.warnings + 1 }

/-- An example callback: it sets the first of two timers to `NSI_NEVER`. -/
def exampleCb0 : Callback (Nat × Nat) where
  run := fun w => .ok { w with mem := (NSI_NEVER, w.mem.2) }
  frame := fun _ => ⟨rfl, rfl, rfl, rfl⟩

/-- An example callback: it sets the second of two timers to `NSI_NEVER`. -/
def exampleCb1 : Callback (Nat × Nat) where
  run := fun w => .ok { w with mem := (w.mem.1, NSI_NEVER) }
  frame := fun _ => ⟨rfl, rfl, rfl, rfl⟩

/-- An example registry: two one-shot event sources, whose memory is their two timers. -/
def exampleReg : Registry (Nat × Nat) where
  timers := [fun m => m.1, fun m => m.2]
  callbacks := [exampleCb0, exampleCb1]

/-- An example program state at start-up: time 0, no deadline (`end_of_time = NSI_NEVER`), the
two timers of `exampleReg` set to 5 and 7. -/
def exampleWorld : World (Nat × Nat) where
  hws := { simu_time := 0, end_of_time := NSI_NEVER, number_of_timers := 0,
           number_of_callbacks := 0, next_timer_index := 0, next_timer_time := 0,
           signaled_end := false }
  mem := (5, 7)
  dispatched := []
  warnings := 0

/-- A locked controller right after start-up, for 64 interrupts: `hw_irq_ctrl_init`, then
`hw_irq_ctrl_change_lock(1)`. -/
def lockedCtrl : IrqCtrl :=
  (hw_irq_ctrl_change_lock 64 1 (hw_irq_ctrl_init 64 IrqCtrl.initial)).2

/-- The timers array as the linker lays it out when the controller is the only model:
`NSI_HW_EVENT(irq_ctrl_timer, hw_irq_ctrl_timer_triggered, 900)` puts a pointer to
`irq_ctrl_timer` in it. `nsi_hws_find_next_event` reads nothing else of the registry. -/
def irqTimers : Registry (IrqCtrl × Unit) where
  timers := [fun m => m.1.irq_ctrl_timer]
  callbacks := []

/-- The callback `hw_irq_ctrl_timer_triggered` as a registry entry. -/
def irqTimerCb : Callback (IrqCtrl × Unit) where
  run := fun w => .ok (hw_irq_ctrl_timer_triggered irqTimers w)
  frame := fun _ => ⟨rfl, rfl, rfl, rfl⟩

/-- The registry of a program whose only hardware model is the interrupt controller. -/
def irqReg : Registry (IrqCtrl × Unit) where
  timers := [fun m => m.1.irq_ctrl_timer]
  callbacks := [irqTimerCb]

/-- The program state after start-up with `N_IRQS` interrupts: the statics as loaded, then
`hw_irq_ctrl_init` (a `HW_INIT` task), then `nsi_hws_init`. -/
def bootWorld (N_IRQS : Nat) : IrqWorld Unit :=
  (nsi_hws_init irqReg
    { hws := { simu_time := 0, end_of_time := NSI_NEVER, number_of_timers := 0,
               number_of_callbacks := 0, next_timer_index := 0, next_timer_time := 0,
               signaled_end := false }
      mem := (hw_irq_ctrl_init N_IRQS IrqCtrl.initial, ())
      dispatched := []
      warnings := 0 }).state

/-- Run a controller function on the controller inside the program state. -/
def World.onCtrl {X : Type} (f : IrqCtrl → Result IrqCtrl) (w : IrqWorld X) :
    Result (IrqWorld X) :=
  match f w.mem.1 with
  | .ok c => .ok (w.setCtrl c)
  | .stop why c => .stop why (w.setCtrl c)

/-- First part of the end-to-end scenario of the spec, for 128 interrupts: `set_priority(5,10)`,
`set_priority(9,20)`, `raise_delayed(5)`, `raise_delayed(9)` from the start-up state. -/
def scenarioRaised (PHONY_HARD_IRQ : Nat) : Result (IrqWorld Unit) :=
  (((World.onCtrl (hw_irq_ctrl_prio_set 128 5 10) (bootWorld 128)).bind
    (World.onCtrl (hw_irq_ctrl_prio_set 128 9 20))).bind
    (hw_irq_ctrl_set_irq irqReg 128 PHONY_HARD_IRQ 5)).bind
    (hw_irq_ctrl_set_irq irqReg 128 PHONY_HARD_IRQ 9)

/-- Second part of the scenario: then `enable(5)`, `enable(9)`. -/
def scenarioEnabled (PHONY_HARD_IRQ : Nat) : Result (IrqWorld Unit) :=
  ((scenarioRaised PHONY_HARD_IRQ).bind
    (World.onCtrl (hw_irq_ctrl_enable_irq 128 PHONY_HARD_IRQ 5))).bind
    (World.onCtrl (hw_irq_ctrl_enable_irq 128 PHONY_HARD_IRQ 9))

/-- Third part of the scenario: then `set_current_running_priority(10)`. -/
def scenarioRunning (PHONY_HARD_IRQ : Nat) : Result (IrqWorld Unit) :=
  (scenarioEnabled PHONY_HARD_IRQ).bind
    fun w => .ok (w.setCtrl (hw_irq_ctrl_set_cur_prio 10 w.mem.1))

/-- An example callback: it sets the only timer of its model to 3, whatever the time is. -/
def exampleCbPast : Callback Nat where
  run := fun w => .ok { w with mem := 3 }
  frame := fun _ => ⟨rfl, rfl, rfl, rfl⟩

/-- An example registry: one event source whose memory is its timer. -/
def pastReg : Registry Nat where
  timers := [fun m => m]
  callbacks := [exampleCbPast]

/-- An example program state at start-up: time 0, no deadline, the timer of `pastReg` set
to 5. -/
def pastWorld : World Nat where
  hws := { simu_time := 0, end_of_time := NSI_NEVER, number_of_timers := 0,
           number_of_callbacks := 0, next_timer_index := 0, next_timer_time := 0,
           signaled_end := false }
  mem := 5
  dispatched := []
  warnings := 0

/-- The invariant of the controller's bitsets: every status bit that is set has its premask
bit set, and no premask, status or mask bit is set at an index `>= N_IRQS`. -/
def CtrlInv (N_IRQS : Nat) (c : IrqCtrl) : Prop :=
  (∀ j, irq_bit c.irq_status j = true → irq_bit c.irq_premask j = true) ∧
  (∀ j, N_IRQS ≤ j → irq_bit c.irq_premask j = false ∧ irq_bit c.irq_status j = false ∧
    irq_bit c.irq_mask j = false)

/-- The interrupt numbers with which one run of the `while` loop of
`hw_irq_ctrl_get_highest_prio_irq` over the word `i` indexes `irq_prio`, in the order of the
reads: the loop of `scan_status` with the reads recorded. -/
def scan_status_reads (i : Nat) : Nat → Nat → List Nat
  | 0, _ => []
  | fuel + 1, status =>
    if status ≠ 0 then
      let bit_idx := nsi_find_lsb_set64 status - 1
      let irq_nbr := bit_idx + i * BITS_U64
      irq_nbr :: scan_status_reads i fuel (status &&& not64 (1 <<< bit_idx))
    else []

/-- The `if` of `hw_irq_ctrl_get_highest_prio_irq` (the only statement that indexes
`irq_prio`) for the interrupt number `irq_nbr`, on the pair `(winner, winner_prio)`. -/
def arbitration_step (irq_prio : Nat → Nat) (cur : Int) (acc : Int × Int) (irq_nbr : Nat) :
    Int × Int :=
  if acc.2 > (irq_prio irq_nbr : Int) ∧ cur > (irq_prio irq_nbr : Int) then
    ((irq_nbr : Int), (irq_prio irq_nbr : Int))
  else acc

/-- All the interrupt numbers with which `hw_irq_ctrl_get_highest_prio_irq` indexes
`irq_prio` in one call. -/
def highest_prio_irq_reads (N_IRQS : Nat) (c : IrqCtrl) : List Nat :=
  if c.irqs_locked then []
  else
    forLoop 0 (NUM_U64_IRQS N_IRQS)
      (fun i acc => acc ++ scan_status_reads i BITS_U64 (c.irq_status i)) []

/-! ## Loops -/

theorem forLoop_empty {σ : Type} (lo hi : Nat) (body : Nat → σ → σ) (s : σ) (h : hi ≤ lo) :
    forLoop lo hi body s = s := by
  have h0 : hi - lo = 0 := by omega
  simp [forLoop, h0]

theorem forLoop_succ {σ : Type} (lo hi : Nat) (body : Nat → σ → σ) (s : σ) (h : lo ≤ hi) :
    forLoop lo (hi + 1) body s = body hi (forLoop lo hi body s) := by
  have h1 : hi + 1 - lo = (hi - lo) + 1 := by omega
  have h2 : lo + (hi - lo) = hi := by omega
  simp [forLoop, h1, List.range_succ, List.foldl_append, h2]

/-- Invariant rule for `forLoop`. -/
theorem forLoop_inv {σ : Type} (P : Nat → σ → Prop) (lo hi : Nat) (body : Nat → σ → σ) (s : σ)
    (hle : lo ≤ hi) (h0 : P lo s)
    (hstep : ∀ i acc, lo ≤ i → i < hi → P i acc → P (i + 1) (body i acc)) :
    P hi (forLoop lo hi body s) := by
  induction hi with
  | zero =>
    have : lo = 0 := by omega
    subst this
    simpa [forLoop] using h0
  | succ n ih =>
    by_cases hn : lo ≤ n
    · rw [forLoop_succ lo n body s hn]
      exact hstep n _ hn (by omega) (ih hn (fun i acc h1 h2 h3 => hstep i acc h1 (by omega) h3))
    · have : lo = n + 1 := by omega
      subst this
      rw [forLoop_empty _ _ _ _ (Nat.le_refl _)]
      exact h0

/-! ## Bits of a 64-bit word -/

theorem testBit_not64 (y j : Nat) : (not64 y).testBit j = (y.testBit j != decide (j < 64)) := by
  unfold not64
  rw [Nat.testBit_xor, Nat.testBit_two_pow_sub_one]

theorem testBit_one_shiftLeft (b j : Nat) : (1 <<< b).testBit j = decide (b = j) := by
  rw [Nat.one_shiftLeft, Nat.testBit_two_pow]

/-- Clearing bit `b`: `x & ~(1 << b)`. -/
theorem testBit_clear (x b j : Nat) (hj : j < 64) :
    (x &&& not64 (1 <<< b)).testBit j = (x.testBit j && decide (b ≠ j)) := by
  rw [Nat.testBit_and, testBit_not64, testBit_one_shiftLeft]
  by_cases h : b = j <;> simp [h, hj]

theorem find_lsb_from_none (x : Nat) : ∀ fuel i : Nat,
    (∀ j, i ≤ j → j < i + fuel → x.testBit j = false) → find_lsb_from x fuel i = 0 := by
  intro fuel
  induction fuel with
  | zero => intro i _; rfl
  | succ n ih =>
    intro i h
    have h0 : x.testBit i = false := h i (Nat.le_refl _) (by omega)
    simp only [find_lsb_from, h0]
    exact ih (i + 1) (fun j h1 h2 => h j (by omega) (by omega))

theorem find_lsb_from_some (x : Nat) : ∀ fuel i b : Nat, i ≤ b → b < i + fuel →
    x.testBit b = true → (∀ j, i ≤ j → j < b → x.testBit j = false) →
    find_lsb_from x fuel i = b + 1 := by
  intro fuel
  induction fuel with
  | zero => intro i b h1 h2; omega
  | succ n ih =>
    intro i b h1 h2 hb hlow
    by_cases hib : i = b
    · subst hib
      simp [find_lsb_from, hb]
    · have h0 : x.testBit i = false := hlow i (Nat.le_refl _) (by omega)
      simp only [find_lsb_from, h0]
      exact ih (i + 1) b (by omega) (by omega) hb (fun j h3 h4 => hlow j (by omega) h4)

/-- A non-zero 64-bit word has a least set bit, and `nsi_find_lsb_set64` finds it. -/
theorem find_lsb_set64_spec (x : Nat) (hx : x < 2 ^ 64) (hne : x ≠ 0) :
    ∃ b, b < 64 ∧ x.testBit b = true ∧ (∀ j, j < b → x.testBit j = false) ∧
      nsi_find_lsb_set64 x = b + 1 := by
  classical
  have hex : ∃ i, x.testBit i = true := Nat.ne_zero_implies_bit_true hne
  refine ⟨Nat.find hex, ?_, Nat.find_spec hex, ?_, ?_⟩
  · by_contra hge
    have h1 : x < 2 ^ (Nat.find hex) :=
      Nat.lt_of_lt_of_le hx (Nat.pow_le_pow_right (by decide) (by omega))
    have h2 := Nat.testBit_lt_two_pow h1
    rw [Nat.find_spec hex] at h2
    exact Bool.noConfusion h2
  · intro j hj
    have := Nat.find_min hex hj
    simpa using this
  · have hlt : Nat.find hex < 64 := by
      by_contra hge
      have h1 : x < 2 ^ (Nat.find hex) :=
        Nat.lt_of_lt_of_le hx (Nat.pow_le_pow_right (by decide) (by omega))
      have h2 := Nat.testBit_lt_two_pow h1
      rw [Nat.find_spec hex] at h2
      exact Bool.noConfusion h2
    exact find_lsb_from_some x 64 0 (Nat.find hex) (Nat.zero_le _) (by omega) (Nat.find_spec hex)
      (fun j _ hj => by
        have := Nat.find_min hex hj
        simpa using this)

/-! ## Arbitration: `hw_irq_ctrl_get_highest_prio_irq` -/

theorem best_skip (vis : Nat → Prop) (prio : Nat → Nat) (cur : Int) (k : Nat) (acc : Int × Int)
    (h : Best vis prio cur k acc) (hk : ¬ vis k) : Best vis prio cur (k + 1) acc := by
  have hcase : ∀ j, j < k + 1 → vis j → j < k := by
    intro j hj hv
    by_cases hjk : j = k
    · subst hjk; exact absurd hv hk
    · omega
  rcases h with ⟨hacc, hnone⟩ | ⟨i, hik, hacc, hvi, hlt, hmin, hfirst⟩
  · exact Or.inl ⟨hacc, fun j hj hv => hnone j (hcase j hj hv) hv⟩
  · exact Or.inr ⟨i, by omega, hacc, hvi, hlt, fun j hj hv => hmin j (hcase j hj hv) hv, hfirst⟩

theorem best_skip_range (vis : Nat → Prop) (prio : Nat → Nat) (cur : Int) (k : Nat)
    (acc : Int × Int) (h : Best vis prio cur k acc) :
    ∀ d : Nat, (∀ j, k ≤ j → j < k + d → ¬ vis j) → Best vis prio cur (k + d) acc := by
  intro d
  induction d with
  | zero => intro _; exact h
  | succ n ih =>
    intro hno
    have h1 := ih (fun j h1 h2 => hno j h1 (by omega))
    exact best_skip vis prio cur (k + n) acc h1 (hno (k + n) (by omega) (by omega))

theorem best_take (vis : Nat → Prop) (prio : Nat → Nat) (cur : Int) (k : Nat) (acc : Int × Int)
    (h : Best vis prio cur k acc) (hk : vis k) (hp : prio k < 256) :
    Best vis prio cur (k + 1)
      (if acc.2 > (prio k : Int) ∧ cur > (prio k : Int) then ((k : Int), (prio k : Int))
       else acc) := by
  rcases h with ⟨hacc, hnone⟩ | ⟨i, hik, hacc, hvi, hlt, hmin, hfirst⟩
  · subst hacc
    by_cases hc : cur > (prio k : Int)
    · have hcond : (256 : Int) > (prio k : Int) ∧ cur > (prio k : Int) := ⟨by omega, hc⟩
      simp only [hcond, and_self, if_true]
      refine Or.inr ⟨k, by omega, rfl, hk, hc, ?_, ?_⟩
      · intro j hj hv
        by_cases hjk : j = k
        · subst hjk; exact Nat.le_refl _
        · have := hnone j (by omega) hv
          omega
      · intro j hj hv
        have := hnone j hj hv
        omega
    · have hcond : ¬ ((256 : Int) > (prio k : Int) ∧ cur > (prio k : Int)) := fun h => hc h.2
      simp only [hcond, if_false]
      refine Or.inl ⟨rfl, ?_⟩
      intro j hj hv
      by_cases hjk : j = k
      · subst hjk; omega
      · exact hnone j (by omega) hv
  · subst hacc
    by_cases hc : prio k < prio i
    · have hcond : ((prio i : Int) > (prio k : Int)) ∧ cur > (prio k : Int) :=
        ⟨by omega, by omega⟩
      simp only [hcond, and_self, if_true]
      refine Or.inr ⟨k, by omega, rfl, hk, by omega, ?_, ?_⟩
      · intro j hj hv
        by_cases hjk : j = k
        · subst hjk; exact Nat.le_refl _
        · have := hmin j (by omega) hv
          omega
      · intro j hj hv
        have := hmin j hj hv
        omega
    · have hcond : ¬ (((prio i : Int) > (prio k : Int)) ∧ cur > (prio k : Int)) :=
        fun h => hc (by omega)
      simp only [hcond, if_false]
      refine Or.inr ⟨i, by omega, rfl, hvi, hlt, ?_, hfirst⟩
      intro j hj hv
      by_cases hjk : j = k
      · subst hjk; omega
      · exact hmin j (by omega) hv

/-- The `while` loop over one status word, started with the bits below `lo` already cleared
and enough fuel for the rest, extends `Best` from `i * 64 + lo` to the end of the word. -/
theorem scan_status_best (vis : Nat → Prop) (prio : Nat → Nat) (cur : Int) (i word : Nat)
    (hvis : ∀ b, b < 64 → (vis (i * 64 + b) ↔ word.testBit b = true))
    (hprio : ∀ j, prio j < 256) :
    ∀ (fuel status : Nat) (acc : Int × Int) (lo : Nat), status < 2 ^ 64 → lo ≤ 64 →
      64 ≤ fuel + lo → (∀ b, b < lo → status.testBit b = false) →
      (∀ b, lo ≤ b → b < 64 → status.testBit b = word.testBit b) →
      Best vis prio cur (i * 64 + lo) acc →
      Best vis prio cur (i * 64 + 64) (scan_status prio cur i fuel status acc) := by
  intro fuel
  induction fuel with
  | zero =>
    intro status acc lo _ hlo hfuel _ _ hbest
    have : lo = 64 := by omega
    subst this
    simpa [scan_status] using hbest
  | succ n ih =>
    intro status acc lo hlt hlo hfuel hlow hsame hbest
    by_cases hz : status = 0
    · subst hz
      have hrest : ∀ j, i * 64 + lo ≤ j → j < i * 64 + lo + (64 - lo) → ¬ vis j := by
        intro j h1 h2 hv
        have hj : j = i * 64 + (j - i * 64) := by omega
        rw [hj, hvis (j - i * 64) (by omega)] at hv
        rw [← hsame (j - i * 64) (by omega) (by omega)] at hv
        simp at hv
      have := best_skip_range vis prio cur (i * 64 + lo) acc hbest (64 - lo) hrest
      have he : i * 64 + lo + (64 - lo) = i * 64 + 64 := by omega
      rw [he] at this
      simpa [scan_status] using this
    · obtain ⟨b, hb64, hbset, hbmin, hffs⟩ := find_lsb_set64_spec status hlt hz
      have hlob : lo ≤ b := by
        by_contra hcon
        have := hlow b (by omega)
        rw [hbset] at this
        exact Bool.noConfusion this
      have hrest : ∀ j, i * 64 + lo ≤ j → j < i * 64 + lo + (b - lo) → ¬ vis j := by
        intro j h1 h2 hv
        have hj : j = i * 64 + (j - i * 64) := by omega
        rw [hj, hvis (j - i * 64) (by omega)] at hv
        rw [← hsame (j - i * 64) (by omega) (by omega)] at hv
        rw [hbmin (j - i * 64) (by omega)] at hv
        exact Bool.noConfusion hv
      have h1 := best_skip_range vis prio cur (i * 64 + lo) acc hbest (b - lo) hrest
      have he : i * 64 + lo + (b - lo) = i * 64 + b := by omega
      rw [he] at h1
      have hvb : vis (i * 64 + b) := by
        rw [hvis b hb64, ← hsame b hlob hb64]; exact hbset
      have h2 := best_take vis prio cur (i * 64 + b) acc h1 hvb (hprio _)
      have hidx : b + i * BITS_U64 = i * 64 + b := by
        simp only [BITS_U64]; omega
      have hbit : nsi_find_lsb_set64 status - 1 = b := by rw [hffs]; omega
      simp only [scan_status, ne_eq, hz, not_false_eq_true, if_true, hbit, hidx]
      refine ih _ _ (b + 1) ?_ (by omega) (by omega) ?_ ?_ ?_
      · exact Nat.lt_of_le_of_lt Nat.and_le_left hlt
      · intro j hj
        by_cases hjb : j = b
        · subst hjb; rw [testBit_clear _ _ _ hb64]; simp
        · rw [testBit_clear _ _ _ (by omega), hbmin j (by omega)]; rfl
      · intro j h3 h4
        have hne : b ≠ j := by omega
        rw [testBit_clear _ _ _ h4, ← hsame j (by omega) h4]
        simp [hne]
      · have he2 : i * 64 + (b + 1) = i * 64 + b + 1 := by omega
        rw [he2]
        exact h2

theorem statusVisible_in_word (N_IRQS : Nat) (c : IrqCtrl) (i b : Nat) (hi : i < NUM_U64_IRQS N_IRQS)
    (hb : b < 64) : StatusVisible N_IRQS c (i * 64 + b) ↔ (c.irq_status i).testBit b = true := by
  have h1 : (i * 64 + b) / 64 = i := by omega
  have h2 : (i * 64 + b) % 64 = b := by omega
  simp [StatusVisible, irq_bit, BITS_U64, h1, h2, hi]

/-- The pair the scan of `hw_irq_ctrl_get_highest_prio_irq` ends with is the best over all
status words. -/
theorem scan_all_best (N_IRQS : Nat) (c : IrqCtrl) (hw : c.WellTyped) :
    Best (StatusVisible N_IRQS c) c.irq_prio c.currently_running_prio (NUM_U64_IRQS N_IRQS * 64)
      (forLoop 0 (NUM_U64_IRQS N_IRQS)
        (fun i acc =>
          scan_status c.irq_prio c.currently_running_prio i BITS_U64 (c.irq_status i) acc)
        ((-1 : Int), (256 : Int))) := by
  refine forLoop_inv
    (fun k acc => Best (StatusVisible N_IRQS c) c.irq_prio c.currently_running_prio (k * 64) acc)
    0 _ _ _ (Nat.zero_le _) ?_ ?_
  · exact Or.inl ⟨rfl, fun j hj => by omega⟩
  · intro i acc _ hi hbest
    have h := scan_status_best (StatusVisible N_IRQS c) c.irq_prio c.currently_running_prio i
      (c.irq_status i) (fun b hb => statusVisible_in_word N_IRQS c i b hi hb) hw.prio_lt
      64 (c.irq_status i) acc 0 (hw.status_lt i) (by omega) (by omega)
      (fun b hb => by omega) (fun b _ _ => rfl) (by simpa using hbest)
    have he : (i + 1) * 64 = i * 64 + 64 := by omega
    simp only [he]
    exact h

theorem exampleCtrl_wellTyped : exampleCtrl.WellTyped := by
  refine ⟨?_, ?_, ?_, ?_⟩ <;> intro i <;> simp only [exampleCtrl] <;> split_ifs <;> decide

/-- C1. When the controller is not locked (and its state is a valid C state),
`hw_irq_ctrl_get_highest_prio_irq` returns `i` exactly when `i` is status-visible, its
priority is strictly below `currently_running_prio`, its priority is the minimum over all
status-visible interrupts of every storage word, and `i` is the lowest index among the
status-visible interrupts of that priority; it returns `-1` exactly when no status-visible
interrupt has a priority strictly below `currently_running_prio`. -/
theorem get_highest_prio_irq_spec (N_IRQS : Nat) (c : IrqCtrl) (hl : c.irqs_locked = false)
    (hw : c.WellTyped) :
    (∀ i : Nat, hw_irq_ctrl_get_highest_prio_irq N_IRQS c = (i : Int) ↔
      (StatusVisible N_IRQS c i ∧ (c.irq_prio i : Int) < c.currently_running_prio ∧
        (∀ j, StatusVisible N_IRQS c j → c.irq_prio i ≤ c.irq_prio j) ∧
        (∀ j, StatusVisible N_IRQS c j → c.irq_prio j = c.irq_prio i → i ≤ j))) ∧
    (hw_irq_ctrl_get_highest_prio_irq N_IRQS c = -1 ↔
      ∀ j, StatusVisible N_IRQS c j → ¬ ((c.irq_prio j : Int) < c.currently_running_prio)) := by
  have hb := scan_all_best N_IRQS c hw
  have hres : hw_irq_ctrl_get_highest_prio_irq N_IRQS c =
      (forLoop 0 (NUM_U64_IRQS N_IRQS)
        (fun i acc =>
          scan_status c.irq_prio c.currently_running_prio i BITS_U64 (c.irq_status i) acc)
        ((-1 : Int), (256 : Int))).1 := by
    simp [hw_irq_ctrl_get_highest_prio_irq, hl]
  have hrange : ∀ j, StatusVisible N_IRQS c j → j < NUM_U64_IRQS N_IRQS * 64 := by
    intro j hv
    have := hv.1
    simp only [BITS_U64] at this
    omega
  rw [hres]
  rcases hb with ⟨hacc, hnone⟩ | ⟨i0, _, hacc, hvi, hlt, hmin, hfirst⟩
  · rw [hacc]
    refine ⟨fun i => ⟨fun h => ?_, fun h => ?_⟩, ⟨fun _ j hv => hnone j (hrange j hv) hv, fun _ => rfl⟩⟩
    · simp only at h; omega
    · exact absurd h.2.1 (hnone i (hrange i h.1) h.1)
  · rw [hacc]
    refine ⟨fun i => ⟨fun h => ?_, fun h => ?_⟩, ⟨fun h => ?_, fun h => ?_⟩⟩
    · have hi : i0 = i := by simp only at h; omega
      subst hi
      refine ⟨hvi, hlt, fun j hv => hmin j (hrange j hv) hv, fun j hv hp => ?_⟩
      by_contra hcon
      have := hfirst j (by omega) hv
      omega
    · obtain ⟨hv, _, hm, hf⟩ := h
      have h1 := hmin i (hrange i hv) hv
      have h2 := hm i0 hvi
      have h3 := hf i0 hvi (by omega)
      have h4 : ¬ i < i0 := by
        intro hcon
        have := hfirst i hcon hv
        omega
      have : i0 = i := by omega
      simp only [this]
    · simp only at h; omega
    · exact absurd hlt (h i0 hvi)

/-- Witness of C1 on `exampleCtrl`. -/
theorem get_highest_prio_irq_spec_witness :
    exampleCtrl.irqs_locked = false ∧ exampleCtrl.WellTyped ∧
    (∀ i : Nat, hw_irq_ctrl_get_highest_prio_irq 128 exampleCtrl = (i : Int) ↔
      (StatusVisible 128 exampleCtrl i ∧
        (exampleCtrl.irq_prio i : Int) < exampleCtrl.currently_running_prio ∧
        (∀ j, StatusVisible 128 exampleCtrl j → exampleCtrl.irq_prio i ≤ exampleCtrl.irq_prio j) ∧
        (∀ j, StatusVisible 128 exampleCtrl j →
          exampleCtrl.irq_prio j = exampleCtrl.irq_prio i → i ≤ j))) ∧
    (hw_irq_ctrl_get_highest_prio_irq 128 exampleCtrl = -1 ↔
      ∀ j, StatusVisible 128 exampleCtrl j →
        ¬ ((exampleCtrl.irq_prio j : Int) < exampleCtrl.currently_running_prio)) :=
  ⟨rfl, exampleCtrl_wellTyped,
    get_highest_prio_irq_spec 128 exampleCtrl rfl exampleCtrl_wellTyped⟩

theorem scan_status_winnerOk (prio : Nat → Nat) (cur : Int) (i : Nat) :
    ∀ (fuel status : Nat) (acc : Int × Int), WinnerOk prio cur acc →
      WinnerOk prio cur (scan_status prio cur i fuel status acc) := by
  intro fuel
  induction fuel with
  | zero => intro status acc h; simpa [scan_status] using h
  | succ n ih =>
    intro status acc h
    by_cases hz : status = 0
    · simpa [scan_status, hz] using h
    · simp only [scan_status, ne_eq, hz, not_false_eq_true, if_true]
      apply ih
      split_ifs with hc
      · exact Or.inr ⟨_, rfl, hc.2⟩
      · exact h

/-- C2. For every controller state, `hw_irq_ctrl_get_highest_prio_irq` returns `-1` or an
interrupt number, never an interrupt whose priority is numerically greater than or equal to
`currently_running_prio`, and it returns `-1` whenever the controller is locked, whatever the
status bits. -/
theorem get_highest_prio_irq_safe (N_IRQS : Nat) (c : IrqCtrl) :
    (hw_irq_ctrl_get_highest_prio_irq N_IRQS c = -1 ∨
      ∃ i : Nat, hw_irq_ctrl_get_highest_prio_irq N_IRQS c = (i : Int)) ∧
    (∀ i : Nat, hw_irq_ctrl_get_highest_prio_irq N_IRQS c = (i : Int) →
      ¬ ((c.irq_prio i : Int) ≥ c.currently_running_prio)) ∧
    (c.irqs_locked = true → hw_irq_ctrl_get_highest_prio_irq N_IRQS c = -1) := by
  have hinv : WinnerOk c.irq_prio c.currently_running_prio
      (forLoop 0 (NUM_U64_IRQS N_IRQS)
        (fun i acc =>
          scan_status c.irq_prio c.currently_running_prio i BITS_U64 (c.irq_status i) acc)
        ((-1 : Int), (256 : Int))) :=
    forLoop_inv (fun _ acc => WinnerOk c.irq_prio c.currently_running_prio acc) 0 _ _ _
      (Nat.zero_le _) (Or.inl rfl) (fun i acc _ _ h => scan_status_winnerOk _ _ i _ _ acc h)
  by_cases hl : c.irqs_locked = true
  · have hres : hw_irq_ctrl_get_highest_prio_irq N_IRQS c = -1 := by
      simp [hw_irq_ctrl_get_highest_prio_irq, hl]
    refine ⟨Or.inl hres, fun i h => ?_, fun _ => hres⟩
    rw [hres] at h; omega
  · have hres : hw_irq_ctrl_get_highest_prio_irq N_IRQS c =
        (forLoop 0 (NUM_U64_IRQS N_IRQS)
          (fun i acc =>
            scan_status c.irq_prio c.currently_running_prio i BITS_U64 (c.irq_status i) acc)
          ((-1 : Int), (256 : Int))).1 := by
      simp [hw_irq_ctrl_get_highest_prio_irq, hl]
    rw [hres]
    refine ⟨?_, fun i h => ?_, fun h => absurd h hl⟩
    · rcases hinv with h | ⟨n, hn, _⟩
      · exact Or.inl h
      · exact Or.inr ⟨n, hn⟩
    · rcases hinv with h' | ⟨n, hn, hp⟩
      · rw [h'] at h; omega
      · rw [hn] at h
        have : n = i := by omega
        subst this
        omega

/-! ## Scheduler: the next event -/

/-- The scan of `nsi_hws_find_next_event` over `n ≥ 1` timers ends on the first minimum. -/
theorem find_loop_spec (rd : Nat → Nat) (n : Nat) (hn : 0 < n) :
    IsFirstMin rd n (forLoop 1 n (find_next_event_body rd) (0, rd 0)).1 ∧
    (forLoop 1 n (find_next_event_body rd) (0, rd 0)).2 =
      rd (forLoop 1 n (find_next_event_body rd) (0, rd 0)).1 := by
  refine forLoop_inv (fun k (acc : Nat × Nat) => IsFirstMin rd k acc.1 ∧ acc.2 = rd acc.1) 1 n _ _
    (by omega) ?_ ?_
  · refine ⟨⟨by omega, fun j hj => ?_, fun j hj => by omega⟩, rfl⟩
    have : j = 0 := by omega
    subst this
    exact Nat.le_refl _
  · rintro i ⟨idx, t⟩ _ _ ⟨⟨h1, h2, h3⟩, h4⟩
    simp only at h1 h2 h3 h4
    subst h4
    by_cases hc : rd idx > rd i
    · simp only [find_next_event_body, hc, if_true]
      refine ⟨⟨by omega, fun j hj => ?_, fun j hj => ?_⟩, trivial⟩
      · by_cases hji : j = i
        · subst hji; exact Nat.le_refl _
        · have := h2 j (by omega); omega
      · have := h2 j hj; omega
    · simp only [find_next_event_body, hc, if_false]
      refine ⟨⟨by omega, fun j hj => ?_, h3⟩, trivial⟩
      by_cases hji : j = i
      · subst hji; omega
      · exact h2 j (by omega)

theorem find_next_event_spec {M : Type} (reg : Registry M) (w : World M)
    (hn : 0 < w.hws.number_of_timers) :
    IsFirstMin (reg.timer w.mem) w.hws.number_of_timers
      (nsi_hws_find_next_event reg w).hws.next_timer_index ∧
    (nsi_hws_find_next_event reg w).hws.next_timer_time =
      reg.timer w.mem (nsi_hws_find_next_event reg w).hws.next_timer_index :=
  find_loop_spec (reg.timer w.mem) w.hws.number_of_timers hn

theorem find_next_event_coherent {M : Type} (reg : Registry M) (w : World M)
    (h1 : w.hws.number_of_timers = reg.timers.length)
    (h2 : w.hws.number_of_callbacks = reg.callbacks.length)
    (h3 : reg.timers.length = reg.callbacks.length) (h4 : 0 < reg.timers.length) :
    Coherent reg (nsi_hws_find_next_event reg w) := by
  have hs := find_next_event_spec reg w (by omega)
  rw [h1] at hs
  exact ⟨h1, h2, h3, hs.1, hs.2⟩

theorem timer_le_never {M : Type} (reg : Registry M) (m : M) (i : Nat) :
    reg.timer m i ≤ NSI_NEVER := by
  unfold Registry.timer NSI_NEVER
  split
  · have : (2 : Nat) ^ 64 > 0 := by decide
    have := Nat.mod_lt (‹M → Nat› m) this
    omega
  · omega

theorem sleep_eq {M : Type} (w : World M) :
    nsi_hws_sleep_until_next_event w =
      if w.hws.signaled_end = true ∨
          max w.hws.simu_time w.hws.next_timer_time > w.hws.end_of_time then
        .stop (.exit 0) (advanced w)
      else .ok (advanced w) := by
  unfold nsi_hws_sleep_until_next_event advanced
  by_cases h : w.hws.next_timer_time ≥ w.hws.simu_time
  · have hm : max w.hws.simu_time w.hws.next_timer_time = w.hws.next_timer_time :=
      Nat.max_eq_right h
    simp only [h, if_true, hm]
  · have hm : max w.hws.simu_time w.hws.next_timer_time = w.hws.simu_time :=
      Nat.max_eq_left (by omega)
    simp only [h, if_false, hm]

theorem advanced_fields {M : Type} (w : World M) :
    (advanced w).mem = w.mem ∧ (advanced w).dispatched = w.dispatched ∧
    (advanced w).hws.simu_time = max w.hws.simu_time w.hws.next_timer_time ∧
    (advanced w).hws.number_of_timers = w.hws.number_of_timers ∧
    (advanced w).hws.number_of_callbacks = w.hws.number_of_callbacks ∧
    (advanced w).hws.next_timer_index = w.hws.next_timer_index ∧
    (advanced w).hws.end_of_time = w.hws.end_of_time := by
  unfold advanced
  by_cases h : w.hws.next_timer_time ≥ w.hws.simu_time
  · simp only [h, if_true, Nat.max_eq_right h, and_self]
  · simp only [h, if_false, Nat.max_eq_left (show w.hws.next_timer_time ≤ w.hws.simu_time by omega),
      and_self]

/-- What a dispatch step does, case by case. -/
theorem one_event_eq {M : Type} (reg : Registry M) (w : World M) :
    nsi_hws_one_event reg w =
      if w.hws.signaled_end = true ∨
          max w.hws.simu_time w.hws.next_timer_time > w.hws.end_of_time then
        .stop (.exit 0) (advanced w)
      else if w.hws.next_timer_index < w.hws.number_of_timers then
        match reg.callbacks[w.hws.next_timer_index]? with
        | some cb =>
          (cb.run { advanced w with
              dispatched := w.dispatched ++ [w.hws.next_timer_index] }).bind
            fun w2 => .ok (nsi_hws_find_next_event reg w2)
        | none => .stop .fatal (advanced w)
      else .stop .fatal (advanced w) := by
  obtain ⟨_, hd, _, hn, _, hi, _⟩ := advanced_fields w
  unfold nsi_hws_one_event
  rw [sleep_eq]
  by_cases hc : w.hws.signaled_end = true ∨
      max w.hws.simu_time w.hws.next_timer_time > w.hws.end_of_time
  · simp only [hc, if_true, Result.bind]
  · simp only [hc, if_false, Result.bind, hd, hn, hi]

theorem bind_state_of_frame {M : Type} (reg : Registry M) (cb : Callback M) (w1 : World M) :
    ((cb.run w1).bind fun w2 => .ok (nsi_hws_find_next_event reg w2)).state.dispatched =
        w1.dispatched ∧
    ((cb.run w1).bind fun w2 => .ok (nsi_hws_find_next_event reg w2)).state.hws.simu_time =
        w1.hws.simu_time := by
  have hf := cb.frame w1
  cases hr : cb.run w1 with
  | ok s =>
    rw [hr] at hf
    exact ⟨hf.2.2.2, hf.1⟩
  | stop why s =>
    rw [hr] at hf
    exact ⟨hf.2.2.2, hf.1⟩

/-- A step that gets past the termination test, from a state whose cached index is in range,
invokes exactly the callback at `next_timer_index`. -/
theorem one_event_dispatches {M : Type} (reg : Registry M) (w : World M)
    (hidx : w.hws.next_timer_index < w.hws.number_of_timers)
    (hcb : w.hws.number_of_timers ≤ reg.callbacks.length)
    (hc : ¬ (w.hws.signaled_end = true ∨
      max w.hws.simu_time w.hws.next_timer_time > w.hws.end_of_time)) :
    (nsi_hws_one_event reg w).state.dispatched = w.dispatched ++ [w.hws.next_timer_index] := by
  rw [one_event_eq]
  simp only [hc, if_false, hidx, if_true]
  have hlt : w.hws.next_timer_index < reg.callbacks.length := by omega
  rw [List.getElem?_eq_getElem hlt]
  exact (bind_state_of_frame reg _ _).1

/-- A step that ends at the termination test invokes nothing. -/
theorem one_event_stops {M : Type} (reg : Registry M) (w : World M)
    (hc : w.hws.signaled_end = true ∨
      max w.hws.simu_time w.hws.next_timer_time > w.hws.end_of_time) :
    nsi_hws_one_event reg w = .stop (.exit 0) (advanced w) := by
  rw [one_event_eq]
  simp only [hc, if_true]

theorem one_event_coherent {M : Type} (reg : Registry M) (w w2 : World M)
    (hco : Coherent reg w) (hstep : nsi_hws_one_event reg w = .ok w2) : Coherent reg w2 := by
  obtain ⟨h1, h2, h3, h4, _⟩ := hco
  obtain ⟨_, _, _, hn, hnc, _, _⟩ := advanced_fields w
  rw [one_event_eq] at hstep
  split_ifs at hstep with hc hi
  have hlt : w.hws.next_timer_index < reg.callbacks.length := by omega
  rw [List.getElem?_eq_getElem hlt] at hstep
  simp only at hstep
  have hf := (reg.callbacks[w.hws.next_timer_index]).frame
    { advanced w with dispatched := w.dispatched ++ [w.hws.next_timer_index] }
  cases hr : (reg.callbacks[w.hws.next_timer_index]).run
      { advanced w with dispatched := w.dispatched ++ [w.hws.next_timer_index] } with
  | ok s =>
    rw [hr] at hstep hf
    simp only [Result.bind, Result.ok.injEq] at hstep
    subst hstep
    simp only [Result.state] at hf
    exact find_next_event_coherent reg s (by rw [hf.2.1, hn, h1]) (by rw [hf.2.2.1, hnc, h2]) h3
      (by have := h4.1; omega)
  | stop why s =>
    rw [hr] at hstep
    simp only [Result.bind] at hstep
    exact Result.noConfusion hstep

theorem init_coherent {M : Type} (reg : Registry M) (w0 w : World M)
    (h : nsi_hws_init reg w0 = .ok w) : Coherent reg w := by
  unfold nsi_hws_init at h
  simp only at h
  split_ifs at h with hc
  simp only [Result.ok.injEq] at h
  subst h
  have h3 : reg.timers.length = reg.callbacks.length := by
    by_contra hne; exact hc (Or.inl hne)
  have h4 : 0 < reg.timers.length := by
    by_contra hz; exact hc (Or.inr (by omega))
  exact find_next_event_coherent reg _ rfl rfl h3 h4

/-- Every state of a run is coherent. -/
theorem run_coherent {M : Type} (reg : Registry M) (w0 : World M) :
    ∀ (n : Nat) (w : World M), hws_run reg n w0 = .ok w → Coherent reg w := by
  intro n
  induction n with
  | zero => intro w h; exact init_coherent reg w0 w h
  | succ k ih =>
    intro w h
    simp only [hws_run] at h
    cases hr : hws_run reg k w0 with
    | ok s =>
      rw [hr] at h
      exact one_event_coherent reg s w (ih s hr) h
    | stop why s =>
      rw [hr] at h
      exact Result.noConfusion h

/-- C3. In a run that starts with `nsi_hws_init` and proceeds by `nsi_hws_one_event` steps,
with callbacks that may rewrite any timer, at every dispatch step the cached
`next_timer_index` is the lowest registry index whose timer equals the minimum over all
registered timers as they are at that moment, `next_timer_time` is that minimum, and the step
invokes the callback at that index and no other (or none, when it ends the process at the
termination test). In general `nsi_hws_find_next_event` leaves `next_timer_time` equal to the
minimum timer and `next_timer_index` equal to the first index attaining it. -/
theorem dispatch_first_minimum {M : Type} (reg : Registry M) (w0 w : World M) (n : Nat)
    (hrun : hws_run reg n w0 = .ok w) :
    IsFirstMin (reg.timer w.mem) reg.timers.length w.hws.next_timer_index ∧
    w.hws.next_timer_time = reg.timer w.mem w.hws.next_timer_index ∧
    ((nsi_hws_one_event reg w).state.dispatched = w.dispatched ∨
      (nsi_hws_one_event reg w).state.dispatched =
        w.dispatched ++ [w.hws.next_timer_index]) ∧
    ((nsi_hws_sleep_until_next_event w).isOk = true →
      (nsi_hws_one_event reg w).state.dispatched =
        w.dispatched ++ [w.hws.next_timer_index]) ∧
    (∀ v : World M, 0 < v.hws.number_of_timers →
      IsFirstMin (reg.timer v.mem) v.hws.number_of_timers
        (nsi_hws_find_next_event reg v).hws.next_timer_index ∧
      (nsi_hws_find_next_event reg v).hws.next_timer_time =
        reg.timer v.mem (nsi_hws_find_next_event reg v).hws.next_timer_index) := by
  obtain ⟨h1, _, h3, h4, h5⟩ := run_coherent reg w0 n w hrun
  have hidx : w.hws.next_timer_index < w.hws.number_of_timers := by rw [h1]; exact h4.1
  have hcb : w.hws.number_of_timers ≤ reg.callbacks.length := by omega
  refine ⟨h4, h5, ?_, ?_, fun v hv => find_next_event_spec reg v hv⟩
  · by_cases hc : w.hws.signaled_end = true ∨
        max w.hws.simu_time w.hws.next_timer_time > w.hws.end_of_time
    · left
      rw [one_event_stops reg w hc]
      exact (advanced_fields w).2.1
    · right
      exact one_event_dispatches reg w hidx hcb hc
  · intro hok
    by_cases hc : w.hws.signaled_end = true ∨
        max w.hws.simu_time w.hws.next_timer_time > w.hws.end_of_time
    · rw [sleep_eq] at hok
      simp only [hc, if_true, Result.isOk] at hok
      exact Bool.noConfusion hok
    · exact one_event_dispatches reg w hidx hcb hc

/-- Witness of C3: the state of `exampleReg` after one dispatch step. -/
theorem dispatch_first_minimum_witness :
    hws_run exampleReg 1 exampleWorld = .ok (hws_run exampleReg 1 exampleWorld).state ∧
    IsFirstMin (exampleReg.timer (hws_run exampleReg 1 exampleWorld).state.mem)
      exampleReg.timers.length (hws_run exampleReg 1 exampleWorld).state.hws.next_timer_index ∧
    (hws_run exampleReg 1 exampleWorld).state.hws.next_timer_index = 1 :=
  ⟨by decide,
    (dispatch_first_minimum exampleReg exampleWorld (hws_run exampleReg 1 exampleWorld).state 1
      (by decide)).1,
    by decide⟩

/-- C4. Virtual time `simu_time` does not decrease across a dispatch step
`nsi_hws_one_event`, whatever the registry, the timers (also timers set to values in the
past) and the outcome of the step; hence it does not decrease along a run either. -/
theorem simu_time_monotone {M : Type} (reg : Registry M) (w : World M) :
    w.hws.simu_time ≤ (nsi_hws_one_event reg w).state.hws.simu_time ∧
    (∀ (w0 : World M) (n : Nat), (hws_run reg n w0).state.hws.simu_time ≤
      (hws_run reg (n + 1) w0).state.hws.simu_time) := by
  have hstep : ∀ v : World M,
      v.hws.simu_time ≤ (nsi_hws_one_event reg v).state.hws.simu_time := by
    intro v
    have hadv : v.hws.simu_time ≤ (advanced v).hws.simu_time := by
      rw [(advanced_fields v).2.2.1]; exact Nat.le_max_left _ _
    rw [one_event_eq]
    split_ifs with hc hi
    · exact hadv
    · split
      · rename_i cb _
        rw [(bind_state_of_frame reg cb _).2]
        exact hadv
      · exact hadv
    · exact hadv
  refine ⟨hstep w, fun w0 n => ?_⟩
  simp only [hws_run]
  cases hr : hws_run reg n w0 with
  | ok s => exact hstep s
  | stop why s => exact Nat.le_refl _

/-- C5. A dispatch step `nsi_hws_one_event` (from a state whose cached index is in range, as
in every state of a run) ends the process with exit code 0 without invoking any callback if
and only if `signaled_end` is set or the virtual time after advancing is strictly greater
than `end_of_time`; otherwise it invokes exactly one callback, the one at `next_timer_index`.
An event whose timer equals `end_of_time` is still dispatched, and with
`end_of_time = NSI_NEVER` the deadline does not end the run. -/
theorem one_event_termination {M : Type} (reg : Registry M) (w : World M)
    (hidx : w.hws.next_timer_index < w.hws.number_of_timers)
    (hcb : w.hws.number_of_timers ≤ reg.callbacks.length) :
    ((∃ w1, nsi_hws_one_event reg w = .stop (.exit 0) w1 ∧ w1.dispatched = w.dispatched) ↔
      (w.hws.signaled_end = true ∨
        max w.hws.simu_time w.hws.next_timer_time > w.hws.end_of_time)) ∧
    ((w.hws.signaled_end = true ∨
        max w.hws.simu_time w.hws.next_timer_time > w.hws.end_of_time) →
      nsi_hws_one_event reg w = .stop (.exit 0) (advanced w) ∧
      (advanced w).hws.simu_time = max w.hws.simu_time w.hws.next_timer_time) ∧
    (¬ (w.hws.signaled_end = true ∨
        max w.hws.simu_time w.hws.next_timer_time > w.hws.end_of_time) →
      (nsi_hws_one_event reg w).state.dispatched =
        w.dispatched ++ [w.hws.next_timer_index]) ∧
    (w.hws.signaled_end = false → w.hws.simu_time ≤ w.hws.next_timer_time →
      w.hws.next_timer_time = w.hws.end_of_time →
      (nsi_hws_one_event reg w).state.dispatched =
        w.dispatched ++ [w.hws.next_timer_index]) ∧
    (w.hws.signaled_end = false → w.hws.end_of_time = NSI_NEVER →
      w.hws.simu_time ≤ NSI_NEVER → w.hws.next_timer_time ≤ NSI_NEVER →
      (nsi_hws_one_event reg w).state.dispatched =
        w.dispatched ++ [w.hws.next_timer_index]) := by
  refine ⟨⟨?_, ?_⟩, ?_, ?_, ?_, ?_⟩
  · rintro ⟨w1, hstop, hd⟩
    by_contra hc
    have h := one_event_dispatches reg w hidx hcb hc
    rw [hstop] at h
    simp only [Result.state] at h
    rw [hd] at h
    have := congrArg List.length h
    simp at this
  · intro hc
    exact ⟨advanced w, one_event_stops reg w hc, (advanced_fields w).2.1⟩
  · intro hc
    exact ⟨one_event_stops reg w hc, (advanced_fields w).2.2.1⟩
  · intro hc
    exact one_event_dispatches reg w hidx hcb hc
  · intro hs hle heq
    apply one_event_dispatches reg w hidx hcb
    rw [Nat.max_eq_right hle, hs]
    simp only [Bool.false_eq_true, false_or]
    omega
  · intro hs he h1 h2
    apply one_event_dispatches reg w hidx hcb
    rw [hs, he]
    simp only [Bool.false_eq_true, false_or]
    have := Nat.max_le.mpr ⟨h1, h2⟩
    omega

/-- Witness of C5: the first dispatch step of `exampleReg`, which has no deadline, invokes
the callback at index 0. -/
theorem one_event_termination_witness :
    (hws_run exampleReg 0 exampleWorld).state.hws.next_timer_index <
      (hws_run exampleReg 0 exampleWorld).state.hws.number_of_timers ∧
    (hws_run exampleReg 0 exampleWorld).state.hws.number_of_timers ≤
      exampleReg.callbacks.length ∧
    (nsi_hws_one_event exampleReg (hws_run exampleReg 0 exampleWorld).state).state.dispatched =
      (hws_run exampleReg 0 exampleWorld).state.dispatched ++
        [(hws_run exampleReg 0 exampleWorld).state.hws.next_timer_index] :=
  ⟨by decide, by decide,
    (one_event_termination exampleReg (hws_run exampleReg 0 exampleWorld).state
      (by decide) (by decide)).2.2.1 (by decide)⟩

/-- C6, as stated, fails: in the run of `exampleReg` the source at index 0 sets its timer to
`NSI_NEVER` in the first step, the timer stays `NSI_NEVER`, and the third step, taken when
every timer is `NSI_NEVER` and there is no deadline, invokes its callback again. -/
theorem never_source_dispatched_again :
    (hws_run exampleReg 1 exampleWorld).isOk = true ∧
    exampleReg.timer (hws_run exampleReg 1 exampleWorld).state.mem 0 = NSI_NEVER ∧
    (hws_run exampleReg 2 exampleWorld).isOk = true ∧
    exampleReg.timer (hws_run exampleReg 2 exampleWorld).state.mem 0 = NSI_NEVER ∧
    (hws_run exampleReg 2 exampleWorld).state.dispatched = [0, 1] ∧
    (hws_run exampleReg 3 exampleWorld).isOk = true ∧
    exampleReg.timer (hws_run exampleReg 3 exampleWorld).state.mem 0 = NSI_NEVER ∧
    (hws_run exampleReg 3 exampleWorld).state.dispatched = [0, 1, 0] := by
  decide

/-! ## Controller: bits of the segmented bitsets -/

theorem irq_split (irq j : Nat) : j = irq ↔ (j / 64 = irq / 64 ∧ j % 64 = irq % 64) := by
  constructor
  · intro h; subst h; exact ⟨rfl, rfl⟩
  · intro ⟨h1, h2⟩; omega

/-- Setting bit `irq`: `words[irq / 64] |= 1 << (irq % 64)`. -/
theorem irq_bit_set (words : Nat → Nat) (irq j : Nat) :
    irq_bit (Function.update words (irq / BITS_U64)
      (words (irq / BITS_U64) ||| 1 <<< (irq % BITS_U64))) j =
    (irq_bit words j || decide (j = irq)) := by
  simp only [irq_bit, BITS_U64]
  by_cases hw : j / 64 = irq / 64
  · rw [hw, Function.update_same, Nat.testBit_or, testBit_one_shiftLeft]
    by_cases hb : irq % 64 = j % 64
    · have : j = irq := (irq_split irq j).2 ⟨hw, hb.symm⟩
      simp [hb, this]
    · have : ¬ j = irq := fun h => hb ((irq_split irq j).1 h).2.symm
      simp [hb, this]
  · rw [Function.update_noteq hw]
    have : ¬ j = irq := fun h => hw ((irq_split irq j).1 h).1
    simp [this]

/-- Clearing bit `irq`: `words[irq / 64] &= ~(1 << (irq % 64))`. -/
theorem irq_bit_clear (words : Nat → Nat) (irq j : Nat) :
    irq_bit (Function.update words (irq / BITS_U64)
      (words (irq / BITS_U64) &&& not64 (1 <<< (irq % BITS_U64)))) j =
    (irq_bit words j && decide (j ≠ irq)) := by
  simp only [irq_bit, BITS_U64]
  have hj : j % 64 < 64 := Nat.mod_lt _ (by decide)
  by_cases hw : j / 64 = irq / 64
  · rw [hw, Function.update_same, testBit_clear _ _ _ hj]
    by_cases hb : irq % 64 = j % 64
    · have : j = irq := (irq_split irq j).2 ⟨hw, hb.symm⟩
      simp [hb, this]
    · have : ¬ j = irq := fun h => hb ((irq_split irq j).1 h).2.symm
      simp [hb, this]
  · rw [Function.update_noteq hw]
    have : ¬ j = irq := fun h => hw ((irq_split irq j).1 h).1
    simp [this]

/-- The C test `word & (1 << b)` is the test of bit `b`. -/
theorem and_bit_ne_zero (x b : Nat) : (x &&& 1 <<< b ≠ 0) ↔ x.testBit b = true := by
  constructor
  · intro h
    obtain ⟨j, hj⟩ := Nat.ne_zero_implies_bit_true h
    rw [Nat.testBit_and, testBit_one_shiftLeft] at hj
    simp only [Bool.and_eq_true, decide_eq_true_eq] at hj
    rw [hj.2]; exact hj.1
  · intro h h0
    have := congrArg (fun y => Nat.testBit y b) h0
    simp only [Nat.testBit_and, testBit_one_shiftLeft, h, Nat.zero_testBit] at this
    simp at this

theorem mask_test (words : Nat → Nat) (irq : Nat) :
    (words (irq / BITS_U64) &&& 1 <<< (irq % BITS_U64) ≠ 0) ↔ irq_bit words irq = true :=
  and_bit_ne_zero _ _

theorem word_ne_zero_iff (x : Nat) : x ≠ 0 ↔ ∃ b, x.testBit b = true := by
  constructor
  · exact Nat.ne_zero_implies_bit_true
  · rintro ⟨b, hb⟩ h0
    rw [h0, Nat.zero_testBit] at hb
    exact Bool.noConfusion hb

/-! ## Controller: lock, enable, clear, raise -/

/-- The loop of `hw_irq_ctrl_change_lock`: one notification at the first non-zero status word,
none when all words are zero, and nothing else changes. -/
theorem change_lock_loop (n : Nat) (c1 : IrqCtrl) :
    ((forLoop 0 n
        (fun i (st : IrqCtrl × Bool) =>
          if st.2 then st
          else if st.1.irq_status i ≠ 0 then
            ({ st.1 with cpu_calls := st.1.cpu_calls ++ [CpuNotify.irq_raised_from_sw] }, true)
          else st)
        (c1, false)).1 = c1 ∧ ∀ i, i < n → c1.irq_status i = 0) ∨
    ((forLoop 0 n
        (fun i (st : IrqCtrl × Bool) =>
          if st.2 then st
          else if st.1.irq_status i ≠ 0 then
            ({ st.1 with cpu_calls := st.1.cpu_calls ++ [CpuNotify.irq_raised_from_sw] }, true)
          else st)
        (c1, false)).1 =
        { c1 with cpu_calls := c1.cpu_calls ++ [CpuNotify.irq_raised_from_sw] } ∧
      ∃ i, i < n ∧ c1.irq_status i ≠ 0) := by
  have h := forLoop_inv
    (fun k (st : IrqCtrl × Bool) =>
      (st.2 = false ∧ st.1 = c1 ∧ ∀ i, i < k → c1.irq_status i = 0) ∨
      (st.2 = true ∧
        st.1 = { c1 with cpu_calls := c1.cpu_calls ++ [CpuNotify.irq_raised_from_sw] } ∧
        ∃ i, i < k ∧ c1.irq_status i ≠ 0))
    0 n
    (fun i (st : IrqCtrl × Bool) =>
      if st.2 then st
      else if st.1.irq_status i ≠ 0 then
        ({ st.1 with cpu_calls := st.1.cpu_calls ++ [CpuNotify.irq_raised_from_sw] }, true)
      else st)
    (c1, false) (Nat.zero_le _) (Or.inl ⟨rfl, rfl, fun i hi => by omega⟩)
    (by
      rintro k ⟨cc, b⟩ _ _ (⟨hb, hc, hz⟩ | ⟨hb, hc, i, hi, hne⟩)
      · simp only at hb hc hz
        subst hb; subst hc
        by_cases hk : cc.irq_status k = 0
        · left
          simp only [hk, ne_eq, not_true_eq_false, if_false, Bool.false_eq_true, true_and]
          intro i hi
          by_cases hik : i = k
          · subst hik; exact hk
          · exact hz i (by omega)
        · right
          simp only [hk, ne_eq, not_false_eq_true, if_true, Bool.false_eq_true, if_false, true_and]
          exact ⟨k, by omega, hk⟩
      · simp only at hb hc
        subst hb; subst hc
        right
        simp only [if_true, true_and]
        exact ⟨i, by omega, hne⟩)
  rcases h with ⟨_, hc, hz⟩ | ⟨_, hc, hex⟩
  · exact Or.inl ⟨hc, hz⟩
  · exact Or.inr ⟨hc, hex⟩

/-- C7. `hw_irq_ctrl_change_lock(new)` returns the previous lock value, sets the lock to
`new`, changes no premask, status, mask or priority bit (nor anything else but the lock), and
calls `nsif_cpu0_irq_raised_from_sw` exactly once when the previous lock was true, `new` is
false and at least one status bit is set in some storage word, and not at all in every other
case. -/
theorem change_lock_spec (N_IRQS new_lock : Nat) (c : IrqCtrl) :
    (hw_irq_ctrl_change_lock N_IRQS new_lock c).1 = (if c.irqs_locked then 1 else 0) ∧
    (hw_irq_ctrl_change_lock N_IRQS new_lock c).2.irqs_locked = decide (new_lock ≠ 0) ∧
    (hw_irq_ctrl_change_lock N_IRQS new_lock c).2.irq_premask = c.irq_premask ∧
    (hw_irq_ctrl_change_lock N_IRQS new_lock c).2.irq_status = c.irq_status ∧
    (hw_irq_ctrl_change_lock N_IRQS new_lock c).2.irq_mask = c.irq_mask ∧
    (hw_irq_ctrl_change_lock N_IRQS new_lock c).2.irq_prio = c.irq_prio ∧
    (hw_irq_ctrl_change_lock N_IRQS new_lock c).2.lock_ignore = c.lock_ignore ∧
    (hw_irq_ctrl_change_lock N_IRQS new_lock c).2.currently_running_prio =
      c.currently_running_prio ∧
    (hw_irq_ctrl_change_lock N_IRQS new_lock c).2.irq_ctrl_timer = c.irq_ctrl_timer ∧
    ((c.irqs_locked = true ∧ new_lock = 0 ∧
        ∃ i, i < NUM_U64_IRQS N_IRQS ∧ ∃ b, (c.irq_status i).testBit b = true) →
      (hw_irq_ctrl_change_lock N_IRQS new_lock c).2.cpu_calls =
        c.cpu_calls ++ [CpuNotify.irq_raised_from_sw]) ∧
    (¬ (c.irqs_locked = true ∧ new_lock = 0 ∧
        ∃ i, i < NUM_U64_IRQS N_IRQS ∧ ∃ b, (c.irq_status i).testBit b = true) →
      (hw_irq_ctrl_change_lock N_IRQS new_lock c).2.cpu_calls = c.cpu_calls) := by
  by_cases hcond : (if c.irqs_locked then 1 else 0) = 1 ∧ new_lock = 0
  · have hl : c.irqs_locked = true := by
      by_contra hn
      simp only [Bool.not_eq_true] at hn
      rw [hn] at hcond
      simp at hcond
    have hval : (hw_irq_ctrl_change_lock N_IRQS new_lock c).2 =
        (forLoop 0 (NUM_U64_IRQS N_IRQS)
          (fun i (st : IrqCtrl × Bool) =>
            if st.2 then st
            else if st.1.irq_status i ≠ 0 then
              ({ st.1 with cpu_calls := st.1.cpu_calls ++ [CpuNotify.irq_raised_from_sw] }, true)
            else st)
          ({ c with irqs_locked := decide (new_lock ≠ 0) }, false)).1 := by
      simp only [hw_irq_ctrl_change_lock, hcond, and_self, if_true]
    have hfst : (hw_irq_ctrl_change_lock N_IRQS new_lock c).1 = (if c.irqs_locked then 1 else 0) :=
      rfl
    rw [hfst, hval]
    rcases change_lock_loop (NUM_U64_IRQS N_IRQS) { c with irqs_locked := decide (new_lock ≠ 0) }
      with ⟨he, hz⟩ | ⟨he, i, hi, hne⟩
    · rw [he]
      refine ⟨rfl, rfl, rfl, rfl, rfl, rfl, rfl, rfl, rfl, fun h => ?_, fun _ => rfl⟩
      obtain ⟨_, _, i, hi, b, hb⟩ := h
      have := hz i hi
      simp only at this
      rw [this, Nat.zero_testBit] at hb
      exact Bool.noConfusion hb
    · rw [he]
      refine ⟨rfl, rfl, rfl, rfl, rfl, rfl, rfl, rfl, rfl, fun _ => rfl, fun h => ?_⟩
      exact absurd ⟨hl, hcond.2, i, hi, (word_ne_zero_iff _).1 hne⟩ h
  · have hval : (hw_irq_ctrl_change_lock N_IRQS new_lock c).2 =
        { c with irqs_locked := decide (new_lock ≠ 0) } := by
      simp only [hw_irq_ctrl_change_lock, hcond, if_false]
    have hfst : (hw_irq_ctrl_change_lock N_IRQS new_lock c).1 = (if c.irqs_locked then 1 else 0) :=
      rfl
    rw [hfst, hval]
    refine ⟨rfl, rfl, rfl, rfl, rfl, rfl, rfl, rfl, rfl, fun h => ?_, fun _ => rfl⟩
    exact absurd ⟨by simp [h.1], h.2.1⟩ hcond

/-- What `hw_irq_ctrl_irq_raise_prefix` does for an interrupt in range: it returns, with the
premask bit set, the status bit set when the interrupt is enabled, `lock_ignore` set when the
interrupt is `PHONY_HARD_IRQ`, and nothing else changed. -/
theorem raise_prefix_spec (N_IRQS PHONY_HARD_IRQ irq : Nat) (c : IrqCtrl) (hirq : irq < N_IRQS) :
    ∃ c1, hw_irq_ctrl_irq_raise_prefix N_IRQS PHONY_HARD_IRQ irq c = .ok c1 ∧
      (∀ j, irq_bit c1.irq_premask j = (irq_bit c.irq_premask j || decide (j = irq))) ∧
      (∀ j, irq_bit c1.irq_status j =
        (irq_bit c.irq_status j || (decide (j = irq) && irq_bit c.irq_mask irq))) ∧
      c1.irq_mask = c.irq_mask ∧ c1.irq_prio = c.irq_prio ∧
      c1.irqs_locked = c.irqs_locked ∧
      c1.lock_ignore = (c.lock_ignore || decide (irq = PHONY_HARD_IRQ)) ∧
      c1.cpu_calls = c.cpu_calls ∧ c1.irq_ctrl_timer = c.irq_ctrl_timer ∧
      c1.currently_running_prio = c.currently_running_prio := by
  have hge : ¬ irq ≥ N_IRQS := by omega
  have hbit : (global_irq_to_bitmask irq).1 = 1 <<< (irq % BITS_U64) := rfl
  have hidx : (global_irq_to_bitmask irq).2 = irq / BITS_U64 := rfl
  unfold hw_irq_ctrl_irq_raise_prefix
  simp only [hbit, hidx, hge, if_false]
  by_cases hph : irq = PHONY_HARD_IRQ
  · simp only [hph, if_true, Result.bind]
    rw [← hph]
    by_cases hm : irq_bit c.irq_mask irq = true
    · have hm2 := (mask_test c.irq_mask irq).2 hm
      rw [if_pos hm2]
      refine ⟨_, rfl, fun j => irq_bit_set _ _ _, fun j => ?_, rfl, rfl, rfl, ?_, rfl, rfl, rfl⟩
      · simp only [irq_bit_set, hm, Bool.and_true]
      · simp
    · have hm2 : ¬ (c.irq_mask (irq / BITS_U64) &&& 1 <<< (irq % BITS_U64) ≠ 0) :=
        fun h => hm ((mask_test c.irq_mask irq).1 h)
      simp only [hm2, if_false]
      refine ⟨_, rfl, fun j => irq_bit_set _ _ _, fun j => ?_, rfl, rfl, rfl, ?_, rfl, rfl, rfl⟩
      · simp only [Bool.not_eq_true] at hm
        simp only [hm, Bool.and_false, Bool.or_false]
      · simp
  · simp only [hph, if_false, Result.bind]
    by_cases hm : irq_bit c.irq_mask irq = true
    · have hm2 := (mask_test c.irq_mask irq).2 hm
      rw [if_pos hm2]
      refine ⟨_, rfl, fun j => irq_bit_set _ _ _, fun j => ?_, rfl, rfl, rfl, ?_, rfl, rfl, rfl⟩
      · simp only [irq_bit_set, hm, Bool.and_true]
      · simp
    · have hm2 : ¬ (c.irq_mask (irq / BITS_U64) &&& 1 <<< (irq % BITS_U64) ≠ 0) :=
        fun h => hm ((mask_test c.irq_mask irq).1 h)
      simp only [hm2, if_false]
      refine ⟨_, rfl, fun j => irq_bit_set _ _ _, fun j => ?_, rfl, rfl, rfl, ?_, rfl, rfl, rfl⟩
      · simp only [Bool.not_eq_true] at hm
        simp only [hm, Bool.and_false, Bool.or_false]
      · simp

/-- C8. For an interrupt in range, `hw_irq_ctrl_enable_irq` returns and sets the mask bit of
`irq` (and no other mask bit). If the premask bit of `irq` is set, it also sets the status bit
of `irq` with no new raise (no premask bit changes, no other status bit changes) and calls
`nsif_cpu0_irq_raised_from_sw` exactly once if the controller is not locked and not at all if
it is locked. If the premask bit of `irq` is clear, it changes only the mask bit and calls no
notification. -/
theorem enable_irq_spec (N_IRQS PHONY_HARD_IRQ irq : Nat) (c : IrqCtrl) (hirq : irq < N_IRQS) :
    (hw_irq_ctrl_enable_irq N_IRQS PHONY_HARD_IRQ irq c).isOk = true ∧
    (∀ j, irq_bit (hw_irq_ctrl_enable_irq N_IRQS PHONY_HARD_IRQ irq c).state.irq_mask j =
      (irq_bit c.irq_mask j || decide (j = irq))) ∧
    (hw_irq_ctrl_enable_irq N_IRQS PHONY_HARD_IRQ irq c).state.irqs_locked = c.irqs_locked ∧
    (hw_irq_ctrl_enable_irq N_IRQS PHONY_HARD_IRQ irq c).state.irq_prio = c.irq_prio ∧
    (irq_bit c.irq_premask irq = true →
      (∀ j, irq_bit (hw_irq_ctrl_enable_irq N_IRQS PHONY_HARD_IRQ irq c).state.irq_status j =
        (irq_bit c.irq_status j || decide (j = irq))) ∧
      (∀ j, irq_bit (hw_irq_ctrl_enable_irq N_IRQS PHONY_HARD_IRQ irq c).state.irq_premask j =
        irq_bit c.irq_premask j) ∧
      (c.irqs_locked = false →
        (hw_irq_ctrl_enable_irq N_IRQS PHONY_HARD_IRQ irq c).state.cpu_calls =
          c.cpu_calls ++ [CpuNotify.irq_raised_from_sw]) ∧
      (c.irqs_locked = true →
        (hw_irq_ctrl_enable_irq N_IRQS PHONY_HARD_IRQ irq c).state.cpu_calls = c.cpu_calls)) ∧
    (irq_bit c.irq_premask irq = false →
      (hw_irq_ctrl_enable_irq N_IRQS PHONY_HARD_IRQ irq c).state.irq_status = c.irq_status ∧
      (hw_irq_ctrl_enable_irq N_IRQS PHONY_HARD_IRQ irq c).state.irq_premask = c.irq_premask ∧
      (hw_irq_ctrl_enable_irq N_IRQS PHONY_HARD_IRQ irq c).state.cpu_calls = c.cpu_calls ∧
      (hw_irq_ctrl_enable_irq N_IRQS PHONY_HARD_IRQ irq c).state.lock_ignore = c.lock_ignore ∧
      (hw_irq_ctrl_enable_irq N_IRQS PHONY_HARD_IRQ irq c).state.irq_ctrl_timer =
        c.irq_ctrl_timer ∧
      (hw_irq_ctrl_enable_irq N_IRQS PHONY_HARD_IRQ irq c).state.currently_running_prio =
        c.currently_running_prio) := by
  have hge : ¬ irq ≥ N_IRQS := by omega
  have hbit : (global_irq_to_bitmask irq).1 = 1 <<< (irq % BITS_U64) := rfl
  have hidx : (global_irq_to_bitmask irq).2 = irq / BITS_U64 := rfl
  by_cases hp : irq_bit c.irq_premask irq = true
  · have hp2 := (mask_test c.irq_premask irq).2 hp
    obtain ⟨c2, hpre, hpm, hst, hmk, hpr, hlk, _, hcalls, _, _⟩ :=
      raise_prefix_spec N_IRQS PHONY_HARD_IRQ irq
        { c with irq_mask := Function.update c.irq_mask (irq / BITS_U64)
                   (c.irq_mask (irq / BITS_U64) ||| 1 <<< (irq % BITS_U64)) } hirq
    simp only at hpm hst hmk hpr hlk hcalls
    have hmset : irq_bit (Function.update c.irq_mask (irq / BITS_U64)
        (c.irq_mask (irq / BITS_U64) ||| 1 <<< (irq % BITS_U64))) irq = true := by
      rw [irq_bit_set]; simp
    have hval : hw_irq_ctrl_enable_irq N_IRQS PHONY_HARD_IRQ irq c =
        if c2.irqs_locked = false then
          .ok { c2 with cpu_calls := c2.cpu_calls ++ [CpuNotify.irq_raised_from_sw] }
        else .ok c2 := by
      unfold hw_irq_ctrl_enable_irq
      simp only [hge, if_false, hbit, hidx]
      rw [if_pos hp2]
      unfold hw_irq_ctrl_raise_im_from_sw
      simp only [hge, if_false]
      rw [hpre]
      rfl
    have hstatus : ∀ j, irq_bit c2.irq_status j = (irq_bit c.irq_status j || decide (j = irq)) := by
      intro j; rw [hst j, hmset, Bool.and_true]
    have hpremask : ∀ j, irq_bit c2.irq_premask j = irq_bit c.irq_premask j := by
      intro j
      rw [hpm j]
      by_cases hj : j = irq
      · subst hj; simp [hp]
      · simp [hj]
    have hmask : ∀ j, irq_bit c2.irq_mask j = (irq_bit c.irq_mask j || decide (j = irq)) := by
      intro j; rw [hmk]; exact irq_bit_set _ _ _
    by_cases hl : c.irqs_locked = false
    · have hl2 : c2.irqs_locked = false := by rw [hlk]; exact hl
      rw [if_pos hl2] at hval
      rw [hval]
      refine ⟨rfl, hmask, hlk, hpr, fun _ => ⟨hstatus, hpremask, fun _ => ?_, fun h => ?_⟩,
        fun h => ?_⟩
      · show c2.cpu_calls ++ [CpuNotify.irq_raised_from_sw] = _
        rw [hcalls]
      · rw [hl] at h; exact Bool.noConfusion h
      · rw [hp] at h; exact Bool.noConfusion h
    · have hl2 : ¬ c2.irqs_locked = false := by rw [hlk]; exact hl
      rw [if_neg hl2] at hval
      rw [hval]
      refine ⟨rfl, hmask, hlk, hpr,
        fun _ => ⟨hstatus, hpremask, fun h => absurd h hl, fun _ => hcalls⟩, fun h => ?_⟩
      rw [hp] at h; exact Bool.noConfusion h
  · have hp2 : ¬ (c.irq_premask (irq / BITS_U64) &&& 1 <<< (irq % BITS_U64) ≠ 0) :=
      fun h => hp ((mask_test c.irq_premask irq).1 h)
    have hval : hw_irq_ctrl_enable_irq N_IRQS PHONY_HARD_IRQ irq c =
        .ok { c with irq_mask := Function.update c.irq_mask (irq / BITS_U64)
                       (c.irq_mask (irq / BITS_U64) ||| 1 <<< (irq % BITS_U64)) } := by
      unfold hw_irq_ctrl_enable_irq
      simp only [hge, if_false, hbit, hidx]
      rw [if_neg hp2]
    rw [hval]
    exact ⟨rfl, fun j => irq_bit_set _ _ _, rfl, rfl, fun h => absurd h hp,
      fun _ => ⟨rfl, rfl, rfl, rfl, rfl, rfl⟩⟩

/-- Witness of C8: enabling interrupt 9 of `exampleMasked`, which is requested and disabled. -/
theorem enable_irq_spec_witness :
    9 < 128 ∧
    (hw_irq_ctrl_enable_irq 128 65535 9 exampleMasked).isOk = true ∧
    (irq_bit exampleMasked.irq_premask 9 = true →
      (∀ j, irq_bit (hw_irq_ctrl_enable_irq 128 65535 9 exampleMasked).state.irq_status j =
        (irq_bit exampleMasked.irq_status j || decide (j = 9))) ∧
      (∀ j, irq_bit (hw_irq_ctrl_enable_irq 128 65535 9 exampleMasked).state.irq_premask j =
        irq_bit exampleMasked.irq_premask j) ∧
      (exampleMasked.irqs_locked = false →
        (hw_irq_ctrl_enable_irq 128 65535 9 exampleMasked).state.cpu_calls =
          exampleMasked.cpu_calls ++ [CpuNotify.irq_raised_from_sw]) ∧
      (exampleMasked.irqs_locked = true →
        (hw_irq_ctrl_enable_irq 128 65535 9 exampleMasked).state.cpu_calls =
          exampleMasked.cpu_calls)) :=
  ⟨by decide, (enable_irq_spec 128 65535 9 exampleMasked (by decide)).1,
    (enable_irq_spec 128 65535 9 exampleMasked (by decide)).2.2.2.2.1⟩

/-- The loop of `hw_irq_ctrl_clear_all_enabled_irqs` after `k` words. -/
theorem clear_all_enabled_loop (c : IrqCtrl) (n : Nat) :
    (forLoop 0 n
      (fun i (c : IrqCtrl) =>
        { c with irq_status := Function.update c.irq_status i 0,
                 irq_premask := Function.update c.irq_premask i
                   (c.irq_premask i &&& not64 (c.irq_mask i)) }) c).irq_mask = c.irq_mask ∧
    (∀ i, (forLoop 0 n
      (fun i (c : IrqCtrl) =>
        { c with irq_status := Function.update c.irq_status i 0,
                 irq_premask := Function.update c.irq_premask i
                   (c.irq_premask i &&& not64 (c.irq_mask i)) }) c).irq_status i =
      if i < n then 0 else c.irq_status i) ∧
    (∀ i, (forLoop 0 n
      (fun i (c : IrqCtrl) =>
        { c with irq_status := Function.update c.irq_status i 0,
                 irq_premask := Function.update c.irq_premask i
                   (c.irq_premask i &&& not64 (c.irq_mask i)) }) c).irq_premask i =
      if i < n then c.irq_premask i &&& not64 (c.irq_mask i) else c.irq_premask i) := by
  refine forLoop_inv
    (fun k (a : IrqCtrl) => a.irq_mask = c.irq_mask ∧
      (∀ i, a.irq_status i = if i < k then 0 else c.irq_status i) ∧
      (∀ i, a.irq_premask i =
        if i < k then c.irq_premask i &&& not64 (c.irq_mask i) else c.irq_premask i))
    0 n _ c (Nat.zero_le _) ⟨rfl, fun i => by simp, fun i => by simp⟩ ?_
  rintro k a _ _ ⟨hm, hs, hp⟩
  refine ⟨hm, fun i => ?_, fun i => ?_⟩
  · show Function.update a.irq_status k 0 i = _
    by_cases hik : i = k
    · subst hik; simp
    · rw [Function.update_noteq hik, hs i]
      by_cases h1 : i < k
      · have h2 : i < k + 1 := by omega
        simp [h1, h2]
      · have h2 : ¬ i < k + 1 := by omega
        simp [h1, h2]
  · show Function.update a.irq_premask k (a.irq_premask k &&& not64 (a.irq_mask k)) i = _
    by_cases hik : i = k
    · subst hik
      rw [Function.update_same, hp i, hm]
      simp
    · rw [Function.update_noteq hik, hp i]
      by_cases h1 : i < k
      · have h2 : i < k + 1 := by omega
        simp [h1, h2]
      · have h2 : ¬ i < k + 1 := by omega
        simp [h1, h2]

/-- C9. For every controller state, `hw_irq_ctrl_clear_all_enabled_irqs` leaves every status
word zero, leaves each premask word equal to its old value AND NOT the mask word (bit by bit:
a request stays latched exactly when it was requested and masked), and leaves the mask
unchanged; with premask = {5, 9} and mask = {5} it gives status = {} and premask = {9}. -/
theorem clear_all_enabled_irqs_spec (N_IRQS : Nat) (c : IrqCtrl) :
    (∀ i, i < NUM_U64_IRQS N_IRQS → (hw_irq_ctrl_clear_all_enabled_irqs N_IRQS c).irq_status i = 0) ∧
    (∀ i, i < NUM_U64_IRQS N_IRQS →
      (hw_irq_ctrl_clear_all_enabled_irqs N_IRQS c).irq_premask i =
        c.irq_premask i &&& not64 (c.irq_mask i)) ∧
    (hw_irq_ctrl_clear_all_enabled_irqs N_IRQS c).irq_mask = c.irq_mask ∧
    (∀ irq, irq / BITS_U64 < NUM_U64_IRQS N_IRQS →
      irq_bit (hw_irq_ctrl_clear_all_enabled_irqs N_IRQS c).irq_status irq = false ∧
      irq_bit (hw_irq_ctrl_clear_all_enabled_irqs N_IRQS c).irq_premask irq =
        (irq_bit c.irq_premask irq && !irq_bit c.irq_mask irq)) ∧
    ((hw_irq_ctrl_clear_all_enabled_irqs 128 exampleMasked).irq_status 0 = 0 ∧
      (hw_irq_ctrl_clear_all_enabled_irqs 128 exampleMasked).irq_status 1 = 0 ∧
      (hw_irq_ctrl_clear_all_enabled_irqs 128 exampleMasked).irq_premask 0 = 2 ^ 9 ∧
      (hw_irq_ctrl_clear_all_enabled_irqs 128 exampleMasked).irq_premask 1 = 0 ∧
      (hw_irq_ctrl_clear_all_enabled_irqs 128 exampleMasked).irq_mask 0 = 2 ^ 5) := by
  obtain ⟨hm, hs, hp⟩ := clear_all_enabled_loop c (NUM_U64_IRQS N_IRQS)
  have hs2 : ∀ i, i < NUM_U64_IRQS N_IRQS →
      (hw_irq_ctrl_clear_all_enabled_irqs N_IRQS c).irq_status i = 0 := by
    intro i hi
    have := hs i
    rw [if_pos hi] at this
    exact this
  have hp2 : ∀ i, i < NUM_U64_IRQS N_IRQS →
      (hw_irq_ctrl_clear_all_enabled_irqs N_IRQS c).irq_premask i =
        c.irq_premask i &&& not64 (c.irq_mask i) := by
    intro i hi
    have := hp i
    rw [if_pos hi] at this
    exact this
  refine ⟨hs2, hp2, hm, fun irq hirq => ⟨?_, ?_⟩, by decide⟩
  · unfold irq_bit
    rw [hs2 _ hirq, Nat.zero_testBit]
  · unfold irq_bit
    have hlt : irq % BITS_U64 < 64 := Nat.mod_lt _ (by decide)
    rw [hp2 _ hirq, Nat.testBit_and, testBit_not64]
    simp [hlt]

/-- C10. For an interrupt in range, `hw_irq_ctrl_set_irq` returns, sets the premask bit of
`irq`, sets its status bit if and only if its mask bit is set (no other premask or status bit
changes, nor the mask), and calls no CPU notification. If the controller is not locked or
`lock_ignore` is set when the function tests it, the wake timer `irq_ctrl_timer` becomes the
current virtual time; if the controller is locked and `lock_ignore` is clear there, the timer
is unchanged. The flag tested is the one the raise prefix leaves, which is the flag on entry
except that it is set when `irq` is `PHONY_HARD_IRQ`. -/
theorem set_irq_spec {X : Type} (reg : Registry (IrqCtrl × X)) (N_IRQS PHONY_HARD_IRQ irq : Nat)
    (w : IrqWorld X) (hirq : irq < N_IRQS) :
    (hw_irq_ctrl_set_irq reg N_IRQS PHONY_HARD_IRQ irq w).isOk = true ∧
    (∀ j, irq_bit (hw_irq_ctrl_set_irq reg N_IRQS PHONY_HARD_IRQ irq w).state.mem.1.irq_premask j =
      (irq_bit w.mem.1.irq_premask j || decide (j = irq))) ∧
    (∀ j, irq_bit (hw_irq_ctrl_set_irq reg N_IRQS PHONY_HARD_IRQ irq w).state.mem.1.irq_status j =
      (irq_bit w.mem.1.irq_status j || (decide (j = irq) && irq_bit w.mem.1.irq_mask irq))) ∧
    (hw_irq_ctrl_set_irq reg N_IRQS PHONY_HARD_IRQ irq w).state.mem.1.irq_mask = w.mem.1.irq_mask ∧
    (hw_irq_ctrl_set_irq reg N_IRQS PHONY_HARD_IRQ irq w).state.mem.1.cpu_calls = w.mem.1.cpu_calls ∧
    (hw_irq_ctrl_set_irq reg N_IRQS PHONY_HARD_IRQ irq w).state.mem.1.irqs_locked = w.mem.1.irqs_locked ∧
    (hw_irq_ctrl_set_irq reg N_IRQS PHONY_HARD_IRQ irq w).state.mem.1.lock_ignore = (w.mem.1.lock_ignore || decide (irq = PHONY_HARD_IRQ)) ∧
    (hw_irq_ctrl_set_irq reg N_IRQS PHONY_HARD_IRQ irq w).state.hws.simu_time = w.hws.simu_time ∧
    ((w.mem.1.irqs_locked = false ∨ (hw_irq_ctrl_set_irq reg N_IRQS PHONY_HARD_IRQ irq w).state.mem.1.lock_ignore = true) →
      (hw_irq_ctrl_set_irq reg N_IRQS PHONY_HARD_IRQ irq w).state.mem.1.irq_ctrl_timer = w.hws.simu_time) ∧
    ((w.mem.1.irqs_locked = true ∧ (hw_irq_ctrl_set_irq reg N_IRQS PHONY_HARD_IRQ irq w).state.mem.1.lock_ignore = false) →
      (hw_irq_ctrl_set_irq reg N_IRQS PHONY_HARD_IRQ irq w).state.mem.1.irq_ctrl_timer = w.mem.1.irq_ctrl_timer) ∧
    ((w.mem.1.irqs_locked = false ∨ w.mem.1.lock_ignore = true) →
      (hw_irq_ctrl_set_irq reg N_IRQS PHONY_HARD_IRQ irq w).state.mem.1.irq_ctrl_timer = w.hws.simu_time) ∧
    ((w.mem.1.irqs_locked = true ∧ w.mem.1.lock_ignore = false ∧ irq ≠ PHONY_HARD_IRQ) →
      (hw_irq_ctrl_set_irq reg N_IRQS PHONY_HARD_IRQ irq w).state.mem.1.irq_ctrl_timer = w.mem.1.irq_ctrl_timer) := by
  have hge : ¬ irq ≥ N_IRQS := by omega
  obtain ⟨c1, hpre, hpm, hst, hmk, _, hlk, hli, hcalls, htm, _⟩ :=
    raise_prefix_spec N_IRQS PHONY_HARD_IRQ irq w.mem.1 hirq
  by_cases hc : c1.irqs_locked = false ∨ c1.lock_ignore = true
  · have hval : (hw_irq_ctrl_set_irq reg N_IRQS PHONY_HARD_IRQ irq w) =
        .ok (nsi_hws_find_next_event reg
          (w.setCtrl { c1 with irq_ctrl_timer := nsi_hws_get_time w })) := by
      unfold hw_irq_ctrl_set_irq
      simp only [hge, if_false]
      rw [hpre]
      simp only
      rw [if_pos hc]
    rw [hval]
    refine ⟨rfl, hpm, hst, hmk, hcalls, hlk, hli, rfl, fun _ => rfl, fun h => ?_, fun _ => rfl,
      fun h => ?_⟩
    · exfalso
      have h1 : c1.lock_ignore = false := h.2
      rcases hc with h2 | h2
      · rw [hlk, h.1] at h2; exact Bool.noConfusion h2
      · rw [h1] at h2; exact Bool.noConfusion h2
    · exfalso
      obtain ⟨h1, h2, h3⟩ := h
      rcases hc with h4 | h4
      · rw [hlk, h1] at h4; exact Bool.noConfusion h4
      · rw [hli, h2] at h4
        simp [h3] at h4
  · have hval : (hw_irq_ctrl_set_irq reg N_IRQS PHONY_HARD_IRQ irq w) = .ok (w.setCtrl c1) := by
      unfold hw_irq_ctrl_set_irq
      simp only [hge, if_false]
      rw [hpre]
      simp only
      rw [if_neg hc]
    rw [hval]
    refine ⟨rfl, hpm, hst, hmk, hcalls, hlk, hli, rfl, fun h => ?_, fun _ => htm, fun h => ?_,
      fun _ => htm⟩
    · exfalso
      rcases h with h | h
      · exact hc (Or.inl (hlk.trans h))
      · exact hc (Or.inr h)
    · exfalso
      rcases h with h | h
      · exact hc (Or.inl (hlk.trans h))
      · refine hc (Or.inr ?_)
        rw [hli, h]; rfl

/-- Witness of C10: raising interrupt 9 in `exampleIrqWorld`, whose controller is locked,
sets the premask bit and leaves the wake timer alone. -/
theorem set_irq_spec_witness :
    9 < 128 ∧
    (hw_irq_ctrl_set_irq ⟨[fun m => m.1.irq_ctrl_timer], []⟩ 128 65535 9 exampleIrqWorld).isOk =
      true ∧
    (hw_irq_ctrl_set_irq ⟨[fun m => m.1.irq_ctrl_timer], []⟩ 128 65535 9
      exampleIrqWorld).state.mem.1.cpu_calls = exampleIrqWorld.mem.1.cpu_calls :=
  ⟨by decide,
    (set_irq_spec ⟨[fun m => m.1.irq_ctrl_timer], []⟩ 128 65535 9 exampleIrqWorld (by decide)).1,
    (set_irq_spec ⟨[fun m => m.1.irq_ctrl_timer], []⟩ 128 65535 9 exampleIrqWorld
      (by decide)).2.2.2.2.1⟩

/-! ## Controller: immediate raise and range checks -/

/-- What `irq_raising_from_hw_now` does: one hardware notification and the bypass flag cleared
when the controller is not locked or the flag is set, nothing otherwise; no bitset, priority
or lock changes. -/
theorem raising_from_hw_now_spec (c : IrqCtrl) :
    ((c.irqs_locked = false ∨ c.lock_ignore = true) →
      (irq_raising_from_hw_now c).cpu_calls = c.cpu_calls ++ [CpuNotify.irq_raised] ∧
      (irq_raising_from_hw_now c).lock_ignore = false) ∧
    (¬ (c.irqs_locked = false ∨ c.lock_ignore = true) → irq_raising_from_hw_now c = c) ∧
    (irq_raising_from_hw_now c).irq_status = c.irq_status ∧
    (irq_raising_from_hw_now c).irq_premask = c.irq_premask ∧
    (irq_raising_from_hw_now c).irq_mask = c.irq_mask ∧
    (irq_raising_from_hw_now c).irq_prio = c.irq_prio ∧
    (irq_raising_from_hw_now c).irqs_locked = c.irqs_locked ∧
    (irq_raising_from_hw_now c).irq_ctrl_timer = c.irq_ctrl_timer ∧
    (irq_raising_from_hw_now c).currently_running_prio = c.currently_running_prio := by
  unfold irq_raising_from_hw_now
  by_cases h : c.irqs_locked = false ∨ c.lock_ignore = true
  · rw [if_pos h]
    exact ⟨fun _ => ⟨rfl, rfl⟩, fun hn => absurd h hn, rfl, rfl, rfl, rfl, rfl, rfl, rfl⟩
  · rw [if_neg h]
    exact ⟨fun hp => absurd hp h, fun _ => rfl, rfl, rfl, rfl, rfl, rfl, rfl, rfl⟩

/-- C11 fails on the code. With 64 interrupts and the bypass interrupt
`PHONY_HARD_IRQ = 65535` outside them, `hw_irq_ctrl_raise_im(PHONY_HARD_IRQ)` on a locked
controller ends the process at its own range check: `nsif_cpu0_irq_raised` is not called,
nothing is delivered and the state is as on entry. The raise prefix, had it been reached,
accepts the bypass interrupt and sets `lock_ignore`, and `irq_raising_from_hw_now` would then
notify once and clear the flag. -/
theorem raise_im_bypass_fatal :
    lockedCtrl.irqs_locked = true ∧ lockedCtrl.lock_ignore = false ∧
    lockedCtrl.cpu_calls = [] ∧
    (hw_irq_ctrl_raise_im 64 65535 65535 lockedCtrl).isOk = false ∧
    (hw_irq_ctrl_raise_im 64 65535 65535 lockedCtrl).state.cpu_calls = [] ∧
    (hw_irq_ctrl_raise_im 64 65535 65535 lockedCtrl).state.lock_ignore = false ∧
    hw_irq_ctrl_raise_im 64 65535 65535 lockedCtrl = .stop .fatal lockedCtrl ∧
    Result.isOk ( hw_irq_ctrl_irq_raise_prefix 64 65535 65535 lockedCtrl) = true ∧
    (Result.state ( hw_irq_ctrl_irq_raise_prefix 64 65535 65535 lockedCtrl)).lock_ignore =
      true ∧
    (irq_raising_from_hw_now
      (Result.state ( hw_irq_ctrl_irq_raise_prefix 64 65535 65535 lockedCtrl))).cpu_calls =
      [CpuNotify.irq_raised] ∧
    (irq_raising_from_hw_now
      (Result.state ( hw_irq_ctrl_irq_raise_prefix 64 65535 65535 lockedCtrl))).lock_ignore =
      false :=
  ⟨by decide, by decide, by decide, by decide, by decide, by decide, rfl, by decide, by decide,
    by decide, by decide⟩

/-- What `hw_irq_ctrl_raise_im` does for an interrupt in range: it returns and calls
`nsif_cpu0_irq_raised` exactly once, leaving `lock_ignore` false, when the controller is not
locked, or `lock_ignore` is already set on entry, or the interrupt is `PHONY_HARD_IRQ`; in
every other case it calls nothing. In particular an ordinary interrupt in range, raised with
`lock_ignore` clear, is notified if and only if the controller is not locked. -/
theorem raise_im_spec (N_IRQS PHONY_HARD_IRQ irq : Nat) (c : IrqCtrl) (hirq : irq < N_IRQS) :
    (hw_irq_ctrl_raise_im N_IRQS PHONY_HARD_IRQ irq c).isOk = true ∧
    (hw_irq_ctrl_raise_im N_IRQS PHONY_HARD_IRQ irq c).state.irqs_locked = c.irqs_locked ∧
    ((c.irqs_locked = false ∨ c.lock_ignore = true ∨ irq = PHONY_HARD_IRQ) →
      (hw_irq_ctrl_raise_im N_IRQS PHONY_HARD_IRQ irq c).state.cpu_calls = c.cpu_calls ++ [CpuNotify.irq_raised] ∧
      (hw_irq_ctrl_raise_im N_IRQS PHONY_HARD_IRQ irq c).state.lock_ignore = false) ∧
    (¬ (c.irqs_locked = false ∨ c.lock_ignore = true ∨ irq = PHONY_HARD_IRQ) →
      (hw_irq_ctrl_raise_im N_IRQS PHONY_HARD_IRQ irq c).state.cpu_calls = c.cpu_calls ∧ (hw_irq_ctrl_raise_im N_IRQS PHONY_HARD_IRQ irq c).state.lock_ignore = false) ∧
    (irq = PHONY_HARD_IRQ → c.irqs_locked = true →
      (hw_irq_ctrl_raise_im N_IRQS PHONY_HARD_IRQ irq c).state.cpu_calls = c.cpu_calls ++ [CpuNotify.irq_raised] ∧
      (hw_irq_ctrl_raise_im N_IRQS PHONY_HARD_IRQ irq c).state.lock_ignore = false) ∧
    (irq ≠ PHONY_HARD_IRQ → c.lock_ignore = false →
      ((hw_irq_ctrl_raise_im N_IRQS PHONY_HARD_IRQ irq c).state.cpu_calls = c.cpu_calls ++ [CpuNotify.irq_raised] ↔ c.irqs_locked = false) ∧
      (c.irqs_locked = true → (hw_irq_ctrl_raise_im N_IRQS PHONY_HARD_IRQ irq c).state.cpu_calls = c.cpu_calls)) := by
  have hge : ¬ irq ≥ N_IRQS := by omega
  obtain ⟨c1, hpre, _, _, _, _, hlk, hli, hcalls, _, _⟩ :=
    raise_prefix_spec N_IRQS PHONY_HARD_IRQ irq c hirq
  have hval : (hw_irq_ctrl_raise_im N_IRQS PHONY_HARD_IRQ irq c) = .ok (irq_raising_from_hw_now c1) := by
    unfold hw_irq_ctrl_raise_im
    simp only [hge, if_false]
    rw [hpre]
    rfl
  obtain ⟨hyes, hno, _, _, _, _, hlk2, _, _⟩ := raising_from_hw_now_spec c1
  have hcond : (c1.irqs_locked = false ∨ c1.lock_ignore = true) ↔
      (c.irqs_locked = false ∨ c.lock_ignore = true ∨ irq = PHONY_HARD_IRQ) := by
    rw [hlk, hli]
    simp only [Bool.or_eq_true, decide_eq_true_eq]
  have hpos : (c.irqs_locked = false ∨ c.lock_ignore = true ∨ irq = PHONY_HARD_IRQ) →
      (irq_raising_from_hw_now c1).cpu_calls = c.cpu_calls ++ [CpuNotify.irq_raised] ∧
      (irq_raising_from_hw_now c1).lock_ignore = false := by
    intro h
    have := hyes (hcond.2 h)
    rw [hcalls] at this
    exact this
  have hneg : ¬ (c.irqs_locked = false ∨ c.lock_ignore = true ∨ irq = PHONY_HARD_IRQ) →
      (irq_raising_from_hw_now c1).cpu_calls = c.cpu_calls ∧
      (irq_raising_from_hw_now c1).lock_ignore = false := by
    intro h
    have h1 : ¬ (c1.irqs_locked = false ∨ c1.lock_ignore = true) := fun h2 => h (hcond.1 h2)
    rw [hno h1]
    refine ⟨hcalls, ?_⟩
    by_contra hl
    exact h1 (Or.inr (by simpa using hl))
  rw [hval]
  refine ⟨rfl, hlk2.trans hlk, hpos, hneg, fun h1 _ => hpos (Or.inr (Or.inr h1)),
    fun h1 h2 => ⟨⟨fun h3 => ?_, fun h3 => (hpos (Or.inl h3)).1⟩, fun h3 => ?_⟩⟩
  · by_contra hl
    have hn : ¬ (c.irqs_locked = false ∨ c.lock_ignore = true ∨ irq = PHONY_HARD_IRQ) := by
      rintro (h | h | h)
      · exact hl h
      · rw [h2] at h; exact Bool.noConfusion h
      · exact h1 h
    have h4 := (hneg hn).1
    have h5 : (irq_raising_from_hw_now c1).cpu_calls =
        c.cpu_calls ++ [CpuNotify.irq_raised] := h3
    rw [h4] at h5
    have := congrArg List.length h5
    simp at this
  · have hn : ¬ (c.irqs_locked = false ∨ c.lock_ignore = true ∨ irq = PHONY_HARD_IRQ) := by
      rintro (h | h | h)
      · rw [h3] at h; exact Bool.noConfusion h
      · rw [h2] at h; exact Bool.noConfusion h
      · exact h1 h
    exact (hneg hn).1

/-- What `hw_irq_ctrl_raise_im_from_sw` leaves for an interrupt in range. -/
theorem raise_im_from_sw_result (N_IRQS PHONY_HARD_IRQ irq : Nat) (c : IrqCtrl)
    (hirq : irq < N_IRQS) :
    ∃ c2, hw_irq_ctrl_raise_im_from_sw N_IRQS PHONY_HARD_IRQ irq c = .ok c2 ∧
      (∀ j, irq_bit c2.irq_premask j = (irq_bit c.irq_premask j || decide (j = irq))) ∧
      (∀ j, irq_bit c2.irq_status j =
        (irq_bit c.irq_status j || (decide (j = irq) && irq_bit c.irq_mask irq))) ∧
      c2.irq_mask = c.irq_mask := by
  have hge : ¬ irq ≥ N_IRQS := by omega
  obtain ⟨c1, hpre, hpm, hst, hmk, _⟩ := raise_prefix_spec N_IRQS PHONY_HARD_IRQ irq c hirq
  unfold hw_irq_ctrl_raise_im_from_sw
  simp only [hge, if_false]
  rw [hpre]
  by_cases hl : c1.irqs_locked = false
  · exact ⟨{ c1 with cpu_calls := c1.cpu_calls ++ [CpuNotify.irq_raised_from_sw] },
      by simp only [Result.bind]; rw [if_pos hl], hpm, hst, hmk⟩
  · exact ⟨c1, by simp only [Result.bind]; rw [if_neg hl], hpm, hst, hmk⟩

/-- What `hw_irq_ctrl_raise_im` leaves for an interrupt in range. -/
theorem raise_im_result (N_IRQS PHONY_HARD_IRQ irq : Nat) (c : IrqCtrl) (hirq : irq < N_IRQS) :
    ∃ c2, hw_irq_ctrl_raise_im N_IRQS PHONY_HARD_IRQ irq c = .ok c2 ∧
      (∀ j, irq_bit c2.irq_premask j = (irq_bit c.irq_premask j || decide (j = irq))) ∧
      (∀ j, irq_bit c2.irq_status j =
        (irq_bit c.irq_status j || (decide (j = irq) && irq_bit c.irq_mask irq))) ∧
      c2.irq_mask = c.irq_mask := by
  have hge : ¬ irq ≥ N_IRQS := by omega
  obtain ⟨c1, hpre, hpm, hst, hmk, _⟩ := raise_prefix_spec N_IRQS PHONY_HARD_IRQ irq c hirq
  obtain ⟨_, _, hs, hp, hm, _⟩ := raising_from_hw_now_spec c1
  refine ⟨irq_raising_from_hw_now c1, ?_, ?_, ?_, ?_⟩
  · unfold hw_irq_ctrl_raise_im
    simp only [hge, if_false]
    rw [hpre]
    rfl
  · intro j; rw [hp]; exact hpm j
  · intro j; rw [hs]; exact hst j
  · rw [hm]; exact hmk

/-- What `hw_irq_ctrl_enable_irq` leaves for an interrupt in range. -/
theorem enable_irq_result (N_IRQS PHONY_HARD_IRQ irq : Nat) (c : IrqCtrl) (hirq : irq < N_IRQS) :
    ∃ c2, hw_irq_ctrl_enable_irq N_IRQS PHONY_HARD_IRQ irq c = .ok c2 ∧
      (∀ j, irq_bit c2.irq_premask j = irq_bit c.irq_premask j) ∧
      (∀ j, irq_bit c2.irq_status j =
        (irq_bit c.irq_status j || (decide (j = irq) && irq_bit c.irq_premask irq))) ∧
      (∀ j, irq_bit c2.irq_mask j = (irq_bit c.irq_mask j || decide (j = irq))) := by
  have hge : ¬ irq ≥ N_IRQS := by omega
  have hbit : (global_irq_to_bitmask irq).1 = 1 <<< (irq % BITS_U64) := rfl
  have hidx : (global_irq_to_bitmask irq).2 = irq / BITS_U64 := rfl
  by_cases hp : irq_bit c.irq_premask irq = true
  · have hp2 := (mask_test c.irq_premask irq).2 hp
    obtain ⟨c2, hres, hpm, hst, hmk⟩ :=
      raise_im_from_sw_result N_IRQS PHONY_HARD_IRQ irq
        { c with irq_mask := Function.update c.irq_mask (irq / BITS_U64)
                   (c.irq_mask (irq / BITS_U64) ||| 1 <<< (irq % BITS_U64)) } hirq
    simp only at hpm hst hmk
    refine ⟨c2, ?_, fun j => ?_, fun j => ?_, fun j => ?_⟩
    · unfold hw_irq_ctrl_enable_irq
      simp only [hge, if_false, hbit, hidx]
      rw [if_pos hp2]
      exact hres
    · rw [hpm j]
      by_cases hj : j = irq
      · subst hj; simp [hp]
      · simp [hj]
    · rw [hst j, irq_bit_set, hp]
      simp
    · rw [hmk]; exact irq_bit_set _ _ _
  · have hp2 : ¬ (c.irq_premask (irq / BITS_U64) &&& 1 <<< (irq % BITS_U64) ≠ 0) :=
      fun h => hp ((mask_test c.irq_premask irq).1 h)
    refine ⟨{ c with irq_mask := Function.update c.irq_mask (irq / BITS_U64)
                       (c.irq_mask (irq / BITS_U64) ||| 1 <<< (irq % BITS_U64)) },
      ?_, fun j => rfl, fun j => ?_, fun j => irq_bit_set _ _ _⟩
    · unfold hw_irq_ctrl_enable_irq
      simp only [hge, if_false, hbit, hidx]
      rw [if_neg hp2]
    · simp only [Bool.not_eq_true] at hp
      simp [hp]

/-- What `hw_irq_ctrl_set_irq` leaves for an interrupt in range: the controller the raise
prefix leaves, with the wake timer rearmed and the next event recomputed when the controller
is not locked or the bypass flag is set. -/
theorem set_irq_result {X : Type} (reg : Registry (IrqCtrl × X))
    (N_IRQS PHONY_HARD_IRQ irq : Nat) (w : IrqWorld X) (hirq : irq < N_IRQS) :
    ∃ c1, hw_irq_ctrl_irq_raise_prefix N_IRQS PHONY_HARD_IRQ irq w.mem.1 = .ok c1 ∧
      hw_irq_ctrl_set_irq reg N_IRQS PHONY_HARD_IRQ irq w =
        .ok (if c1.irqs_locked = false ∨ c1.lock_ignore = true then
          nsi_hws_find_next_event reg
            (w.setCtrl { c1 with irq_ctrl_timer := nsi_hws_get_time w })
        else w.setCtrl c1) := by
  have hge : ¬ irq ≥ N_IRQS := by omega
  obtain ⟨c1, hpre, _⟩ := raise_prefix_spec N_IRQS PHONY_HARD_IRQ irq w.mem.1 hirq
  refine ⟨c1, hpre, ?_⟩
  unfold hw_irq_ctrl_set_irq
  simp only [hge, if_false]
  rw [hpre]
  by_cases hc : c1.irqs_locked = false ∨ c1.lock_ignore = true
  · simp only [if_pos hc]
  · simp only [if_neg hc]

/-- C12. For every `irq >= N_IRQS`, each controller operation that takes an interrupt number
(`hw_irq_ctrl_prio_set`, `hw_irq_ctrl_get_prio`, `hw_irq_ctrl_enable_irq`,
`hw_irq_ctrl_disable_irq`, `hw_irq_ctrl_is_irq_enabled`, `hw_irq_ctrl_clear_irq`,
`hw_irq_ctrl_set_irq`, `hw_irq_ctrl_raise_im`, `hw_irq_ctrl_raise_im_from_sw`) ends in the
fatal error path with the controller (and scheduler) state exactly as it was on entry; for
every `irq < N_IRQS` none of them takes the fatal path: each returns. -/
theorem range_check_spec {X : Type} (reg : Registry (IrqCtrl × X))
    (N_IRQS PHONY_HARD_IRQ irq prio : Nat) (c : IrqCtrl) (w : IrqWorld X) :
    (N_IRQS ≤ irq →
      hw_irq_ctrl_prio_set N_IRQS irq prio c = .stop .fatal c ∧
      hw_irq_ctrl_get_prio N_IRQS irq c = .error .fatal ∧
      hw_irq_ctrl_enable_irq N_IRQS PHONY_HARD_IRQ irq c = .stop .fatal c ∧
      hw_irq_ctrl_disable_irq N_IRQS irq c = .stop .fatal c ∧
      hw_irq_ctrl_is_irq_enabled N_IRQS irq c = .error .fatal ∧
      hw_irq_ctrl_clear_irq N_IRQS irq c = .stop .fatal c ∧
      hw_irq_ctrl_set_irq reg N_IRQS PHONY_HARD_IRQ irq w = .stop .fatal w ∧
      hw_irq_ctrl_raise_im N_IRQS PHONY_HARD_IRQ irq c = .stop .fatal c ∧
      hw_irq_ctrl_raise_im_from_sw N_IRQS PHONY_HARD_IRQ irq c = .stop .fatal c) ∧
    (irq < N_IRQS →
      (hw_irq_ctrl_prio_set N_IRQS irq prio c).isOk = true ∧
      hw_irq_ctrl_get_prio N_IRQS irq c = .ok (c.irq_prio irq) ∧
      (hw_irq_ctrl_enable_irq N_IRQS PHONY_HARD_IRQ irq c).isOk = true ∧
      (hw_irq_ctrl_disable_irq N_IRQS irq c).isOk = true ∧
      (∃ v, hw_irq_ctrl_is_irq_enabled N_IRQS irq c = .ok v) ∧
      (hw_irq_ctrl_clear_irq N_IRQS irq c).isOk = true ∧
      (hw_irq_ctrl_set_irq reg N_IRQS PHONY_HARD_IRQ irq w).isOk = true ∧
      (hw_irq_ctrl_raise_im N_IRQS PHONY_HARD_IRQ irq c).isOk = true ∧
      (hw_irq_ctrl_raise_im_from_sw N_IRQS PHONY_HARD_IRQ irq c).isOk = true) := by
  constructor
  · intro h
    have hge : irq ≥ N_IRQS := h
    refine ⟨?_, ?_, ?_, ?_, ?_, ?_, ?_, ?_, ?_⟩
    · unfold hw_irq_ctrl_prio_set; rw [if_pos hge]
    · unfold hw_irq_ctrl_get_prio; rw [if_pos hge]
    · unfold hw_irq_ctrl_enable_irq; rw [if_pos hge]
    · unfold hw_irq_ctrl_disable_irq; rw [if_pos hge]
    · unfold hw_irq_ctrl_is_irq_enabled; rw [if_pos hge]
    · unfold hw_irq_ctrl_clear_irq; rw [if_pos hge]
    · unfold hw_irq_ctrl_set_irq; rw [if_pos hge]
    · unfold hw_irq_ctrl_raise_im; rw [if_pos hge]
    · unfold hw_irq_ctrl_raise_im_from_sw; rw [if_pos hge]
  · intro h
    have hge : ¬ irq ≥ N_IRQS := by omega
    refine ⟨?_, ?_, ?_, ?_, ?_, ?_, ?_, ?_, ?_⟩
    · unfold hw_irq_ctrl_prio_set; rw [if_neg hge]; rfl
    · unfold hw_irq_ctrl_get_prio; rw [if_neg hge]
    · obtain ⟨c2, h2, _⟩ := enable_irq_result N_IRQS PHONY_HARD_IRQ irq c h
      rw [h2]; rfl
    · unfold hw_irq_ctrl_disable_irq; rw [if_neg hge]; rfl
    · unfold hw_irq_ctrl_is_irq_enabled; rw [if_neg hge]; exact ⟨_, rfl⟩
    · unfold hw_irq_ctrl_clear_irq; rw [if_neg hge]; rfl
    · obtain ⟨c1, _, h2⟩ := set_irq_result reg N_IRQS PHONY_HARD_IRQ irq w h
      rw [h2]; rfl
    · obtain ⟨c2, h2, _⟩ := raise_im_result N_IRQS PHONY_HARD_IRQ irq c h
      rw [h2]; rfl
    · obtain ⟨c2, h2, _⟩ := raise_im_from_sw_result N_IRQS PHONY_HARD_IRQ irq c h
      rw [h2]; rfl

/-! ## Controller: end-to-end scenario -/

/-- The value of `PHONY_HARD_IRQ` matters to the raise prefix only when the raised interrupt
is that very number. -/
theorem raise_prefix_congr (N_IRQS p q irq : Nat) (hp : irq ≠ p) (hq : irq ≠ q) :
    hw_irq_ctrl_irq_raise_prefix N_IRQS p irq = hw_irq_ctrl_irq_raise_prefix N_IRQS q irq := by
  funext c
  unfold hw_irq_ctrl_irq_raise_prefix
  simp only [hp, hq, if_false]

theorem set_irq_congr {X : Type} (reg : Registry (IrqCtrl × X)) (N_IRQS p q irq : Nat)
    (hp : irq ≠ p) (hq : irq ≠ q) :
    hw_irq_ctrl_set_irq reg N_IRQS p irq = hw_irq_ctrl_set_irq reg N_IRQS q irq := by
  funext w
  unfold hw_irq_ctrl_set_irq
  rw [raise_prefix_congr N_IRQS p q irq hp hq]

theorem enable_irq_congr (N_IRQS p q irq : Nat) (hp : irq ≠ p) (hq : irq ≠ q) :
    hw_irq_ctrl_enable_irq N_IRQS p irq = hw_irq_ctrl_enable_irq N_IRQS q irq := by
  funext c
  unfold hw_irq_ctrl_enable_irq hw_irq_ctrl_raise_im_from_sw
  rw [raise_prefix_congr N_IRQS p q irq hp hq]

/-- C13. With `N_IRQS = 128` (two storage words), from the start-up state (unlocked, all
interrupts disabled): after `set_priority(5,10)`, `set_priority(9,20)`, `raise_delayed(5)`,
`raise_delayed(9)` every call returned and `hw_irq_ctrl_get_highest_prio_irq` returns `-1`;
after then `enable(5)`, `enable(9)` it returns 5; after then
`set_current_running_priority(10)` it returns `-1`. This holds whatever the number of the
bypass interrupt is. -/
theorem end_to_end_scenario (PHONY_HARD_IRQ : Nat) :
    (bootWorld 128).mem.1.irqs_locked = false ∧
    (bootWorld 128).mem.1.irq_mask 0 = 0 ∧ (bootWorld 128).mem.1.irq_mask 1 = 0 ∧
    (scenarioRaised PHONY_HARD_IRQ).isOk = true ∧
    hw_irq_ctrl_get_highest_prio_irq 128 (scenarioRaised PHONY_HARD_IRQ).state.mem.1 = -1 ∧
    (scenarioEnabled PHONY_HARD_IRQ).isOk = true ∧
    hw_irq_ctrl_get_highest_prio_irq 128 (scenarioEnabled PHONY_HARD_IRQ).state.mem.1 = 5 ∧
    (scenarioRunning PHONY_HARD_IRQ).isOk = true ∧
    hw_irq_ctrl_get_highest_prio_irq 128 (scenarioRunning PHONY_HARD_IRQ).state.mem.1 = -1 := by
  by_cases h5 : PHONY_HARD_IRQ = 5
  · subst h5; decide
  · by_cases h9 : PHONY_HARD_IRQ = 9
    · subst h9; decide
    · have e5 := set_irq_congr irqReg 128 PHONY_HARD_IRQ 65535 5 (fun h => h5 h.symm) (by decide)
      have e9 := set_irq_congr irqReg 128 PHONY_HARD_IRQ 65535 9 (fun h => h9 h.symm) (by decide)
      have n5 := enable_irq_congr 128 PHONY_HARD_IRQ 65535 5 (fun h => h5 h.symm) (by decide)
      have n9 := enable_irq_congr 128 PHONY_HARD_IRQ 65535 9 (fun h => h9 h.symm) (by decide)
      have hr : scenarioRaised PHONY_HARD_IRQ = scenarioRaised 65535 := by
        unfold scenarioRaised; rw [e5, e9]
      have he : scenarioEnabled PHONY_HARD_IRQ = scenarioEnabled 65535 := by
        unfold scenarioEnabled; rw [hr, n5, n9]
      have hu : scenarioRunning PHONY_HARD_IRQ = scenarioRunning 65535 := by
        unfold scenarioRunning; rw [he]
      rw [hr, he, hu]
      decide

/-! ## Controller: `hw_irq_ctrl_is_irq_enabled` -/

/-- The C expression `word & (1 << b)` is `1 << b` when bit `b` is set and 0 otherwise. -/
theorem and_bit_value (x b : Nat) : x &&& 1 <<< b = if x.testBit b = true then 2 ^ b else 0 := by
  apply Nat.eq_of_testBit_eq
  intro j
  rw [Nat.testBit_and, testBit_one_shiftLeft]
  by_cases hb : x.testBit b = true
  · rw [if_pos hb, Nat.testBit_two_pow]
    by_cases hj : b = j
    · subst hj; simp [hb]
    · simp [hj]
  · rw [if_neg hb, Nat.zero_testBit]
    by_cases hj : b = j
    · subst hj; simp only [Bool.not_eq_true] at hb; simp [hb]
    · simp [hj]

/-- The value `hw_irq_ctrl_is_irq_enabled` returns for an interrupt in range is non-zero
exactly when the mask bit is set and the bit lies in the low 32 bits of its word: the 64-bit
value of the `&` does not fit the `int` that is returned. -/
theorem is_irq_enabled_value (N_IRQS irq : Nat) (c : IrqCtrl) (hirq : irq < N_IRQS) :
    ∃ v, hw_irq_ctrl_is_irq_enabled N_IRQS irq c = .ok v ∧
      (v ≠ 0 ↔ (irq_bit c.irq_mask irq = true ∧ irq % 64 < 32)) := by
  have hge : ¬ irq ≥ N_IRQS := by omega
  have hbit : (global_irq_to_bitmask irq).1 = 1 <<< (irq % BITS_U64) := rfl
  have hidx : (global_irq_to_bitmask irq).2 = irq / BITS_U64 := rfl
  unfold hw_irq_ctrl_is_irq_enabled
  simp only [hge, if_false, hbit, hidx]
  refine ⟨_, rfl, ?_⟩
  rw [and_bit_value]
  have h64 : BITS_U64 = 64 := rfl
  by_cases hm : irq_bit c.irq_mask irq = true
  · have hm2 : (c.irq_mask (irq / BITS_U64)).testBit (irq % BITS_U64) = true := hm
    rw [if_pos hm2, h64]
    by_cases hlow : irq % 64 < 32
    · have hlt : 2 ^ (irq % 64) < 2 ^ 32 := Nat.pow_lt_pow_right (by decide) hlow
      have hpos : 0 < 2 ^ (irq % 64) := Nat.pos_pow_of_pos _ (by decide)
      rw [Nat.mod_eq_of_lt hlt]
      have e31 : (2 : Nat) ^ 31 = 2147483648 := by decide
      have e32 : (2 : Nat) ^ 32 = 4294967296 := by decide
      have i32 : (2 : Int) ^ 32 = 4294967296 := by decide
      rw [e32] at hlt
      rw [e31, i32]
      constructor
      · intro _; exact ⟨hm, hlow⟩
      · intro _
        split_ifs <;> omega
    · have hdvd : 2 ^ 32 ∣ 2 ^ (irq % 64) := Nat.pow_dvd_pow 2 (by omega)
      rw [Nat.mod_eq_zero_of_dvd hdvd]
      constructor
      · intro h; exact absurd (by decide) h
      · intro h; exact absurd h.2 hlow
  · have hm2 : ¬ (c.irq_mask (irq / BITS_U64)).testBit (irq % BITS_U64) = true := hm
    rw [if_neg hm2]
    constructor
    · intro h; exact absurd (by decide) h
    · intro h; exact absurd h.1 hm

/-- C14 fails on the code. With 128 interrupts, right after `hw_irq_ctrl_enable_irq(40)` the
mask bit of interrupt 40 is set but `hw_irq_ctrl_is_irq_enabled(40)` returns 0, and so it does
for interrupt 100 of the second storage word; for interrupts 5 and 70, whose bits lie in the
low half of their words, it returns a non-zero value, and after
`hw_irq_ctrl_disable_irq` it returns 0 for all of them. -/
theorem is_irq_enabled_truncates :
    irq_bit (hw_irq_ctrl_enable_irq 128 65535 40 (bootWorld 128).mem.1).state.irq_mask 40 = true ∧
    hw_irq_ctrl_is_irq_enabled 128 40
      (hw_irq_ctrl_enable_irq 128 65535 40 (bootWorld 128).mem.1).state = .ok 0 ∧
    irq_bit (hw_irq_ctrl_enable_irq 128 65535 100 (bootWorld 128).mem.1).state.irq_mask 100 = true ∧
    hw_irq_ctrl_is_irq_enabled 128 100
      (hw_irq_ctrl_enable_irq 128 65535 100 (bootWorld 128).mem.1).state = .ok 0 ∧
    hw_irq_ctrl_is_irq_enabled 128 5
      (hw_irq_ctrl_enable_irq 128 65535 5 (bootWorld 128).mem.1).state = .ok 32 ∧
    hw_irq_ctrl_is_irq_enabled 128 70
      (hw_irq_ctrl_enable_irq 128 65535 70 (bootWorld 128).mem.1).state = .ok 64 ∧
    hw_irq_ctrl_is_irq_enabled 128 5
      (hw_irq_ctrl_disable_irq 128 5
        (hw_irq_ctrl_enable_irq 128 65535 5 (bootWorld 128).mem.1).state).state = .ok 0 ∧
    hw_irq_ctrl_is_irq_enabled 128 40
      (hw_irq_ctrl_disable_irq 128 40
        (hw_irq_ctrl_enable_irq 128 65535 40 (bootWorld 128).mem.1).state).state = .ok 0 :=
  ⟨by decide, rfl, by decide, rfl, rfl, rfl, rfl, rfl⟩

/-! ## Controller: initialisation -/

/-- The first loop of `hw_irq_ctrl_init` after `n` words. -/
theorem init_loop_words (c : IrqCtrl) (n : Nat) :
    (∀ i, (forLoop 0 n
      (fun i (c : IrqCtrl) =>
        { c with irq_mask := Function.update c.irq_mask i 0,
                 irq_premask := Function.update c.irq_premask i 0 }) c).irq_mask i =
      if i < n then 0 else c.irq_mask i) ∧
    (∀ i, (forLoop 0 n
      (fun i (c : IrqCtrl) =>
        { c with irq_mask := Function.update c.irq_mask i 0,
                 irq_premask := Function.update c.irq_premask i 0 }) c).irq_premask i =
      if i < n then 0 else c.irq_premask i) ∧
    (forLoop 0 n
      (fun i (c : IrqCtrl) =>
        { c with irq_mask := Function.update c.irq_mask i 0,
                 irq_premask := Function.update c.irq_premask i 0 }) c).irq_status =
      c.irq_status ∧
    (forLoop 0 n
      (fun i (c : IrqCtrl) =>
        { c with irq_mask := Function.update c.irq_mask i 0,
                 irq_premask := Function.update c.irq_premask i 0 }) c).irq_prio = c.irq_prio := by
  refine forLoop_inv
    (fun k (a : IrqCtrl) =>
      (∀ i, a.irq_mask i = if i < k then 0 else c.irq_mask i) ∧
      (∀ i, a.irq_premask i = if i < k then 0 else c.irq_premask i) ∧
      a.irq_status = c.irq_status ∧ a.irq_prio = c.irq_prio)
    0 n _ c (Nat.zero_le _) ⟨fun i => by simp, fun i => by simp, rfl, rfl⟩ ?_
  rintro k a _ _ ⟨hm, hp, hs, hpr⟩
  refine ⟨fun i => ?_, fun i => ?_, hs, hpr⟩
  · show Function.update a.irq_mask k 0 i = _
    by_cases hik : i = k
    · subst hik; simp
    · rw [Function.update_noteq hik, hm i]
      by_cases h1 : i < k
      · have h2 : i < k + 1 := by omega
        simp [h1, h2]
      · have h2 : ¬ i < k + 1 := by omega
        simp [h1, h2]
  · show Function.update a.irq_premask k 0 i = _
    by_cases hik : i = k
    · subst hik; simp
    · rw [Function.update_noteq hik, hp i]
      by_cases h1 : i < k
      · have h2 : i < k + 1 := by omega
        simp [h1, h2]
      · have h2 : ¬ i < k + 1 := by omega
        simp [h1, h2]

/-- The second loop of `hw_irq_ctrl_init` after `n` priorities. -/
theorem init_loop_prio (c : IrqCtrl) (n : Nat) :
    (∀ i, (forLoop 0 n
      (fun i (c : IrqCtrl) => { c with irq_prio := Function.update c.irq_prio i 255 }) c).irq_prio i =
      if i < n then 255 else c.irq_prio i) ∧
    (forLoop 0 n
      (fun i (c : IrqCtrl) => { c with irq_prio := Function.update c.irq_prio i 255 }) c).irq_mask =
      c.irq_mask ∧
    (forLoop 0 n
      (fun i (c : IrqCtrl) => { c with irq_prio := Function.update c.irq_prio i 255 }) c).irq_premask =
      c.irq_premask ∧
    (forLoop 0 n
      (fun i (c : IrqCtrl) => { c with irq_prio := Function.update c.irq_prio i 255 }) c).irq_status =
      c.irq_status ∧
    (forLoop 0 n
      (fun i (c : IrqCtrl) => { c with irq_prio := Function.update c.irq_prio i 255 }) c).irqs_locked =
      c.irqs_locked ∧
    (forLoop 0 n
      (fun i (c : IrqCtrl) => { c with irq_prio := Function.update c.irq_prio i 255 }) c).lock_ignore =
      c.lock_ignore := by
  refine forLoop_inv
    (fun k (a : IrqCtrl) =>
      (∀ i, a.irq_prio i = if i < k then 255 else c.irq_prio i) ∧
      a.irq_mask = c.irq_mask ∧ a.irq_premask = c.irq_premask ∧ a.irq_status = c.irq_status ∧
      a.irqs_locked = c.irqs_locked ∧ a.lock_ignore = c.lock_ignore)
    0 n _ c (Nat.zero_le _) ⟨fun i => by simp, rfl, rfl, rfl, rfl, rfl⟩ ?_
  rintro k a _ _ ⟨hp, hm, hpm, hs, hl, hli⟩
  refine ⟨fun i => ?_, hm, hpm, hs, hl, hli⟩
  show Function.update a.irq_prio k 255 i = _
  by_cases hik : i = k
  · subst hik; simp
  · rw [Function.update_noteq hik, hp i]
    by_cases h1 : i < k
    · have h2 : i < k + 1 := by omega
      simp [h1, h2]
    · have h2 : ¬ i < k + 1 := by omega
      simp [h1, h2]

/-- What `hw_irq_ctrl_init` does to any state: it zeroes the mask and premask words, sets the
priorities to 255, clears the lock and the bypass flag, and does not write `irq_status`. -/
theorem init_fields (N_IRQS : Nat) (c : IrqCtrl) :
    (∀ i, (hw_irq_ctrl_init N_IRQS c).irq_mask i =
      if i < NUM_U64_IRQS N_IRQS then 0 else c.irq_mask i) ∧
    (∀ i, (hw_irq_ctrl_init N_IRQS c).irq_premask i =
      if i < NUM_U64_IRQS N_IRQS then 0 else c.irq_premask i) ∧
    (hw_irq_ctrl_init N_IRQS c).irq_status = c.irq_status ∧
    (∀ i, (hw_irq_ctrl_init N_IRQS c).irq_prio i = if i < N_IRQS then 255 else c.irq_prio i) ∧
    (hw_irq_ctrl_init N_IRQS c).irqs_locked = false ∧
    (hw_irq_ctrl_init N_IRQS c).lock_ignore = false := by
  obtain ⟨h1m, h1p, h1s, h1r⟩ := init_loop_words c (NUM_U64_IRQS N_IRQS)
  obtain ⟨h2r, h2m, h2p, h2s, h2l, h2i⟩ := init_loop_prio
    { (forLoop 0 (NUM_U64_IRQS N_IRQS)
        (fun i (c : IrqCtrl) =>
          { c with irq_mask := Function.update c.irq_mask i 0,
                   irq_premask := Function.update c.irq_premask i 0 }) c) with
      irqs_locked := false, lock_ignore := false } N_IRQS
  refine ⟨fun i => ?_, fun i => ?_, ?_, fun i => ?_, h2l, h2i⟩
  · show (hw_irq_ctrl_init N_IRQS c).irq_mask i = _
    unfold hw_irq_ctrl_init
    simp only
    rw [h2m]
    exact h1m i
  · unfold hw_irq_ctrl_init
    simp only
    rw [h2p]
    exact h1p i
  · unfold hw_irq_ctrl_init
    simp only
    rw [h2s]
    exact h1s
  · unfold hw_irq_ctrl_init
    simp only
    rw [h2r i]
    simp only [h1r]

/-- C15. After `hw_irq_ctrl_init` has run on the statics as they are loaded, the controller
state is fully initialised: every premask, status and mask word is zero, every interrupt
priority is 255, and the lock and the bypass flag are false. (On any state the function
zeroes the mask and premask words, sets the priorities and clears the two flags; it does not
write `irq_status`, whose zero comes from the static initialiser.) -/
theorem init_spec (N_IRQS : Nat) :
    (∀ i, (hw_irq_ctrl_init N_IRQS IrqCtrl.initial).irq_premask i = 0 ∧
      (hw_irq_ctrl_init N_IRQS IrqCtrl.initial).irq_status i = 0 ∧
      (hw_irq_ctrl_init N_IRQS IrqCtrl.initial).irq_mask i = 0) ∧
    (∀ j, irq_bit (hw_irq_ctrl_init N_IRQS IrqCtrl.initial).irq_premask j = false ∧
      irq_bit (hw_irq_ctrl_init N_IRQS IrqCtrl.initial).irq_status j = false ∧
      irq_bit (hw_irq_ctrl_init N_IRQS IrqCtrl.initial).irq_mask j = false) ∧
    (∀ i, i < N_IRQS → (hw_irq_ctrl_init N_IRQS IrqCtrl.initial).irq_prio i = 255) ∧
    (hw_irq_ctrl_init N_IRQS IrqCtrl.initial).irqs_locked = false ∧
    (hw_irq_ctrl_init N_IRQS IrqCtrl.initial).lock_ignore = false ∧
    (∀ c : IrqCtrl,
      (∀ i, i < NUM_U64_IRQS N_IRQS → (hw_irq_ctrl_init N_IRQS c).irq_premask i = 0 ∧
        (hw_irq_ctrl_init N_IRQS c).irq_mask i = 0) ∧
      (∀ i, i < N_IRQS → (hw_irq_ctrl_init N_IRQS c).irq_prio i = 255) ∧
      (hw_irq_ctrl_init N_IRQS c).irqs_locked = false ∧
      (hw_irq_ctrl_init N_IRQS c).lock_ignore = false ∧
      (hw_irq_ctrl_init N_IRQS c).irq_status = c.irq_status) := by
  obtain ⟨hm, hp, hs, hr, hl, hi⟩ := init_fields N_IRQS IrqCtrl.initial
  have hwords : ∀ i, (hw_irq_ctrl_init N_IRQS IrqCtrl.initial).irq_premask i = 0 ∧
      (hw_irq_ctrl_init N_IRQS IrqCtrl.initial).irq_status i = 0 ∧
      (hw_irq_ctrl_init N_IRQS IrqCtrl.initial).irq_mask i = 0 := by
    intro i
    refine ⟨?_, ?_, ?_⟩
    · rw [hp i]; split_ifs <;> rfl
    · rw [hs]; rfl
    · rw [hm i]; split_ifs <;> rfl
  refine ⟨hwords, fun j => ?_, fun i h => ?_, hl, hi, fun c => ?_⟩
  · unfold irq_bit
    rw [(hwords _).1, (hwords _).2.1, (hwords _).2.2, Nat.zero_testBit]
    exact ⟨rfl, rfl, rfl⟩
  · rw [hr i, if_pos h]
  · obtain ⟨cm, cp, cs, cr, cl, ci⟩ := init_fields N_IRQS c
    refine ⟨fun i h => ⟨?_, ?_⟩, fun i h => ?_, cl, ci, cs⟩
    · rw [cp i, if_pos h]
    · rw [cm i, if_pos h]
    · rw [cr i, if_pos h]

/-! ## Scheduler: advancing time -/

/-- C16, as stated, fails. In the run of `pastReg` the callback sets its timer to 3 while the
time is 5; the next advance then finds `next_timer_time = 3`, logs one warning and leaves
`simu_time` at 5, so after the advance `simu_time` differs from `next_timer_time`. -/
theorem sleep_keeps_time_on_regression :
    (hws_run pastReg 1 pastWorld).isOk = true ∧
    (hws_run pastReg 1 pastWorld).state.hws.simu_time = 5 ∧
    (hws_run pastReg 1 pastWorld).state.hws.next_timer_time = 3 ∧
    (hws_run pastReg 1 pastWorld).state.warnings = 0 ∧
    (nsi_hws_sleep_until_next_event (hws_run pastReg 1 pastWorld).state).isOk = true ∧
    (nsi_hws_sleep_until_next_event (hws_run pastReg 1 pastWorld).state).state.hws.simu_time =
      5 ∧
    (nsi_hws_sleep_until_next_event (hws_run pastReg 1 pastWorld).state).state.hws.next_timer_time =
      3 ∧
    (nsi_hws_sleep_until_next_event (hws_run pastReg 1 pastWorld).state).state.warnings = 1 ∧
    (hws_run pastReg 2 pastWorld).state.hws.simu_time = 5 := by
  decide

/-- C16, amended. In a dispatch step the advance `nsi_hws_sleep_until_next_event` sets virtual
time to the computed minimum `next_timer_time` when that is not below the current virtual
time; when the minimum is below the current virtual time it logs a warning, is not fatal, and
leaves `simu_time` as it is. In both cases `simu_time` afterwards is the larger of the two,
and the cached minimum and the timers are not touched. -/
theorem sleep_until_next_event_spec {M : Type} (w : World M) :
    (nsi_hws_sleep_until_next_event w).state.hws.simu_time =
      max w.hws.simu_time w.hws.next_timer_time ∧
    (w.hws.simu_time ≤ w.hws.next_timer_time →
      (nsi_hws_sleep_until_next_event w).state.hws.simu_time = w.hws.next_timer_time ∧
      (nsi_hws_sleep_until_next_event w).state.warnings = w.warnings) ∧
    (w.hws.next_timer_time < w.hws.simu_time →
      (nsi_hws_sleep_until_next_event w).state.hws.simu_time = w.hws.simu_time ∧
      (nsi_hws_sleep_until_next_event w).state.warnings = w.warnings + 1) ∧
    (∀ s, nsi_hws_sleep_until_next_event w ≠ .stop .fatal s) ∧
    (nsi_hws_sleep_until_next_event w).state.hws.next_timer_time = w.hws.next_timer_time ∧
    (nsi_hws_sleep_until_next_event w).state.hws.next_timer_index = w.hws.next_timer_index ∧
    (nsi_hws_sleep_until_next_event w).state.mem = w.mem := by
  have hstate : (nsi_hws_sleep_until_next_event w).state = advanced w := by
    rw [sleep_eq]; split_ifs <;> rfl
  have hnf : ∀ s, nsi_hws_sleep_until_next_event w ≠ .stop .fatal s := by
    intro s h
    rw [sleep_eq] at h
    split_ifs at h
    simp only [Result.stop.injEq] at h
    exact Stop.noConfusion h.1
  rw [hstate]
  obtain ⟨hm, _, ht, _, _, hi, _⟩ := advanced_fields w
  refine ⟨ht, fun h => ?_, fun h => ?_, hnf, ?_, hi, hm⟩
  · unfold advanced
    rw [if_pos h]
    exact ⟨rfl, rfl⟩
  · unfold advanced
    rw [if_neg (by omega)]
    exact ⟨rfl, rfl⟩
  · unfold advanced
    split_ifs <;> rfl

/-! ## Controller: disable, and raise followed by clear -/

/-- C17. For an interrupt in range, `hw_irq_ctrl_disable_irq` returns and clears only the mask
bit of `irq`: every other mask bit, the status and premask words (the bit of `irq` included),
the priorities, the lock and everything else are unchanged, so
`hw_irq_ctrl_get_highest_prio_irq` gives the same answer as before: an interrupt that was
status-visible is still considered. -/
theorem disable_irq_spec (N_IRQS irq : Nat) (c : IrqCtrl) (hirq : irq < N_IRQS) :
    (hw_irq_ctrl_disable_irq N_IRQS irq c).isOk = true ∧
    (∀ j, irq_bit (hw_irq_ctrl_disable_irq N_IRQS irq c).state.irq_mask j =
      (irq_bit c.irq_mask j && decide (j ≠ irq))) ∧
    (hw_irq_ctrl_disable_irq N_IRQS irq c).state.irq_status = c.irq_status ∧
    (hw_irq_ctrl_disable_irq N_IRQS irq c).state.irq_premask = c.irq_premask ∧
    (hw_irq_ctrl_disable_irq N_IRQS irq c).state.irq_prio = c.irq_prio ∧
    (hw_irq_ctrl_disable_irq N_IRQS irq c).state.irqs_locked = c.irqs_locked ∧
    (hw_irq_ctrl_disable_irq N_IRQS irq c).state.lock_ignore = c.lock_ignore ∧
    (hw_irq_ctrl_disable_irq N_IRQS irq c).state.currently_running_prio =
      c.currently_running_prio ∧
    (hw_irq_ctrl_disable_irq N_IRQS irq c).state.irq_ctrl_timer = c.irq_ctrl_timer ∧
    (hw_irq_ctrl_disable_irq N_IRQS irq c).state.cpu_calls = c.cpu_calls ∧
    (∀ j, StatusVisible N_IRQS (hw_irq_ctrl_disable_irq N_IRQS irq c).state j ↔
      StatusVisible N_IRQS c j) ∧
    hw_irq_ctrl_get_highest_prio_irq N_IRQS (hw_irq_ctrl_disable_irq N_IRQS irq c).state =
      hw_irq_ctrl_get_highest_prio_irq N_IRQS c := by
  have hge : ¬ irq ≥ N_IRQS := by omega
  have hval : hw_irq_ctrl_disable_irq N_IRQS irq c =
      .ok { c with irq_mask := Function.update c.irq_mask (irq / BITS_U64)
                     (c.irq_mask (irq / BITS_U64) &&& not64 (1 <<< (irq % BITS_U64))) } := by
    unfold hw_irq_ctrl_disable_irq
    rw [if_neg hge]
    rfl
  rw [hval]
  exact ⟨rfl, fun j => irq_bit_clear _ _ _, rfl, rfl, rfl, rfl, rfl, rfl, rfl, rfl,
    fun j => Iff.rfl, rfl⟩

/-- Witness of C17: disabling interrupt 5 of `exampleCtrl`, which is status-visible, leaves
the arbitration answer at 5. -/
theorem disable_irq_spec_witness :
    5 < 128 ∧ hw_irq_ctrl_get_highest_prio_irq 128 exampleCtrl = 5 ∧
    irq_bit (hw_irq_ctrl_disable_irq 128 5 exampleCtrl).state.irq_mask 5 = false ∧
    hw_irq_ctrl_get_highest_prio_irq 128 (hw_irq_ctrl_disable_irq 128 5 exampleCtrl).state =
      hw_irq_ctrl_get_highest_prio_irq 128 exampleCtrl :=
  ⟨by decide, by decide, by decide,
    (disable_irq_spec 128 5 exampleCtrl (by decide)).2.2.2.2.2.2.2.2.2.2.2⟩

/-- What `hw_irq_ctrl_clear_irq` leaves for an interrupt in range. -/
theorem clear_irq_result (N_IRQS irq : Nat) (c : IrqCtrl) (hirq : irq < N_IRQS) :
    ∃ c2, hw_irq_ctrl_clear_irq N_IRQS irq c = .ok c2 ∧
      (∀ j, irq_bit c2.irq_premask j = (irq_bit c.irq_premask j && decide (j ≠ irq))) ∧
      (∀ j, irq_bit c2.irq_status j = (irq_bit c.irq_status j && decide (j ≠ irq))) ∧
      c2.irq_mask = c.irq_mask := by
  have hge : ¬ irq ≥ N_IRQS := by omega
  refine ⟨{ c with irq_status := Function.update c.irq_status (irq / BITS_U64)
                     (c.irq_status (irq / BITS_U64) &&& not64 (1 <<< (irq % BITS_U64))),
                   irq_premask := Function.update c.irq_premask (irq / BITS_U64)
                     (c.irq_premask (irq / BITS_U64) &&& not64 (1 <<< (irq % BITS_U64))) },
    ?_, fun j => irq_bit_clear _ _ _, fun j => irq_bit_clear _ _ _, rfl⟩
  unfold hw_irq_ctrl_clear_irq
  rw [if_neg hge]
  rfl

/-- The bitsets `hw_irq_ctrl_set_irq` leaves for an interrupt in range. -/
theorem set_irq_bits {X : Type} (reg : Registry (IrqCtrl × X))
    (N_IRQS PHONY_HARD_IRQ irq : Nat) (w : IrqWorld X) (hirq : irq < N_IRQS) :
    ∃ w2, hw_irq_ctrl_set_irq reg N_IRQS PHONY_HARD_IRQ irq w = .ok w2 ∧
      (∀ j, irq_bit w2.mem.1.irq_premask j =
        (irq_bit w.mem.1.irq_premask j || decide (j = irq))) ∧
      (∀ j, irq_bit w2.mem.1.irq_status j =
        (irq_bit w.mem.1.irq_status j || (decide (j = irq) && irq_bit w.mem.1.irq_mask irq))) ∧
      w2.mem.1.irq_mask = w.mem.1.irq_mask := by
  obtain ⟨c1, hpre, hres⟩ := set_irq_result reg N_IRQS PHONY_HARD_IRQ irq w hirq
  obtain ⟨c1', hpre', hpm, hst, hmk, _⟩ :=
    raise_prefix_spec N_IRQS PHONY_HARD_IRQ irq w.mem.1 hirq
  have hc : c1' = c1 := by
    rw [hpre] at hpre'
    exact (Result.ok.inj hpre').symm
  subst hc
  refine ⟨_, hres, ?_, ?_, ?_⟩ <;> split_ifs
  · exact hpm
  · exact hpm
  · exact hst
  · exact hst
  · exact hmk
  · exact hmk

/-- C18. For an interrupt in range and every state (masked or not, locked or not),
`hw_irq_ctrl_set_irq(irq)` followed at once by `hw_irq_ctrl_clear_irq(irq)` returns, leaves
both the premask bit and the status bit of `irq` clear, and leaves the premask and status
bits of every other interrupt as they were before the two calls. -/
theorem set_then_clear_spec {X : Type} (reg : Registry (IrqCtrl × X))
    (N_IRQS PHONY_HARD_IRQ irq : Nat) (w : IrqWorld X) (hirq : irq < N_IRQS) :
    (hw_irq_ctrl_set_irq reg N_IRQS PHONY_HARD_IRQ irq w).isOk = true ∧
    (hw_irq_ctrl_clear_irq N_IRQS irq
      (hw_irq_ctrl_set_irq reg N_IRQS PHONY_HARD_IRQ irq w).state.mem.1).isOk = true ∧
    irq_bit (hw_irq_ctrl_clear_irq N_IRQS irq
      (hw_irq_ctrl_set_irq reg N_IRQS PHONY_HARD_IRQ irq w).state.mem.1).state.irq_premask irq =
        false ∧
    irq_bit (hw_irq_ctrl_clear_irq N_IRQS irq
      (hw_irq_ctrl_set_irq reg N_IRQS PHONY_HARD_IRQ irq w).state.mem.1).state.irq_status irq =
        false ∧
    (∀ j, j ≠ irq →
      irq_bit (hw_irq_ctrl_clear_irq N_IRQS irq
        (hw_irq_ctrl_set_irq reg N_IRQS PHONY_HARD_IRQ irq w).state.mem.1).state.irq_premask j =
          irq_bit w.mem.1.irq_premask j ∧
      irq_bit (hw_irq_ctrl_clear_irq N_IRQS irq
        (hw_irq_ctrl_set_irq reg N_IRQS PHONY_HARD_IRQ irq w).state.mem.1).state.irq_status j =
          irq_bit w.mem.1.irq_status j) := by
  obtain ⟨w2, hset, hpm, hst, _⟩ := set_irq_bits reg N_IRQS PHONY_HARD_IRQ irq w hirq
  obtain ⟨c3, hclr, hpm3, hst3, _⟩ := clear_irq_result N_IRQS irq w2.mem.1 hirq
  rw [hset]
  simp only [Result.state]
  rw [hclr]
  refine ⟨rfl, rfl, ?_, ?_, fun j hj => ⟨?_, ?_⟩⟩
  · show irq_bit c3.irq_premask irq = false
    rw [hpm3]; simp
  · show irq_bit c3.irq_status irq = false
    rw [hst3]; simp
  · show irq_bit c3.irq_premask j = _
    rw [hpm3, hpm]; simp [hj]
  · show irq_bit c3.irq_status j = _
    rw [hst3, hst]; simp [hj]

/-- Witness of C18: raising and clearing interrupt 9 in `exampleIrqWorld`. -/
theorem set_then_clear_spec_witness :
    9 < 128 ∧
    irq_bit (hw_irq_ctrl_clear_irq 128 9
      (hw_irq_ctrl_set_irq irqReg 128 65535 9 exampleIrqWorld).state.mem.1).state.irq_premask 9 =
        false ∧
    irq_bit (hw_irq_ctrl_clear_irq 128 9
      (hw_irq_ctrl_set_irq irqReg 128 65535 9 exampleIrqWorld).state.mem.1).state.irq_status 9 =
        false :=
  ⟨by decide, (set_then_clear_spec irqReg 128 65535 9 exampleIrqWorld (by decide)).2.2.1,
    (set_then_clear_spec irqReg 128 65535 9 exampleIrqWorld (by decide)).2.2.2.1⟩

/-! ## Controller: the invariant of the bitsets -/

/-- Every number the `while` loop reads `irq_prio` with is a set bit of the status word. -/
theorem scan_status_reads_bits (i word : Nat) :
    ∀ (fuel status : Nat), status < 2 ^ 64 →
      (∀ b, status.testBit b = true → word.testBit b = true) →
      ∀ n, n ∈ scan_status_reads i fuel status →
        ∃ b, b < 64 ∧ n = i * 64 + b ∧ word.testBit b = true := by
  intro fuel
  induction fuel with
  | zero => intro status _ _ n hn; simp [scan_status_reads] at hn
  | succ k ih =>
    intro status hlt hsub n hn
    by_cases hz : status = 0
    · simp [scan_status_reads, hz] at hn
    · obtain ⟨b, hb64, hbset, _, hffs⟩ := find_lsb_set64_spec status hlt hz
      have hbit : nsi_find_lsb_set64 status - 1 = b := by rw [hffs]; omega
      have hidx : b + i * BITS_U64 = i * 64 + b := by simp only [BITS_U64]; omega
      simp only [scan_status_reads, ne_eq, hz, not_false_eq_true, if_true, hbit, hidx,
        List.mem_cons] at hn
      rcases hn with hn | hn
      · exact ⟨b, hb64, hn, hsub b hbset⟩
      · refine ih _ (Nat.lt_of_le_of_lt Nat.and_le_left hlt) (fun j hj => ?_) n hn
        rw [Nat.testBit_and] at hj
        simp only [Bool.and_eq_true] at hj
        exact hsub j hj.1

/-- Every number `hw_irq_ctrl_get_highest_prio_irq` reads `irq_prio` with is a status-visible
interrupt. -/
theorem reads_visible (N_IRQS : Nat) (c : IrqCtrl) (hw : c.WellTyped) :
    ∀ n, n ∈ highest_prio_irq_reads N_IRQS c → StatusVisible N_IRQS c n := by
  unfold highest_prio_irq_reads
  split_ifs with hl
  · intro n hn; simp at hn
  · refine forLoop_inv
      (fun (_ : Nat) (acc : List Nat) => ∀ n, n ∈ acc → StatusVisible N_IRQS c n)
      0 (NUM_U64_IRQS N_IRQS) _ _ (Nat.zero_le _) (fun n hn => by simp at hn) ?_
    intro i acc _ hi hacc n hn
    rw [List.mem_append] at hn
    rcases hn with hn | hn
    · exact hacc n hn
    · obtain ⟨b, hb, hnb, hbit⟩ := scan_status_reads_bits i (c.irq_status i) BITS_U64
        (c.irq_status i) (hw.status_lt i) (fun _ h => h) n hn
      rw [hnb]
      exact (statusVisible_in_word N_IRQS c i b hi hb).2 hbit

/-- An interrupt number returned by `hw_irq_ctrl_get_highest_prio_irq` is status-visible. -/
theorem result_visible (N_IRQS : Nat) (c : IrqCtrl) (hw : c.WellTyped) (i : Nat)
    (h : hw_irq_ctrl_get_highest_prio_irq N_IRQS c = (i : Int)) : StatusVisible N_IRQS c i := by
  by_cases hl : c.irqs_locked = true
  · have hres : hw_irq_ctrl_get_highest_prio_irq N_IRQS c = -1 := by
      simp [hw_irq_ctrl_get_highest_prio_irq, hl]
    rw [hres] at h
    omega
  · have hres : hw_irq_ctrl_get_highest_prio_irq N_IRQS c =
        (forLoop 0 (NUM_U64_IRQS N_IRQS)
          (fun i acc =>
            scan_status c.irq_prio c.currently_running_prio i BITS_U64 (c.irq_status i) acc)
          ((-1 : Int), (256 : Int))).1 := by
      simp [hw_irq_ctrl_get_highest_prio_irq, hl]
    rw [hres] at h
    rcases scan_all_best N_IRQS c hw with ⟨hacc, _⟩ | ⟨i0, _, hacc, hvi, _⟩
    · rw [hacc] at h; simp only at h; omega
    · rw [hacc] at h
      simp only at h
      have : i0 = i := by omega
      subst this
      exact hvi

/-- An interrupt that is status-visible in a state that satisfies the invariant is below
`N_IRQS`. -/
theorem visible_lt (N_IRQS : Nat) (c : IrqCtrl) (hinv : CtrlInv N_IRQS c) (j : Nat)
    (hv : StatusVisible N_IRQS c j) : j < N_IRQS := by
  by_contra hge
  have := (hinv.2 j (by omega)).2.1
  rw [hv.2] at this
  exact Bool.noConfusion this

/-- The invariant looks at the three bitsets only. -/
theorem inv_congr (N_IRQS : Nat) (c c2 : IrqCtrl) (hs : c2.irq_status = c.irq_status)
    (hp : c2.irq_premask = c.irq_premask) (hm : c2.irq_mask = c.irq_mask)
    (h : CtrlInv N_IRQS c) : CtrlInv N_IRQS c2 := by
  unfold CtrlInv
  rw [hs, hp, hm]
  exact h

/-- Raising an interrupt in range keeps the invariant. -/
theorem inv_raise (N_IRQS irq : Nat) (c c2 : IrqCtrl) (hirq : irq < N_IRQS)
    (h : CtrlInv N_IRQS c)
    (hpm : ∀ j, irq_bit c2.irq_premask j = (irq_bit c.irq_premask j || decide (j = irq)))
    (hst : ∀ j, irq_bit c2.irq_status j =
      (irq_bit c.irq_status j || (decide (j = irq) && irq_bit c.irq_mask irq)))
    (hmk : c2.irq_mask = c.irq_mask) : CtrlInv N_IRQS c2 := by
  refine ⟨fun j hj => ?_, fun j hj => ?_⟩
  · rw [hst j] at hj
    rw [hpm j]
    by_cases hji : j = irq
    · simp [hji]
    · simp only [hji, decide_False, Bool.false_and, Bool.or_false] at hj
      simp [h.1 j hj]
  · have hji : ¬ j = irq := by omega
    obtain ⟨h1, h2, h3⟩ := h.2 j hj
    rw [hpm j, hst j, hmk]
    simp [hji, h1, h2, h3]

/-- Enabling an interrupt in range keeps the invariant. -/
theorem inv_enable (N_IRQS irq : Nat) (c c2 : IrqCtrl) (hirq : irq < N_IRQS)
    (h : CtrlInv N_IRQS c)
    (hpm : ∀ j, irq_bit c2.irq_premask j = irq_bit c.irq_premask j)
    (hst : ∀ j, irq_bit c2.irq_status j =
      (irq_bit c.irq_status j || (decide (j = irq) && irq_bit c.irq_premask irq)))
    (hmk : ∀ j, irq_bit c2.irq_mask j = (irq_bit c.irq_mask j || decide (j = irq))) :
    CtrlInv N_IRQS c2 := by
  refine ⟨fun j hj => ?_, fun j hj => ?_⟩
  · rw [hst j] at hj
    rw [hpm j]
    by_cases hji : j = irq
    · subst hji
      simp only [decide_True, Bool.true_and, Bool.or_eq_true] at hj
      rcases hj with hj | hj
      · exact h.1 j hj
      · exact hj
    · simp only [hji, decide_False, Bool.false_and, Bool.or_false] at hj
      exact h.1 j hj
  · have hji : ¬ j = irq := by omega
    obtain ⟨h1, h2, h3⟩ := h.2 j hj
    rw [hpm j, hst j, hmk j]
    simp [hji, h1, h2, h3]

/-- Clearing an interrupt keeps the invariant. -/
theorem inv_clear (N_IRQS irq : Nat) (c c2 : IrqCtrl) (h : CtrlInv N_IRQS c)
    (hpm : ∀ j, irq_bit c2.irq_premask j = (irq_bit c.irq_premask j && decide (j ≠ irq)))
    (hst : ∀ j, irq_bit c2.irq_status j = (irq_bit c.irq_status j && decide (j ≠ irq)))
    (hmk : c2.irq_mask = c.irq_mask) : CtrlInv N_IRQS c2 := by
  refine ⟨fun j hj => ?_, fun j hj => ?_⟩
  · rw [hst j] at hj
    rw [hpm j]
    simp only [Bool.and_eq_true] at hj ⊢
    exact ⟨h.1 j hj.1, hj.2⟩
  · obtain ⟨h1, h2, h3⟩ := h.2 j hj
    rw [hpm j, hst j, hmk]
    simp [h1, h2, h3]

/-- The loop of `hw_irq_ctrl_clear_all_irqs` after `n` words. -/
theorem clear_all_loop (c : IrqCtrl) (n : Nat) :
    (forLoop 0 n
      (fun i (c : IrqCtrl) =>
        { c with irq_status := Function.update c.irq_status i 0,
                 irq_premask := Function.update c.irq_premask i 0 }) c).irq_mask = c.irq_mask ∧
    (∀ i, (forLoop 0 n
      (fun i (c : IrqCtrl) =>
        { c with irq_status := Function.update c.irq_status i 0,
                 irq_premask := Function.update c.irq_premask i 0 }) c).irq_status i =
      if i < n then 0 else c.irq_status i) ∧
    (∀ i, (forLoop 0 n
      (fun i (c : IrqCtrl) =>
        { c with irq_status := Function.update c.irq_status i 0,
                 irq_premask := Function.update c.irq_premask i 0 }) c).irq_premask i =
      if i < n then 0 else c.irq_premask i) := by
  refine forLoop_inv
    (fun k (a : IrqCtrl) => a.irq_mask = c.irq_mask ∧
      (∀ i, a.irq_status i = if i < k then 0 else c.irq_status i) ∧
      (∀ i, a.irq_premask i = if i < k then 0 else c.irq_premask i))
    0 n _ c (Nat.zero_le _) ⟨rfl, fun i => by simp, fun i => by simp⟩ ?_
  rintro k a _ _ ⟨hm, hs, hp⟩
  refine ⟨hm, fun i => ?_, fun i => ?_⟩
  · show Function.update a.irq_status k 0 i = _
    by_cases hik : i = k
    · subst hik; simp
    · rw [Function.update_noteq hik, hs i]
      by_cases h1 : i < k
      · have h2 : i < k + 1 := by omega
        simp [h1, h2]
      · have h2 : ¬ i < k + 1 := by omega
        simp [h1, h2]
  · show Function.update a.irq_premask k 0 i = _
    by_cases hik : i = k
    · subst hik; simp
    · rw [Function.update_noteq hik, hp i]
      by_cases h1 : i < k
      · have h2 : i < k + 1 := by omega
        simp [h1, h2]
      · have h2 : ¬ i < k + 1 := by omega
        simp [h1, h2]

/-- `hw_irq_ctrl_clear_all_enabled_irqs` keeps the invariant. -/
theorem inv_clear_all_enabled (N_IRQS : Nat) (c : IrqCtrl) (h : CtrlInv N_IRQS c) :
    CtrlInv N_IRQS (hw_irq_ctrl_clear_all_enabled_irqs N_IRQS c) := by
  obtain ⟨hm, hs, hp⟩ := clear_all_enabled_loop c (NUM_U64_IRQS N_IRQS)
  have hsb : ∀ j, irq_bit (hw_irq_ctrl_clear_all_enabled_irqs N_IRQS c).irq_status j = true →
      irq_bit c.irq_status j = true ∧ ¬ j / BITS_U64 < NUM_U64_IRQS N_IRQS := by
    intro j hj
    unfold irq_bit at hj
    have := hs (j / BITS_U64)
    by_cases hlt : j / BITS_U64 < NUM_U64_IRQS N_IRQS
    · rw [if_pos hlt] at this
      unfold hw_irq_ctrl_clear_all_enabled_irqs at hj
      rw [this, Nat.zero_testBit] at hj
      exact Bool.noConfusion hj
    · rw [if_neg hlt] at this
      unfold hw_irq_ctrl_clear_all_enabled_irqs at hj
      rw [this] at hj
      exact ⟨hj, hlt⟩
  have hpb : ∀ j, irq_bit (hw_irq_ctrl_clear_all_enabled_irqs N_IRQS c).irq_premask j = true →
      irq_bit c.irq_premask j = true := by
    intro j hj
    unfold irq_bit at hj
    have := hp (j / BITS_U64)
    unfold hw_irq_ctrl_clear_all_enabled_irqs at hj
    by_cases hlt : j / BITS_U64 < NUM_U64_IRQS N_IRQS
    · rw [if_pos hlt] at this
      rw [this, Nat.testBit_and] at hj
      simp only [Bool.and_eq_true] at hj
      exact hj.1
    · rw [if_neg hlt] at this
      rw [this] at hj
      exact hj
  refine ⟨fun j hj => ?_, fun j hj => ?_⟩
  · obtain ⟨h1, h2⟩ := hsb j hj
    unfold irq_bit hw_irq_ctrl_clear_all_enabled_irqs
    have := hp (j / BITS_U64)
    rw [if_neg h2] at this
    rw [this]
    exact h.1 j h1
  · obtain ⟨h1, h2, h3⟩ := h.2 j hj
    refine ⟨?_, ?_, ?_⟩
    · by_contra hc
      simp only [Bool.not_eq_false] at hc
      rw [hpb j hc] at h1
      exact Bool.noConfusion h1
    · by_contra hc
      simp only [Bool.not_eq_false] at hc
      rw [(hsb j hc).1] at h2
      exact Bool.noConfusion h2
    · have hmm : (hw_irq_ctrl_clear_all_enabled_irqs N_IRQS c).irq_mask = c.irq_mask := hm
      rw [hmm]; exact h3

/-- `hw_irq_ctrl_clear_all_irqs` keeps the invariant. -/
theorem inv_clear_all (N_IRQS : Nat) (c : IrqCtrl) (h : CtrlInv N_IRQS c) :
    CtrlInv N_IRQS (hw_irq_ctrl_clear_all_irqs N_IRQS c) := by
  obtain ⟨hm, hs, hp⟩ := clear_all_loop c (NUM_U64_IRQS N_IRQS)
  have hsb : ∀ j, irq_bit (hw_irq_ctrl_clear_all_irqs N_IRQS c).irq_status j = true →
      irq_bit c.irq_status j = true ∧ ¬ j / BITS_U64 < NUM_U64_IRQS N_IRQS := by
    intro j hj
    unfold irq_bit at hj
    have := hs (j / BITS_U64)
    unfold hw_irq_ctrl_clear_all_irqs at hj
    by_cases hlt : j / BITS_U64 < NUM_U64_IRQS N_IRQS
    · rw [if_pos hlt] at this
      rw [this, Nat.zero_testBit] at hj
      exact Bool.noConfusion hj
    · rw [if_neg hlt] at this
      rw [this] at hj
      exact ⟨hj, hlt⟩
  have hpb : ∀ j, irq_bit (hw_irq_ctrl_clear_all_irqs N_IRQS c).irq_premask j = true →
      irq_bit c.irq_premask j = true := by
    intro j hj
    unfold irq_bit at hj
    have := hp (j / BITS_U64)
    unfold hw_irq_ctrl_clear_all_irqs at hj
    by_cases hlt : j / BITS_U64 < NUM_U64_IRQS N_IRQS
    · rw [if_pos hlt] at this
      rw [this, Nat.zero_testBit] at hj
      exact Bool.noConfusion hj
    · rw [if_neg hlt] at this
      rw [this] at hj
      exact hj
  refine ⟨fun j hj => ?_, fun j hj => ?_⟩
  · obtain ⟨h1, h2⟩ := hsb j hj
    unfold irq_bit hw_irq_ctrl_clear_all_irqs
    have := hp (j / BITS_U64)
    rw [if_neg h2] at this
    rw [this]
    exact h.1 j h1
  · obtain ⟨h1, h2, h3⟩ := h.2 j hj
    refine ⟨?_, ?_, ?_⟩
    · by_contra hc
      simp only [Bool.not_eq_false] at hc
      rw [hpb j hc] at h1
      exact Bool.noConfusion h1
    · by_contra hc
      simp only [Bool.not_eq_false] at hc
      rw [(hsb j hc).1] at h2
      exact Bool.noConfusion h2
    · have hmm : (hw_irq_ctrl_clear_all_irqs N_IRQS c).irq_mask = c.irq_mask := hm
      rw [hmm]; exact h3

/-- `hw_irq_ctrl_change_lock` writes none of the bitsets. -/
theorem change_lock_bitsets (N_IRQS new_lock : Nat) (c : IrqCtrl) :
    (hw_irq_ctrl_change_lock N_IRQS new_lock c).2.irq_status = c.irq_status ∧
    (hw_irq_ctrl_change_lock N_IRQS new_lock c).2.irq_premask = c.irq_premask ∧
    (hw_irq_ctrl_change_lock N_IRQS new_lock c).2.irq_mask = c.irq_mask := by
  by_cases hcond : (if c.irqs_locked then 1 else 0) = 1 ∧ new_lock = 0
  · have hval : (hw_irq_ctrl_change_lock N_IRQS new_lock c).2 =
        (forLoop 0 (NUM_U64_IRQS N_IRQS)
          (fun i (st : IrqCtrl × Bool) =>
            if st.2 then st
            else if st.1.irq_status i ≠ 0 then
              ({ st.1 with cpu_calls := st.1.cpu_calls ++ [CpuNotify.irq_raised_from_sw] }, true)
            else st)
          ({ c with irqs_locked := decide (new_lock ≠ 0) }, false)).1 := by
      simp only [hw_irq_ctrl_change_lock, hcond, and_self, if_true]
    rw [hval]
    rcases change_lock_loop (NUM_U64_IRQS N_IRQS) { c with irqs_locked := decide (new_lock ≠ 0) }
      with ⟨he, _⟩ | ⟨he, _⟩
    · rw [he]; exact ⟨rfl, rfl, rfl⟩
    · rw [he]; exact ⟨rfl, rfl, rfl⟩
  · have hval : (hw_irq_ctrl_change_lock N_IRQS new_lock c).2 =
        { c with irqs_locked := decide (new_lock ≠ 0) } := by
      simp only [hw_irq_ctrl_change_lock, hcond, if_false]
    rw [hval]
    exact ⟨rfl, rfl, rfl⟩

/-- `hw_irq_ctrl_init` keeps the bits at indices `>= N_IRQS` clear, and keeps the whole
invariant when no status bit is set. -/
theorem inv_init (N_IRQS : Nat) (c : IrqCtrl) (h : CtrlInv N_IRQS c) :
    (∀ j, N_IRQS ≤ j → irq_bit (hw_irq_ctrl_init N_IRQS c).irq_premask j = false ∧
      irq_bit (hw_irq_ctrl_init N_IRQS c).irq_status j = false ∧
      irq_bit (hw_irq_ctrl_init N_IRQS c).irq_mask j = false) ∧
    ((∀ j, irq_bit c.irq_status j = false) → CtrlInv N_IRQS (hw_irq_ctrl_init N_IRQS c)) := by
  obtain ⟨hm, hp, hs, _⟩ := init_fields N_IRQS c
  have hB : ∀ j, N_IRQS ≤ j → irq_bit (hw_irq_ctrl_init N_IRQS c).irq_premask j = false ∧
      irq_bit (hw_irq_ctrl_init N_IRQS c).irq_status j = false ∧
      irq_bit (hw_irq_ctrl_init N_IRQS c).irq_mask j = false := by
    intro j hj
    obtain ⟨h1, h2, h3⟩ := h.2 j hj
    refine ⟨?_, ?_, ?_⟩
    · unfold irq_bit
      rw [hp]
      split_ifs
      · exact Nat.zero_testBit _
      · exact h1
    · rw [hs]; exact h2
    · unfold irq_bit
      rw [hm]
      split_ifs
      · exact Nat.zero_testBit _
      · exact h3
  refine ⟨hB, fun hz => ⟨fun j hj => ?_, hB⟩⟩
  rw [hs, hz j] at hj
  exact Bool.noConfusion hj

theorem inv_initial (N_IRQS : Nat) : CtrlInv N_IRQS IrqCtrl.initial := by
  refine ⟨fun j hj => ?_, fun j _ => ⟨?_, ?_, ?_⟩⟩
  · exact hj
  · exact Nat.zero_testBit _
  · exact Nat.zero_testBit _
  · exact Nat.zero_testBit _

theorem exampleIrqWorld_inv : CtrlInv 128 exampleIrqWorld.mem.1 := by
  have hbits : ∀ b, b < 64 → Nat.testBit 32 b = true → Nat.testBit 544 b = true := by decide
  refine ⟨fun j hj => ?_, fun j hj => ?_⟩
  · by_cases h0 : j / BITS_U64 = 0
    · have hb : j % BITS_U64 < 64 := Nat.mod_lt _ (by decide)
      simp only [irq_bit, exampleIrqWorld, exampleMasked, h0, if_true] at hj ⊢
      exact hbits _ hb hj
    · simp only [irq_bit, exampleIrqWorld, exampleMasked, h0, if_false, Nat.zero_testBit] at hj
      exact Bool.noConfusion hj
  · have hne : ¬ j / BITS_U64 = 0 := by simp only [BITS_U64]; omega
    refine ⟨?_, ?_, ?_⟩ <;>
      simp only [irq_bit, exampleIrqWorld, exampleMasked, hne, if_false, Nat.zero_testBit]

/-- The `while` loop over one status word is the `if` of the arbitration applied, in order,
to exactly the interrupt numbers recorded by `scan_status_reads`. -/
theorem scan_status_eq_fold (prio : Nat → Nat) (cur : Int) (i : Nat) :
    ∀ (fuel status : Nat) (acc : Int × Int),
      scan_status prio cur i fuel status acc =
        (scan_status_reads i fuel status).foldl (arbitration_step prio cur) acc := by
  intro fuel
  induction fuel with
  | zero => intro status acc; rfl
  | succ k ih =>
    intro status acc
    by_cases hz : status = 0
    · simp [scan_status, scan_status_reads, hz]
    · simp only [scan_status, scan_status_reads, ne_eq, hz, not_false_eq_true, if_true,
        List.foldl_cons]
      rw [ih]
      rfl

/-- The scan over the first `n` status words is the `if` of the arbitration applied to the
reads recorded over these words. -/
theorem scan_words_eq_fold (prio : Nat → Nat) (cur : Int) (status : Nat → Nat)
    (init : Int × Int) : ∀ n : Nat,
    forLoop 0 n (fun i acc => scan_status prio cur i BITS_U64 (status i) acc) init =
      (forLoop 0 n (fun i acc => acc ++ scan_status_reads i BITS_U64 (status i))
        []).foldl (arbitration_step prio cur) init := by
  intro n
  induction n with
  | zero =>
    rw [forLoop_empty _ _ _ _ (Nat.le_refl 0), forLoop_empty _ _ _ _ (Nat.le_refl 0)]
    rfl
  | succ k ih =>
    rw [forLoop_succ _ _ _ _ (Nat.zero_le k), forLoop_succ _ _ _ _ (Nat.zero_le k), ih,
      List.foldl_append, scan_status_eq_fold]

/-- The result of `hw_irq_ctrl_get_highest_prio_irq` is obtained by applying the `if` of the
arbitration to the recorded reads, in order: the function indexes `irq_prio` with these
numbers and no others. -/
theorem highest_prio_irq_eq_fold (N_IRQS : Nat) (c : IrqCtrl) :
    hw_irq_ctrl_get_highest_prio_irq N_IRQS c =
      if c.irqs_locked = true then -1
      else ((highest_prio_irq_reads N_IRQS c).foldl
        (arbitration_step c.irq_prio c.currently_running_prio) ((-1 : Int), (256 : Int))).1 := by
  unfold hw_irq_ctrl_get_highest_prio_irq highest_prio_irq_reads
  by_cases hl : c.irqs_locked = true
  · simp [hl]
  · simp only [hl, if_false, Bool.false_eq_true]
    rw [scan_words_eq_fold]

/-- C19. The predicate "every status bit that is set has its premask bit set, and no
premask, status or mask bit is set at an index `>= N_IRQS`" holds in the zeroed state the
program is loaded with, holds after `hw_irq_ctrl_init` (which the program runs once, as its
`HW_INIT` task, on that state; more generally on any state without a status bit set), and
is preserved, for every argument and from every state that satisfies it, by
`hw_irq_ctrl_set_irq`, `hw_irq_ctrl_raise_im`, `hw_irq_ctrl_raise_im_from_sw`,
`hw_irq_ctrl_enable_irq`, `hw_irq_ctrl_disable_irq`, `hw_irq_ctrl_clear_irq`,
`hw_irq_ctrl_clear_all_enabled_irqs`, `hw_irq_ctrl_clear_all_irqs`,
`hw_irq_ctrl_change_lock`, `hw_irq_ctrl_prio_set`, `hw_irq_ctrl_set_cur_prio` and the
wake-timer callback. `hw_irq_ctrl_get_highest_prio_irq` indexes `irq_prio` exactly with the
recorded numbers `highest_prio_irq_reads` (its result is the arbitration `if` applied to
them in order). Consequently, in a valid C state that satisfies the predicate, every
interrupt number with which it indexes `irq_prio`, and every value it returns other than
`-1`, is below `N_IRQS`. -/
theorem ctrl_invariant {X : Type} (reg : Registry (IrqCtrl × X)) (N_IRQS PHONY_HARD_IRQ : Nat)
    (w : IrqWorld X) (hinv : CtrlInv N_IRQS w.mem.1) :
    CtrlInv N_IRQS IrqCtrl.initial ∧
    CtrlInv N_IRQS (hw_irq_ctrl_init N_IRQS IrqCtrl.initial) ∧
    (∀ irq, CtrlInv N_IRQS (hw_irq_ctrl_set_irq reg N_IRQS PHONY_HARD_IRQ irq w).state.mem.1) ∧
    (∀ irq, CtrlInv N_IRQS (hw_irq_ctrl_raise_im N_IRQS PHONY_HARD_IRQ irq w.mem.1).state) ∧
    (∀ irq,
      CtrlInv N_IRQS (hw_irq_ctrl_raise_im_from_sw N_IRQS PHONY_HARD_IRQ irq w.mem.1).state) ∧
    (∀ irq, CtrlInv N_IRQS (hw_irq_ctrl_enable_irq N_IRQS PHONY_HARD_IRQ irq w.mem.1).state) ∧
    (∀ irq, CtrlInv N_IRQS (hw_irq_ctrl_disable_irq N_IRQS irq w.mem.1).state) ∧
    (∀ irq, CtrlInv N_IRQS (hw_irq_ctrl_clear_irq N_IRQS irq w.mem.1).state) ∧
    CtrlInv N_IRQS (hw_irq_ctrl_clear_all_enabled_irqs N_IRQS w.mem.1) ∧
    CtrlInv N_IRQS (hw_irq_ctrl_clear_all_irqs N_IRQS w.mem.1) ∧
    (∀ new_lock, CtrlInv N_IRQS (hw_irq_ctrl_change_lock N_IRQS new_lock w.mem.1).2) ∧
    (∀ irq prio, CtrlInv N_IRQS (hw_irq_ctrl_prio_set N_IRQS irq prio w.mem.1).state) ∧
    (∀ new, CtrlInv N_IRQS (hw_irq_ctrl_set_cur_prio new w.mem.1)) ∧
    CtrlInv N_IRQS (hw_irq_ctrl_timer_triggered reg w).mem.1 ∧
    (∀ j, N_IRQS ≤ j → irq_bit (hw_irq_ctrl_init N_IRQS w.mem.1).irq_premask j = false ∧
      irq_bit (hw_irq_ctrl_init N_IRQS w.mem.1).irq_status j = false ∧
      irq_bit (hw_irq_ctrl_init N_IRQS w.mem.1).irq_mask j = false) ∧
    ((∀ j, irq_bit w.mem.1.irq_status j = false) →
      CtrlInv N_IRQS (hw_irq_ctrl_init N_IRQS w.mem.1)) ∧
    (hw_irq_ctrl_get_highest_prio_irq N_IRQS w.mem.1 =
      if w.mem.1.irqs_locked = true then -1
      else ((highest_prio_irq_reads N_IRQS w.mem.1).foldl
        (arbitration_step w.mem.1.irq_prio w.mem.1.currently_running_prio)
        ((-1 : Int), (256 : Int))).1) ∧
    (w.mem.1.WellTyped →
      (∀ n, n ∈ highest_prio_irq_reads N_IRQS w.mem.1 → n < N_IRQS) ∧
      (∀ i : Nat, hw_irq_ctrl_get_highest_prio_irq N_IRQS w.mem.1 = (i : Int) → i < N_IRQS)) := by
  refine ⟨inv_initial N_IRQS,
    (inv_init N_IRQS IrqCtrl.initial (inv_initial N_IRQS)).2 (fun j => Nat.zero_testBit _),
    fun irq => ?_, fun irq => ?_, fun irq => ?_, fun irq => ?_, fun irq => ?_, fun irq => ?_,
    inv_clear_all_enabled N_IRQS _ hinv, inv_clear_all N_IRQS _ hinv, fun nl => ?_,
    fun irq prio => ?_, fun new => inv_congr N_IRQS _ _ rfl rfl rfl hinv, ?_,
    (inv_init N_IRQS _ hinv).1, (inv_init N_IRQS _ hinv).2,
    highest_prio_irq_eq_fold N_IRQS w.mem.1, fun hw => ⟨fun n hn => ?_, fun i hi => ?_⟩⟩
  · by_cases hirq : irq < N_IRQS
    · obtain ⟨w2, hset, hpm, hst, hmk⟩ := set_irq_bits reg N_IRQS PHONY_HARD_IRQ irq w hirq
      rw [hset]
      exact inv_raise N_IRQS irq _ _ hirq hinv hpm hst hmk
    · have hge : irq ≥ N_IRQS := by omega
      unfold hw_irq_ctrl_set_irq
      rw [if_pos hge]
      exact hinv
  · by_cases hirq : irq < N_IRQS
    · obtain ⟨c2, hres, hpm, hst, hmk⟩ := raise_im_result N_IRQS PHONY_HARD_IRQ irq w.mem.1 hirq
      rw [hres]
      exact inv_raise N_IRQS irq _ _ hirq hinv hpm hst hmk
    · have hge : irq ≥ N_IRQS := by omega
      unfold hw_irq_ctrl_raise_im
      rw [if_pos hge]
      exact hinv
  · by_cases hirq : irq < N_IRQS
    · obtain ⟨c2, hres, hpm, hst, hmk⟩ :=
        raise_im_from_sw_result N_IRQS PHONY_HARD_IRQ irq w.mem.1 hirq
      rw [hres]
      exact inv_raise N_IRQS irq _ _ hirq hinv hpm hst hmk
    · have hge : irq ≥ N_IRQS := by omega
      unfold hw_irq_ctrl_raise_im_from_sw
      rw [if_pos hge]
      exact hinv
  · by_cases hirq : irq < N_IRQS
    · obtain ⟨c2, hres, hpm, hst, hmk⟩ := enable_irq_result N_IRQS PHONY_HARD_IRQ irq w.mem.1 hirq
      rw [hres]
      exact inv_enable N_IRQS irq _ _ hirq hinv hpm hst hmk
    · have hge : irq ≥ N_IRQS := by omega
      unfold hw_irq_ctrl_enable_irq
      rw [if_pos hge]
      exact hinv
  · by_cases hirq : irq < N_IRQS
    · have hge : ¬ irq ≥ N_IRQS := by omega
      unfold hw_irq_ctrl_disable_irq
      rw [if_neg hge]
      refine ⟨hinv.1, fun j hj => ?_⟩
      obtain ⟨h1, h2, h3⟩ := hinv.2 j hj
      refine ⟨h1, h2, ?_⟩
      show irq_bit (Function.update w.mem.1.irq_mask (irq / BITS_U64)
        (w.mem.1.irq_mask (irq / BITS_U64) &&& not64 (1 <<< (irq % BITS_U64)))) j = false
      rw [irq_bit_clear, h3]
      rfl
    · have hge : irq ≥ N_IRQS := by omega
      unfold hw_irq_ctrl_disable_irq
      rw [if_pos hge]
      exact hinv
  · by_cases hirq : irq < N_IRQS
    · obtain ⟨c2, hres, hpm, hst, hmk⟩ := clear_irq_result N_IRQS irq w.mem.1 hirq
      rw [hres]
      exact inv_clear N_IRQS irq _ _ hinv hpm hst hmk
    · have hge : irq ≥ N_IRQS := by omega
      unfold hw_irq_ctrl_clear_irq
      rw [if_pos hge]
      exact hinv
  · obtain ⟨hs, hp, hm⟩ := change_lock_bitsets N_IRQS nl w.mem.1
    exact inv_congr N_IRQS _ _ hs hp hm hinv
  · unfold hw_irq_ctrl_prio_set
    split_ifs
    · exact hinv
    · exact inv_congr N_IRQS _ _ rfl rfl rfl hinv
  · obtain ⟨_, _, hs, hp, hm, _⟩ :=
      raising_from_hw_now_spec { w.mem.1 with irq_ctrl_timer := NSI_NEVER }
    exact inv_congr N_IRQS _ _ hs hp hm hinv
  · exact visible_lt N_IRQS _ hinv n (reads_visible N_IRQS _ hw n hn)
  · exact visible_lt N_IRQS _ hinv i (result_visible N_IRQS _ hw i hi)

/-- Witness of C19: the controller of `exampleIrqWorld` satisfies the predicate, and so does
the state after raising interrupt 9. -/
theorem ctrl_invariant_witness :
    CtrlInv 128 exampleIrqWorld.mem.1 ∧
    CtrlInv 128 (hw_irq_ctrl_set_irq irqReg 128 65535 9 exampleIrqWorld).state.mem.1 :=
  ⟨exampleIrqWorld_inv,
    (ctrl_invariant irqReg 128 65535 exampleIrqWorld exampleIrqWorld_inv).2.2.1 9⟩

/-! ## Delta-cycle wake-up -/

/-- Virtual time after a dispatch step is the larger of the time before and the cached next
time, whatever the outcome of the step. -/
theorem one_event_simu_time {M : Type} (reg : Registry M) (w : World M) :
    (nsi_hws_one_event reg w).state.hws.simu_time =
      max w.hws.simu_time w.hws.next_timer_time := by
  have hadv := (advanced_fields w).2.2.1
  rw [one_event_eq]
  split_ifs with hc hi
  · exact hadv
  · split
    · rename_i cb _
      rw [(bind_state_of_frame reg cb _).2]
      exact hadv
    · exact hadv
  · exact hadv

/-- C20. Delta-cycle wake-up costs no virtual time. In a program whose registry holds the
controller's wake timer `irq_ctrl_timer` (at some index `k` below `number_of_timers`), if
`hw_irq_ctrl_set_irq` is called with an interrupt in range while the controller is not locked,
then it returns with `irq_ctrl_timer` equal to the current virtual time and the scheduler's
cached `next_timer_time` at most the current virtual time, and the next dispatch step
`nsi_hws_one_event`, whether or not it ends the process, leaves `simu_time` equal to its value
at the time of the raise. -/
theorem delta_cycle_wakeup {X : Type} (reg : Registry (IrqCtrl × X))
    (N_IRQS PHONY_HARD_IRQ irq k : Nat) (w : IrqWorld X) (hirq : irq < N_IRQS)
    (hunlocked : w.mem.1.irqs_locked = false)
    (hk : reg.timers[k]? = some (fun m => m.1.irq_ctrl_timer))
    (hn : k < w.hws.number_of_timers) (ht : w.hws.simu_time < 2 ^ 64) :
    (hw_irq_ctrl_set_irq reg N_IRQS PHONY_HARD_IRQ irq w).isOk = true ∧
    (hw_irq_ctrl_set_irq reg N_IRQS PHONY_HARD_IRQ irq w).state.mem.1.irq_ctrl_timer = w.hws.simu_time ∧
    (hw_irq_ctrl_set_irq reg N_IRQS PHONY_HARD_IRQ irq w).state.hws.next_timer_time ≤ w.hws.simu_time ∧
    (hw_irq_ctrl_set_irq reg N_IRQS PHONY_HARD_IRQ irq w).state.hws.simu_time = w.hws.simu_time ∧
    (nsi_hws_one_event reg (hw_irq_ctrl_set_irq reg N_IRQS PHONY_HARD_IRQ irq w).state).state.hws.simu_time = w.hws.simu_time := by
  obtain ⟨c1, hpre, hres⟩ := set_irq_result reg N_IRQS PHONY_HARD_IRQ irq w hirq
  obtain ⟨c1', hpre', _, _, _, _, hlk, _⟩ :=
    raise_prefix_spec N_IRQS PHONY_HARD_IRQ irq w.mem.1 hirq
  have hc : c1' = c1 := by
    rw [hpre] at hpre'
    exact (Result.ok.inj hpre').symm
  subst hc
  have hcond : c1'.irqs_locked = false ∨ c1'.lock_ignore = true :=
    Or.inl (hlk.trans hunlocked)
  rw [if_pos hcond] at hres
  have hspec := find_next_event_spec reg
    (w.setCtrl { c1' with irq_ctrl_timer := nsi_hws_get_time w })
    (show 0 < w.hws.number_of_timers by omega)
  have htimer : reg.timer (w.setCtrl { c1' with irq_ctrl_timer := nsi_hws_get_time w }).mem k =
      w.hws.simu_time := by
    unfold Registry.timer
    rw [hk]
    exact Nat.mod_eq_of_lt ht
  have hnext : (nsi_hws_find_next_event reg
      (w.setCtrl { c1' with irq_ctrl_timer := nsi_hws_get_time w })).hws.next_timer_time ≤
      w.hws.simu_time := by
    rw [hspec.2, ← htimer]
    exact hspec.1.2.1 k hn
  rw [hres]
  refine ⟨rfl, rfl, hnext, rfl, ?_⟩
  rw [one_event_simu_time]
  exact Nat.max_eq_left hnext

/-- Witness of C20: raising interrupt 5 in the start-up state of a program with 128
interrupts whose only model is the controller. -/
theorem delta_cycle_wakeup_witness :
    5 < 128 ∧ (bootWorld 128).mem.1.irqs_locked = false ∧
    0 < (bootWorld 128).hws.number_of_timers ∧ (bootWorld 128).hws.simu_time < 2 ^ 64 ∧
    (hw_irq_ctrl_set_irq irqReg 128 65535 5 (bootWorld 128)).state.hws.next_timer_time ≤
      (bootWorld 128).hws.simu_time ∧
    (nsi_hws_one_event irqReg
      (hw_irq_ctrl_set_irq irqReg 128 65535 5 (bootWorld 128)).state).state.hws.simu_time =
      (bootWorld 128).hws.simu_time :=
  ⟨by decide, by decide, by decide, by decide,
    (delta_cycle_wakeup irqReg 128 65535 5 0 (bootWorld 128) (by decide) (by decide) rfl
      (by decide) (by decide)).2.2.1,
    (delta_cycle_wakeup irqReg 128 65535 5 0 (bootWorld 128) (by decide) (by decide) rfl
      (by decide) (by decide)).2.2.2.2⟩

/-! ## Scheduler: sources whose timer is `NSI_NEVER` -/

/-- C6, amended. In a run, a source whose timer equals `NSI_NEVER` at a dispatch step is not
invoked by that step as long as some registered timer differs from `NSI_NEVER`, or the deadline
`end_of_time` is below `NSI_NEVER`, or the termination flag is set. Whenever a step does invoke
a source whose timer is `NSI_NEVER`, every registered timer is `NSI_NEVER`, there is no
deadline below `NSI_NEVER`, the flag is clear and the source is the one registered first. And
when every registered timer is `NSI_NEVER`, there is no deadline below `NSI_NEVER` and the
flag is clear, the step advances virtual time to `NSI_NEVER` and invokes the callback of the
source registered first, whose timer is `NSI_NEVER`. -/
theorem never_source_not_dispatched {M : Type} (reg : Registry M) (w0 w : World M) (n i : Nat)
    (hrun : hws_run reg n w0 = .ok w) (hi : reg.timer w.mem i = NSI_NEVER) :
    (((∃ j, j < reg.timers.length ∧ reg.timer w.mem j ≠ NSI_NEVER) ∨
        w.hws.end_of_time < NSI_NEVER ∨ w.hws.signaled_end = true) →
      (nsi_hws_one_event reg w).state.dispatched ≠ w.dispatched ++ [i]) ∧
    ((nsi_hws_one_event reg w).state.dispatched = w.dispatched ++ [i] →
      (∀ j, j < reg.timers.length → reg.timer w.mem j = NSI_NEVER) ∧
      NSI_NEVER ≤ w.hws.end_of_time ∧ w.hws.signaled_end = false ∧ i = 0) ∧
    ((∀ j, j < reg.timers.length → reg.timer w.mem j = NSI_NEVER) →
      NSI_NEVER ≤ w.hws.end_of_time → w.hws.signaled_end = false →
      w.hws.simu_time ≤ NSI_NEVER →
      reg.timer w.mem 0 = NSI_NEVER ∧
      (nsi_hws_one_event reg w).state.dispatched = w.dispatched ++ [0] ∧
      (nsi_hws_one_event reg w).state.hws.simu_time = NSI_NEVER) := by
  obtain ⟨h1, _, h3, ⟨h4a, h4b, h4c⟩, h5⟩ := run_coherent reg w0 n w hrun
  have hidx : w.hws.next_timer_index < w.hws.number_of_timers := by rw [h1]; exact h4a
  have hcb : w.hws.number_of_timers ≤ reg.callbacks.length := by omega
  have key : (nsi_hws_one_event reg w).state.dispatched = w.dispatched ++ [i] →
      (∀ j, j < reg.timers.length → reg.timer w.mem j = NSI_NEVER) ∧
      NSI_NEVER ≤ w.hws.end_of_time ∧ w.hws.signaled_end = false ∧ i = 0 := by
    intro hd
    by_cases hc : w.hws.signaled_end = true ∨
        max w.hws.simu_time w.hws.next_timer_time > w.hws.end_of_time
    · rw [one_event_stops reg w hc] at hd
      simp only [Result.state] at hd
      rw [(advanced_fields w).2.1] at hd
      have := congrArg List.length hd
      simp at this
    · have hd2 := one_event_dispatches reg w hidx hcb hc
      rw [hd] at hd2
      have hii : i = w.hws.next_timer_index := by
        have := List.append_cancel_left hd2
        simpa using this
      subst hii
      have hall : ∀ j, j < reg.timers.length → reg.timer w.mem j = NSI_NEVER := by
        intro j hj
        have ha := h4b j hj
        have hb := timer_le_never reg w.mem j
        omega
      refine ⟨hall, ?_, ?_, ?_⟩
      · have hle := Nat.le_max_right w.hws.simu_time w.hws.next_timer_time
        have : ¬ (max w.hws.simu_time w.hws.next_timer_time > w.hws.end_of_time) :=
          fun h => hc (Or.inr h)
        omega
      · by_contra hs
        exact hc (Or.inl (by simpa using hs))
      · by_contra hne
        have ha := h4c 0 (by omega)
        have hb := hall 0 (by omega)
        omega
  refine ⟨fun hact hd => ?_, key, fun hall hend hsig htime => ?_⟩
  · obtain ⟨hall, hend, hsig, _⟩ := key hd
    rcases hact with ⟨j, hj, hne⟩ | hlt | hs
    · exact hne (hall j hj)
    · omega
    · rw [hsig] at hs; exact Bool.noConfusion hs
  · have hpos : 0 < reg.timers.length := by omega
    have hzero : w.hws.next_timer_index = 0 := by
      by_contra hne
      have ha := h4c 0 (by omega)
      have hb := hall 0 hpos
      have hc := hall w.hws.next_timer_index h4a
      omega
    have hnext : w.hws.next_timer_time = NSI_NEVER := by
      rw [h5]; exact hall _ h4a
    have hmax : max w.hws.simu_time w.hws.next_timer_time = NSI_NEVER := by
      rw [hnext]; exact Nat.max_eq_right htime
    have hc : ¬ (w.hws.signaled_end = true ∨
        max w.hws.simu_time w.hws.next_timer_time > w.hws.end_of_time) := by
      rw [hmax, hsig]
      simp only [Bool.false_eq_true, false_or]
      omega
    refine ⟨hall 0 hpos, ?_, ?_⟩
    · have := one_event_dispatches reg w hidx hcb hc
      rw [hzero] at this
      exact this
    · rw [one_event_simu_time, hmax]

/-- Witness of C6 amended: after the first step of `exampleReg` the timer of source 0 is
`NSI_NEVER` while source 1 is still armed, and the second step does not invoke source 0;
after the second step every timer is `NSI_NEVER`, and the third step invokes source 0 at
time `NSI_NEVER`. -/
theorem never_source_not_dispatched_witness :
    hws_run exampleReg 1 exampleWorld = .ok (hws_run exampleReg 1 exampleWorld).state ∧
    exampleReg.timer (hws_run exampleReg 1 exampleWorld).state.mem 0 = NSI_NEVER ∧
    (nsi_hws_one_event exampleReg (hws_run exampleReg 1 exampleWorld).state).state.dispatched ≠
      (hws_run exampleReg 1 exampleWorld).state.dispatched ++ [0] ∧
    hws_run exampleReg 2 exampleWorld = .ok (hws_run exampleReg 2 exampleWorld).state ∧
    exampleReg.timer (hws_run exampleReg 2 exampleWorld).state.mem 0 = NSI_NEVER ∧
    (nsi_hws_one_event exampleReg (hws_run exampleReg 2 exampleWorld).state).state.dispatched =
      (hws_run exampleReg 2 exampleWorld).state.dispatched ++ [0] ∧
    (nsi_hws_one_event exampleReg
      (hws_run exampleReg 2 exampleWorld).state).state.hws.simu_time = NSI_NEVER :=
  ⟨by decide, by decide,
    (never_source_not_dispatched exampleReg exampleWorld
      (hws_run exampleReg 1 exampleWorld).state 1 0 (by decide) (by decide)).1
      (Or.inl ⟨1, by decide, by decide⟩),
    by decide, by decide,
    ((never_source_not_dispatched exampleReg exampleWorld
      (hws_run exampleReg 2 exampleWorld).state 2 0 (by decide) (by decide)).2.2
      (by decide) (by decide) (by decide) (by decide)).2.1,
    ((never_source_not_dispatched exampleReg exampleWorld
      (hws_run exampleReg 2 exampleWorld).state 2 0 (by decide) (by decide)).2.2
      (by decide) (by decide) (by decide) (by decide)).2.2⟩

end Nsi
